import Mathlib

/-!
# TSV repair simulator: decision table, chain repair engine and sanity verifier

A shallow embedding of `tsv_repair.c`.  C arrays are lists, every array access is
bounds-checked (`none` stands for an access outside the array, which the C
program leaves undefined), and each `return` statement of `InitializeDQ` is
labelled with the place it sits at.
-/

namespace TSVRepair

/-! ## Data model -/

/-- One DQ pin, `struct dq_pin`: the two-bit shift setting. -/
structure dq_pin where
  setting : Nat
deriving DecidableEq, Repr

abbrev DQ_SHIFT_0 : Nat := 0
abbrev DQ_SHIFT_1_LEFT : Nat := 1
abbrev DQ_SHIFT_1_RIGHT : Nat := 2
abbrev DQ_SHIFT_2_RIGHT : Nat := 3

/-- One block of six pins, `struct tsv`: the six-bit operational mask and the
`borrowedPin` flag. -/
structure tsv where
  tsvOperational : Nat
  borrowedPin : Bool
deriving DecidableEq, Repr

/-- One row of the decision table, `struct tsvLookup`. -/
structure tsvLookup where
  dqPins : List dq_pin
  failed : Bool
  mustBorrow : Bool
  canLend : Bool
deriving DecidableEq, Repr

/-- The braces of one initialiser row of `tsvLookupTable`. -/
def row (a b c d : Nat) (failed mustBorrow canLend : Bool) : tsvLookup :=
  { dqPins := [⟨a⟩, ⟨b⟩, ⟨c⟩, ⟨d⟩], failed := failed, mustBorrow := mustBorrow,
    canLend := canLend }

/-- The 64 rows of `tsvLookupTable`, in source order (row `m` is the entry of mask `m`). -/
def tsvLookupTable : List tsvLookup := [
  /- 000000 -/ row DQ_SHIFT_0       DQ_SHIFT_0       DQ_SHIFT_0       DQ_SHIFT_0       true  false false,
  /- 000001 -/ row DQ_SHIFT_0       DQ_SHIFT_0       DQ_SHIFT_0       DQ_SHIFT_0       true  false false,
  /- 000010 -/ row DQ_SHIFT_0       DQ_SHIFT_0       DQ_SHIFT_0       DQ_SHIFT_0       true  false false,
  /- 000011 -/ row DQ_SHIFT_0       DQ_SHIFT_0       DQ_SHIFT_0       DQ_SHIFT_0       true  false false,
  /- 000100 -/ row DQ_SHIFT_0       DQ_SHIFT_0       DQ_SHIFT_0       DQ_SHIFT_0       true  false false,
  /- 000101 -/ row DQ_SHIFT_0       DQ_SHIFT_0       DQ_SHIFT_0       DQ_SHIFT_0       true  false false,
  /- 000110 -/ row DQ_SHIFT_0       DQ_SHIFT_0       DQ_SHIFT_0       DQ_SHIFT_0       true  false false,
  /- 000111 -/ row DQ_SHIFT_2_RIGHT DQ_SHIFT_2_RIGHT DQ_SHIFT_2_RIGHT DQ_SHIFT_2_RIGHT false true  false,
  /- 001000 -/ row DQ_SHIFT_0       DQ_SHIFT_0       DQ_SHIFT_0       DQ_SHIFT_0       true  false false,
  /- 001001 -/ row DQ_SHIFT_0       DQ_SHIFT_0       DQ_SHIFT_0       DQ_SHIFT_0       true  false false,
  /- 001010 -/ row DQ_SHIFT_0       DQ_SHIFT_0       DQ_SHIFT_0       DQ_SHIFT_0       true  false false,
  /- 001011 -/ row DQ_SHIFT_1_RIGHT DQ_SHIFT_2_RIGHT DQ_SHIFT_2_RIGHT DQ_SHIFT_2_RIGHT false true  false,
  /- 001100 -/ row DQ_SHIFT_0       DQ_SHIFT_0       DQ_SHIFT_0       DQ_SHIFT_0       true  false false,
  /- 001101 -/ row DQ_SHIFT_1_RIGHT DQ_SHIFT_1_RIGHT DQ_SHIFT_2_RIGHT DQ_SHIFT_2_RIGHT false true  false,
  /- 001110 -/ row DQ_SHIFT_1_RIGHT DQ_SHIFT_1_RIGHT DQ_SHIFT_1_RIGHT DQ_SHIFT_2_RIGHT false true  false,
  /- 001111 -/ row DQ_SHIFT_1_RIGHT DQ_SHIFT_1_RIGHT DQ_SHIFT_1_RIGHT DQ_SHIFT_1_RIGHT false false false,
  /- 010000 -/ row DQ_SHIFT_0       DQ_SHIFT_0       DQ_SHIFT_0       DQ_SHIFT_0       true  false false,
  /- 010001 -/ row DQ_SHIFT_0       DQ_SHIFT_0       DQ_SHIFT_0       DQ_SHIFT_0       true  false false,
  /- 010010 -/ row DQ_SHIFT_0       DQ_SHIFT_0       DQ_SHIFT_0       DQ_SHIFT_0       true  false false,
  /- 010011 -/ row DQ_SHIFT_0       DQ_SHIFT_2_RIGHT DQ_SHIFT_2_RIGHT DQ_SHIFT_2_RIGHT false true  false,
  /- 010100 -/ row DQ_SHIFT_0       DQ_SHIFT_0       DQ_SHIFT_0       DQ_SHIFT_0       true  false false,
  /- 010101 -/ row DQ_SHIFT_0       DQ_SHIFT_1_RIGHT DQ_SHIFT_2_RIGHT DQ_SHIFT_2_RIGHT false true  false,
  /- 010110 -/ row DQ_SHIFT_0       DQ_SHIFT_1_RIGHT DQ_SHIFT_1_RIGHT DQ_SHIFT_2_RIGHT false true  false,
  /- 010111 -/ row DQ_SHIFT_0       DQ_SHIFT_1_RIGHT DQ_SHIFT_1_RIGHT DQ_SHIFT_1_RIGHT false false false,
  /- 011000 -/ row DQ_SHIFT_0       DQ_SHIFT_0       DQ_SHIFT_0       DQ_SHIFT_0       true  false false,
  /- 011001 -/ row DQ_SHIFT_0       DQ_SHIFT_0       DQ_SHIFT_2_RIGHT DQ_SHIFT_2_RIGHT false true  false,
  /- 011010 -/ row DQ_SHIFT_0       DQ_SHIFT_0       DQ_SHIFT_1_RIGHT DQ_SHIFT_2_RIGHT false true  false,
  /- 011011 -/ row DQ_SHIFT_0       DQ_SHIFT_0       DQ_SHIFT_1_RIGHT DQ_SHIFT_1_RIGHT false false false,
  /- 011100 -/ row DQ_SHIFT_0       DQ_SHIFT_0       DQ_SHIFT_0       DQ_SHIFT_2_RIGHT false true  false,
  /- 011101 -/ row DQ_SHIFT_0       DQ_SHIFT_0       DQ_SHIFT_0       DQ_SHIFT_1_RIGHT false false false,
  /- 011110 -/ row DQ_SHIFT_0       DQ_SHIFT_0       DQ_SHIFT_0       DQ_SHIFT_0       false false false,
  /- 011111 -/ row DQ_SHIFT_0       DQ_SHIFT_0       DQ_SHIFT_0       DQ_SHIFT_0       false false false,
  /- 100000 -/ row DQ_SHIFT_0       DQ_SHIFT_0       DQ_SHIFT_0       DQ_SHIFT_0       true  false false,
  /- 100001 -/ row DQ_SHIFT_0       DQ_SHIFT_0       DQ_SHIFT_0       DQ_SHIFT_0       true  false false,
  /- 100010 -/ row DQ_SHIFT_0       DQ_SHIFT_0       DQ_SHIFT_0       DQ_SHIFT_0       true  false false,
  /- 100011 -/ row DQ_SHIFT_1_LEFT  DQ_SHIFT_2_RIGHT DQ_SHIFT_2_RIGHT DQ_SHIFT_2_RIGHT false true  false,
  /- 100100 -/ row DQ_SHIFT_0       DQ_SHIFT_0       DQ_SHIFT_0       DQ_SHIFT_0       true  false false,
  /- 100101 -/ row DQ_SHIFT_1_LEFT  DQ_SHIFT_1_RIGHT DQ_SHIFT_2_RIGHT DQ_SHIFT_2_RIGHT false true  false,
  /- 100110 -/ row DQ_SHIFT_1_LEFT  DQ_SHIFT_1_RIGHT DQ_SHIFT_1_RIGHT DQ_SHIFT_2_RIGHT false true  false,
  /- 100111 -/ row DQ_SHIFT_1_LEFT  DQ_SHIFT_1_RIGHT DQ_SHIFT_1_RIGHT DQ_SHIFT_1_RIGHT false false false,
  /- 101000 -/ row DQ_SHIFT_0       DQ_SHIFT_0       DQ_SHIFT_0       DQ_SHIFT_0       true  false false,
  /- 101001 -/ row DQ_SHIFT_1_LEFT  DQ_SHIFT_0       DQ_SHIFT_2_RIGHT DQ_SHIFT_2_RIGHT false true  false,
  /- 101010 -/ row DQ_SHIFT_1_LEFT  DQ_SHIFT_0       DQ_SHIFT_1_RIGHT DQ_SHIFT_2_RIGHT false true  false,
  /- 101011 -/ row DQ_SHIFT_1_LEFT  DQ_SHIFT_0       DQ_SHIFT_1_RIGHT DQ_SHIFT_1_RIGHT false false false,
  /- 101100 -/ row DQ_SHIFT_1_LEFT  DQ_SHIFT_0       DQ_SHIFT_0       DQ_SHIFT_2_RIGHT false true  false,
  /- 101101 -/ row DQ_SHIFT_1_LEFT  DQ_SHIFT_0       DQ_SHIFT_0       DQ_SHIFT_1_RIGHT false false false,
  /- 101110 -/ row DQ_SHIFT_1_LEFT  DQ_SHIFT_0       DQ_SHIFT_0       DQ_SHIFT_0       false false false,
  /- 101111 -/ row DQ_SHIFT_1_RIGHT DQ_SHIFT_1_RIGHT DQ_SHIFT_1_RIGHT DQ_SHIFT_1_RIGHT false false true,
  /- 110000 -/ row DQ_SHIFT_0       DQ_SHIFT_0       DQ_SHIFT_0       DQ_SHIFT_0       true  false false,
  /- 110001 -/ row DQ_SHIFT_1_LEFT  DQ_SHIFT_1_LEFT  DQ_SHIFT_2_RIGHT DQ_SHIFT_2_RIGHT false true  false,
  /- 110010 -/ row DQ_SHIFT_1_LEFT  DQ_SHIFT_1_LEFT  DQ_SHIFT_1_RIGHT DQ_SHIFT_2_RIGHT false true  false,
  /- 110011 -/ row DQ_SHIFT_1_LEFT  DQ_SHIFT_1_LEFT  DQ_SHIFT_1_RIGHT DQ_SHIFT_1_RIGHT false false false,
  /- 110100 -/ row DQ_SHIFT_1_LEFT  DQ_SHIFT_1_LEFT  DQ_SHIFT_0       DQ_SHIFT_2_RIGHT false true  false,
  /- 110101 -/ row DQ_SHIFT_1_LEFT  DQ_SHIFT_1_LEFT  DQ_SHIFT_0       DQ_SHIFT_1_RIGHT false false false,
  /- 110110 -/ row DQ_SHIFT_1_LEFT  DQ_SHIFT_1_LEFT  DQ_SHIFT_0       DQ_SHIFT_0       false false false,
  /- 110111 -/ row DQ_SHIFT_0       DQ_SHIFT_1_RIGHT DQ_SHIFT_1_RIGHT DQ_SHIFT_1_RIGHT false false true,
  /- 111000 -/ row DQ_SHIFT_1_LEFT  DQ_SHIFT_1_LEFT  DQ_SHIFT_1_LEFT  DQ_SHIFT_2_RIGHT false true  false,
  /- 111001 -/ row DQ_SHIFT_1_LEFT  DQ_SHIFT_1_LEFT  DQ_SHIFT_1_LEFT  DQ_SHIFT_1_RIGHT false false false,
  /- 111010 -/ row DQ_SHIFT_1_LEFT  DQ_SHIFT_1_LEFT  DQ_SHIFT_1_LEFT  DQ_SHIFT_0       false false false,
  /- 111011 -/ row DQ_SHIFT_0       DQ_SHIFT_0       DQ_SHIFT_1_RIGHT DQ_SHIFT_1_RIGHT false false true,
  /- 111100 -/ row DQ_SHIFT_1_LEFT  DQ_SHIFT_1_LEFT  DQ_SHIFT_1_LEFT  DQ_SHIFT_1_LEFT  false false false,
  /- 111101 -/ row DQ_SHIFT_0       DQ_SHIFT_0       DQ_SHIFT_0       DQ_SHIFT_1_RIGHT false false true,
  /- 111110 -/ row DQ_SHIFT_0       DQ_SHIFT_0       DQ_SHIFT_0       DQ_SHIFT_0       false false true,
  /- 111111 -/ row DQ_SHIFT_0       DQ_SHIFT_0       DQ_SHIFT_0       DQ_SHIFT_0       false false true
]

/-! ## Sanity verifier -/

/-- The `if` chain of `sanityTestTable` that turns a setting into a signed shift;
`dq_shift` starts at 0 and keeps that value when no branch matches. -/
def dqShift (setting : Nat) : Int :=
  if setting = DQ_SHIFT_0 then 0
  else if setting = DQ_SHIFT_1_LEFT then -1
  else if setting = DQ_SHIFT_1_RIGHT then 1
  else if setting = DQ_SHIFT_2_RIGHT then 2
  else 0

/-- The expression `i + pinOffset + dq_shift`, evaluated as C does in `unsigned int`
(32 bits) because `pinOffset` is unsigned. -/
def tsvIndex (i pinOffset : Nat) (dq_shift : Int) : Nat :=
  (((i : Int) + (pinOffset : Int) + dq_shift) % 4294967296).toNat

/-- The `for (i = 0; i < 256; i++)` loop of `sanityTestTable`, with `n` iterations
left to run.  `some false` and `some true` are the two return values; `none` is an
access outside `totaldqPins`, `totalPins` or `tsvBlocks`.  `pinOffset` never exceeds 129,
so `pinOffset += 2` needs no reduction modulo 2^32. -/
def sanityLoop (tsvBlocks : List tsv) (totaldqPins : List dq_pin) :
    Nat → Nat → Nat → List Int → Option Bool
  | 0, _, _, _ => some true
  | n + 1, i, pinOffset, totalPins =>
    match totaldqPins[i]? with
    | none => none
    | some pin =>
      let idx := tsvIndex i pinOffset (dqShift pin.setting)
      match totalPins[idx]? with
      | none => none
      | some claimed =>
        if claimed ≠ -1 then some false
        else
          let totalPins' := totalPins.set idx (i : Int)
          match tsvBlocks[idx / 6]? with
          | none => none
          | some blk =>
            if blk.tsvOperational &&& (1 <<< (5 - idx % 6)) = 0 then some false
            else
              sanityLoop tsvBlocks totaldqPins n (i + 1)
                (if (i + 1) % 4 = 0 then pinOffset + 2 else pinOffset) totalPins'

/-- The verifier `sanityTestTable`: `pinOffset` starts at 1 and the 384 entries of
`totalPins` start at -1. -/
def sanityTestTable (tsvBlocks : List tsv) (totaldqPins : List dq_pin) : Option Bool :=
  sanityLoop tsvBlocks totaldqPins 256 0 1 (List.replicate (64 * 6) (-1))

/-! ## Chain repair engine -/

/-- The `return` statements of `InitializeDQ`. -/
inductive ReturnSite where
  /-- `return false` under `if (lookup.failed)`, at block `i`. -/
  | IntrinsicBlockFailure (i : Nat)
  /-- `return false` under `if ((tsvOperational & 0x20) == 0)`, at block `i`. -/
  | BorrowUnavailable (i : Nat)
  /-- `return false` under `if (borrowLookup.failed)`, at block `i`. -/
  | ChainBorrowFailure (i : Nat)
  /-- `return false` under `if (mustBorrow)` after the loop. -/
  | UnresolvedAtBoundary
  /-- `return false` under `if (!sanityTestTable(...))`. -/
  | VerificationFailure
  /-- The last statement, `return !mustBorrow`. -/
  | Done (value : Bool)
deriving DecidableEq, Repr

/-- The boolean that `InitializeDQ` returns at each of its `return` statements. -/
def ReturnSite.value : ReturnSite → Bool
  | .Done value => value
  | _ => false

/-- What one pass through the body of the block loop does: it leaves the function
through a `return`, or it goes on to the next block with a new borrow flag. -/
inductive Step where
  | returned (site : ReturnSite) (totaldqPins : List dq_pin)
  | next (mustBorrow : Bool) (totaldqPins : List dq_pin)
deriving DecidableEq, Repr

/-- A bounds-checked array store `xs[k] = v`. -/
def store {α : Type} (xs : List α) (k : Nat) (v : α) : Option (List α) :=
  if k < xs.length then some (xs.set k v) else none

/-- The inner loop `for (j = 0; j < 4; j++) totaldqPins[i*4+j] = lookup.dqPins[j]`,
with `n` iterations left to run. -/
def writeDQ (lookup : tsvLookup) (i : Nat) : Nat → Nat → List dq_pin → Option (List dq_pin)
  | 0, _, totaldqPins => some totaldqPins
  | n + 1, j, totaldqPins =>
    match lookup.dqPins[j]? with
    | none => none
    | some pin =>
      match store totaldqPins (i * 4 + j) pin with
      | none => none
      | some totaldqPins' => writeDQ lookup i n (j + 1) totaldqPins'

/-- The tail of the loop body once the effective `lookup` is chosen: set `mustBorrow`
from it and copy its four settings. -/
def commitLookup (lookup : tsvLookup) (i : Nat) (totaldqPins : List dq_pin) : Option Step :=
  match writeDQ lookup i 4 0 totaldqPins with
  | none => none
  | some totaldqPins' => some (.next (if lookup.mustBorrow then true else false) totaldqPins')

/-- The body of `for (int i = 0; i < 64; i++)` in `InitializeDQ`. -/
def loopBody (tsvBlocks : List tsv) (i : Nat) (mustBorrow : Bool)
    (totaldqPins : List dq_pin) : Option Step :=
  match tsvBlocks[i]? with
  | none => none
  | some blk =>
    match tsvLookupTable[blk.tsvOperational]? with
    | none => none
    | some lookup =>
      if lookup.failed then some (.returned (.IntrinsicBlockFailure i) totaldqPins)
      else if mustBorrow && !lookup.canLend then
        if blk.tsvOperational &&& 0x20 = 0 then
          some (.returned (.BorrowUnavailable i) totaldqPins)
        else
          match tsvLookupTable[blk.tsvOperational &&& 0x1F]? with
          | none => none
          | some borrowLookup =>
            if borrowLookup.failed then some (.returned (.ChainBorrowFailure i) totaldqPins)
            else commitLookup borrowLookup i totaldqPins
      else commitLookup lookup i totaldqPins

/-- The block loop of `InitializeDQ` with `n` iterations left to run, at block `i`. -/
def blockLoop (tsvBlocks : List tsv) : Nat → Nat → Bool → List dq_pin → Option Step
  | 0, _, mustBorrow, totaldqPins => some (.next mustBorrow totaldqPins)
  | n + 1, i, mustBorrow, totaldqPins =>
    match loopBody tsvBlocks i mustBorrow totaldqPins with
    | none => none
    | some (.returned site totaldqPins') => some (.returned site totaldqPins')
    | some (.next mustBorrow' totaldqPins') => blockLoop tsvBlocks n (i + 1) mustBorrow' totaldqPins'

/-- The function `InitializeDQ`: the return site taken and the final contents of
`totaldqPins`.  Printing is left out, so `printOutput` has no effect. -/
def InitializeDQ (tsvBlocks : List tsv) (totaldqPins : List dq_pin) (printOutput : Bool) :
    Option (ReturnSite × List dq_pin) :=
  match blockLoop tsvBlocks 64 0 false totaldqPins with
  | none => none
  | some (.returned site totaldqPins') => some (site, totaldqPins')
  | some (.next mustBorrow totaldqPins') =>
    if mustBorrow then some (.UnresolvedAtBoundary, totaldqPins')
    else
      match sanityTestTable tsvBlocks totaldqPins' with
      | none => none
      | some false => some (.VerificationFailure, totaldqPins')
      | some true => some (.Done (!mustBorrow), totaldqPins')

/-! ## Notions used to state the properties -/

/-- Number of set bits among the six bits of a mask. -/
def bitsSet (m : Nat) : Nat :=
  ((List.range 6).filter (fun k => m.testBit k)).length

/-- The signed shift a setting stands for: codes 0, 1, 2, 3 mean 0, -1, +1, +2. -/
def shiftValue : Nat → Int
  | 0 => 0
  | 1 => -1
  | 2 => 1
  | 3 => 2
  | _ => 0

/-- The physical index of DQ `i` under shift code `code`:
`6 * (i div 4) + 1 + (i mod 4) + shift`. -/
def physIndex (i code : Nat) : Int :=
  6 * ((i / 4 : Nat) : Int) + 1 + ((i % 4 : Nat) : Int) + shiftValue code

/-- The setting stored for DQ `i` (0 when `i` is outside the list). -/
def settingAt (totaldqPins : List dq_pin) (i : Nat) : Nat :=
  match totaldqPins[i]? with
  | some pin => pin.setting
  | none => 0

/-- The physical index computed from the emitted shift of DQ `i`. -/
def dqIndex (totaldqPins : List dq_pin) (i : Nat) : Int :=
  physIndex i (settingAt totaldqPins i)

/-- Pin `k` of the 64 x 6 grid is functional: bit `5 - k mod 6` of the mask of block
`k div 6` is set. -/
def functionalPin (tsvBlocks : List tsv) (k : Nat) : Bool :=
  match tsvBlocks[k / 6]? with
  | some blk => blk.tsvOperational.testBit (5 - k % 6)
  | none => false

/-- The index the verifier computes for DQ `i`, with the value `pinOffset` has when
the loop reaches `i`. -/
def codeIndex (totaldqPins : List dq_pin) (i : Nat) : Nat :=
  tsvIndex i (1 + 2 * (i / 4)) (dqShift (settingAt totaldqPins i))

/-- The verifier's mask test `(tsvOperational & (1 << (5 - k % 6))) != 0` at pin `k`. -/
def maskTest (tsvBlocks : List tsv) (k : Nat) : Prop :=
  ∃ blk, tsvBlocks[k / 6]? = some blk ∧ blk.tsvOperational &&& (1 <<< (5 - k % 6)) ≠ 0

/-- The input of one repair attempt: 64 blocks with six-bit masks and 256 DQ pins. -/
def WellFormed (tsvBlocks : List tsv) (totaldqPins : List dq_pin) : Prop :=
  tsvBlocks.length = 64 ∧ totaldqPins.length = 256 ∧
    ∀ blk ∈ tsvBlocks, blk.tsvOperational < 64

/-- The list `totaldqPins` after the four stores `totaldqPins[i*4+j] = dqPins[j]`. -/
def writeRow (totaldqPins : List dq_pin) (i : Nat) (dqPins : List dq_pin) : List dq_pin :=
  totaldqPins.take (i * 4) ++ dqPins ++ totaldqPins.drop (i * 4 + 4)

/-- The local position `1 + d + shift` of DQ `d` inside its block under shift code `code`. -/
def localPosition (d code : Nat) : Int :=
  1 + (d : Int) + shiftValue code

/-- The value of the running variable `pinOffset` of `sanityTestTable` when the loop reaches
DQ `i`: it starts at 1 and `if ((i + 1) % 4 == 0) pinOffset += 2` runs at the end of every
iteration. -/
def pinOffsetAt : Nat → Nat
  | 0 => 1
  | i + 1 => if (i + 1) % 4 = 0 then pinOffsetAt i + 2 else pinOffsetAt i

/-- Two outcomes of the block loop that differ at most in the DQ entries from `bound` on:
both undefined, both returned at the same site, or both went on with the same borrow flag
and arrays of one length that agree below `bound`. -/
def StepAgree (bound : Nat) : Option Step → Option Step → Prop
  | none, none => True
  | some (.returned site₁ _), some (.returned site₂ _) => site₁ = site₂
  | some (.next mustBorrow₁ out₁), some (.next mustBorrow₂ out₂) =>
    mustBorrow₁ = mustBorrow₂ ∧ out₁.length = out₂.length ∧
      ∀ k, k < bound → out₁[k]? = out₂[k]?
  | _, _ => False

/-- The two arrays that `InitializeDQ` and `sanityTestTable` receive by reference. -/
structure Memory where
  tsvBlocks : List tsv
  totaldqPins : List dq_pin
deriving DecidableEq, Repr

/-- The assignment `totaldqPins[k] = pin` on the caller's memory, bounds-checked.  It is the
only assignment through either pointer parameter in `InitializeDQ`. -/
def Memory.storeDQ (mem : Memory) (k : Nat) (pin : dq_pin) : Option Memory :=
  match store mem.totaldqPins k pin with
  | none => none
  | some totaldqPins' => some { tsvBlocks := mem.tsvBlocks, totaldqPins := totaldqPins' }

/-- What one pass through the body of the block loop does to the caller's memory: it leaves
the function through a `return`, or it goes on to the next block with a new borrow flag. -/
inductive MemStep where
  | returned (site : ReturnSite) (mem : Memory)
  | next (mustBorrow : Bool) (mem : Memory)
deriving DecidableEq, Repr

/-- The inner loop `for (j = 0; j < 4; j++) totaldqPins[i*4+j] = lookup.dqPins[j]` run on the
caller's memory, with `n` iterations left to run. -/
def writeDQ_mem (lookup : tsvLookup) (i : Nat) : Nat → Nat → Memory → Option Memory
  | 0, _, mem => some mem
  | n + 1, j, mem =>
    match lookup.dqPins[j]? with
    | none => none
    | some pin =>
      match mem.storeDQ (i * 4 + j) pin with
      | none => none
      | some mem' => writeDQ_mem lookup i n (j + 1) mem'

/-- The tail of the loop body run on the caller's memory: set `mustBorrow` from the
effective `lookup` and copy its four settings. -/
def commitLookup_mem (lookup : tsvLookup) (i : Nat) (mem : Memory) : Option MemStep :=
  match writeDQ_mem lookup i 4 0 mem with
  | none => none
  | some mem' => some (.next (if lookup.mustBorrow then true else false) mem')

/-- The body of `for (int i = 0; i < 64; i++)` in `InitializeDQ` run on the caller's memory:
every `tsvBlocks[i].tsvOperational` is read from the memory as it is when the body runs. -/
def loopBody_mem (i : Nat) (mustBorrow : Bool) (mem : Memory) : Option MemStep :=
  match mem.tsvBlocks[i]? with
  | none => none
  | some blk =>
    match tsvLookupTable[blk.tsvOperational]? with
    | none => none
    | some lookup =>
      if lookup.failed then some (.returned (.IntrinsicBlockFailure i) mem)
      else if mustBorrow && !lookup.canLend then
        if blk.tsvOperational &&& 0x20 = 0 then
          some (.returned (.BorrowUnavailable i) mem)
        else
          match tsvLookupTable[blk.tsvOperational &&& 0x1F]? with
          | none => none
          | some borrowLookup =>
            if borrowLookup.failed then some (.returned (.ChainBorrowFailure i) mem)
            else commitLookup_mem borrowLookup i mem
      else commitLookup_mem lookup i mem

/-- The block loop of `InitializeDQ` run on the caller's memory, with `n` iterations left to
run, at block `i`. -/
def blockLoop_mem : Nat → Nat → Bool → Memory → Option MemStep
  | 0, _, mustBorrow, mem => some (.next mustBorrow mem)
  | n + 1, i, mustBorrow, mem =>
    match loopBody_mem i mustBorrow mem with
    | none => none
    | some (.returned site mem') => some (.returned site mem')
    | some (.next mustBorrow' mem') => blockLoop_mem n (i + 1) mustBorrow' mem'

/-- The `for (i = 0; i < 256; i++)` loop of `sanityTestTable` run on the caller's memory, with
`n` iterations left to run.  Its only assignment to an array element is
`totalPins[i + pinOffset + dq_shift] = i`, into the local array `totalPins`; the result is
the returned boolean and the caller's memory at the `return`. -/
def sanityLoop_mem : Nat → Nat → Nat → List Int → Memory → Option (Bool × Memory)
  | 0, _, _, _, mem => some (true, mem)
  | n + 1, i, pinOffset, totalPins, mem =>
    match mem.totaldqPins[i]? with
    | none => none
    | some pin =>
      let idx := tsvIndex i pinOffset (dqShift pin.setting)
      match totalPins[idx]? with
      | none => none
      | some claimed =>
        if claimed ≠ -1 then some (false, mem)
        else
          let totalPins' := totalPins.set idx (i : Int)
          match mem.tsvBlocks[idx / 6]? with
          | none => none
          | some blk =>
            if blk.tsvOperational &&& (1 <<< (5 - idx % 6)) = 0 then some (false, mem)
            else
              sanityLoop_mem n (i + 1)
                (if (i + 1) % 4 = 0 then pinOffset + 2 else pinOffset) totalPins' mem

/-- The verifier `sanityTestTable` run on the caller's memory: the returned boolean and the
memory after the call. -/
def sanityTestTable_mem (mem : Memory) : Option (Bool × Memory) :=
  sanityLoop_mem 256 0 1 (List.replicate (64 * 6) (-1)) mem

/-- The function `InitializeDQ` run on the caller's memory: the return site taken and the
memory after the call.  The call `sanityTestTable(tsvBlocks, totaldqPins)` runs on the memory
the block loop leaves. -/
def InitializeDQ_mem (mem : Memory) (printOutput : Bool) : Option (ReturnSite × Memory) :=
  match blockLoop_mem 64 0 false mem with
  | none => none
  | some (.returned site mem') => some (site, mem')
  | some (.next mustBorrow mem') =>
    if mustBorrow then some (.UnresolvedAtBoundary, mem')
    else
      match sanityTestTable_mem mem' with
      | none => none
      | some (false, mem'') => some (.VerificationFailure, mem'')
      | some (true, mem'') => some (.Done (!mustBorrow), mem'')

/-- A step of the block loop on arrays, seen as a step on the memory whose blocks are
`tsvBlocks`. -/
def Step.onMemory (tsvBlocks : List tsv) : Step → MemStep
  | .returned site totaldqPins => .returned site ⟨tsvBlocks, totaldqPins⟩
  | .next mustBorrow totaldqPins => .next mustBorrow ⟨tsvBlocks, totaldqPins⟩

/-- Local position `p` is a functional pin of a block with mask `m`: `p` is in 0..5 and bit
`5 - p` of `m` is set. -/
def positionInBlock (m : Nat) (p : Int) : Prop :=
  0 ≤ p ∧ p ≤ 5 ∧ m.testBit (5 - p.toNat) = true

/-- Local position `p` can be taken by a DQ of a block with mask `m`: a functional pin of
the block, or position 6, the leftmost pin of the next block. -/
def positionFree (m : Nat) (p : Int) : Prop :=
  positionInBlock m p ∨ p = 6

/-- Four positions are pairwise distinct. -/
def distinct4 (p0 p1 p2 p3 : Int) : Prop :=
  p0 ≠ p1 ∧ p0 ≠ p2 ∧ p0 ≠ p3 ∧ p1 ≠ p2 ∧ p1 ≠ p3 ∧ p2 ≠ p3

/-- The shift codes `c0 .. c3` (shifts in {-1, 0, +1, +2}) send the four DQs of a block with
mask `m` to pairwise distinct positions, each a functional pin of the block or position 6. -/
def Placement (m c0 c1 c2 c3 : Nat) : Prop :=
  c0 < 4 ∧ c1 < 4 ∧ c2 < 4 ∧ c3 < 4 ∧
    distinct4 (localPosition 0 c0) (localPosition 1 c1) (localPosition 2 c2)
      (localPosition 3 c3) ∧
    positionFree m (localPosition 0 c0) ∧ positionFree m (localPosition 1 c1) ∧
    positionFree m (localPosition 2 c2) ∧ positionFree m (localPosition 3 c3)

/-- The shift codes `c0 .. c3` send the four DQs of a block with mask `m` to pairwise
distinct functional pins inside the block. -/
def PlacementInBlock (m c0 c1 c2 c3 : Nat) : Prop :=
  c0 < 4 ∧ c1 < 4 ∧ c2 < 4 ∧ c3 < 4 ∧
    distinct4 (localPosition 0 c0) (localPosition 1 c1) (localPosition 2 c2)
      (localPosition 3 c3) ∧
    positionInBlock m (localPosition 0 c0) ∧ positionInBlock m (localPosition 1 c1) ∧
    positionInBlock m (localPosition 2 c2) ∧ positionInBlock m (localPosition 3 c3)

instance decPlacement (m c0 c1 c2 c3 : Nat) : Decidable (Placement m c0 c1 c2 c3) := by
  unfold Placement distinct4 positionFree positionInBlock
  infer_instance

instance decPlacementInBlock (m c0 c1 c2 c3 : Nat) :
    Decidable (PlacementInBlock m c0 c1 c2 c3) := by
  unfold PlacementInBlock distinct4 positionInBlock
  infer_instance

/-- Total shift magnitude of four shift codes: the sum of the absolute shifts. -/
def shiftMagnitude (c0 c1 c2 c3 : Nat) : Nat :=
  (shiftValue c0).natAbs + (shiftValue c1).natAbs + (shiftValue c2).natAbs +
    (shiftValue c3).natAbs

/-- Total shift magnitude of a table entry. -/
def entryMagnitude (e : tsvLookup) : Nat :=
  shiftMagnitude (settingAt e.dqPins 0) (settingAt e.dqPins 1) (settingAt e.dqPins 2)
    (settingAt e.dqPins 3)

/-- The four ways the loop body of `InitializeDQ` can deal with a block: the three
`return false` branches, or the table row whose settings it writes. -/
inductive Resolution where
  | intrinsic
  | borrowUnavailable
  | chainFailure
  | resolved (lookup : tsvLookup)
deriving DecidableEq, Repr

/-- The decisions of the loop body of `InitializeDQ` for a block with mask `m` and inbound
borrow `inbound`, without the stores: the branch taken, with the effective `lookup`. -/
def resolve (m : Nat) (inbound : Bool) : Option Resolution :=
  match tsvLookupTable[m]? with
  | none => none
  | some lookup =>
    if lookup.failed then some .intrinsic
    else if inbound && !lookup.canLend then
      if m &&& 0x20 = 0 then some .borrowUnavailable
      else
        match tsvLookupTable[m &&& 0x1F]? with
        | none => none
        | some borrowLookup =>
          if borrowLookup.failed then some .chainFailure
          else some (.resolved borrowLookup)
    else some (.resolved lookup)

/-- The row written for a block with mask `m` and inbound borrow `inbound`, when the block
is resolved. -/
def resolvedRow (m : Nat) (inbound : Bool) : Option tsvLookup :=
  match resolve m inbound with
  | some (.resolved lookup) => some lookup
  | _ => none

/-- The pins of a block that are left to its own DQs: all of them, or all but the leftmost
one when the previous block has taken it. -/
def availableMask (m : Nat) (inbound : Bool) : Nat :=
  if inbound then m &&& 0x1F else m

/-- The local position `1 + (i mod 4) + shift` that the setting stored for DQ `i` gives. -/
def posAt (totaldqPins : List dq_pin) (i : Nat) : Int :=
  localPosition (i % 4) (settingAt totaldqPins i)

/-- What holds of the assignment after the block loop has resolved blocks 0..n-1 and carries
the borrow flag `mustBorrow`: every DQ written sits on a functional pin of its own block or
on position 6, positions inside a block increase, a position 6 is the functional leftmost
pin of the next block and is not used by that block, and the flag says whether the last DQ
written sits on position 6. -/
def ChainInv (tsvBlocks : List tsv) (n : Nat) (mustBorrow : Bool)
    (totaldqPins : List dq_pin) : Prop :=
  (∀ i, i < 4 * n →
    0 ≤ posAt totaldqPins i ∧ posAt totaldqPins i ≤ 6 ∧
    (posAt totaldqPins i ≤ 5 →
      functionalPin tsvBlocks (6 * (i / 4) + (posAt totaldqPins i).toNat) = true) ∧
    (posAt totaldqPins i = 6 → i % 4 = 3)) ∧
  (∀ i, i + 1 < 4 * n → i % 4 < 3 → posAt totaldqPins i < posAt totaldqPins (i + 1)) ∧
  (∀ k, k + 1 < n → posAt totaldqPins (4 * k + 3) = 6 →
    functionalPin tsvBlocks (6 * (k + 1)) = true ∧
      ∀ d, d < 4 → posAt totaldqPins (4 * (k + 1) + d) ≠ 0) ∧
  (mustBorrow = true → 0 < n ∧ posAt totaldqPins (4 * (n - 1) + 3) = 6) ∧
  (0 < n → posAt totaldqPins (4 * (n - 1) + 3) = 6 → mustBorrow = true)

/-- What a row chosen for a block with mask `m` under an inbound borrow flag must satisfy for
the chain invariant to be carried over the block. -/
def GoodRow (m : Nat) (inbound : Bool) (r : tsvLookup) : Prop :=
  (∀ d, d < 4 →
    0 ≤ localPosition d (settingAt r.dqPins d) ∧ localPosition d (settingAt r.dqPins d) ≤ 6 ∧
    (localPosition d (settingAt r.dqPins d) ≤ 5 →
      m.testBit (5 - (localPosition d (settingAt r.dqPins d)).toNat) = true) ∧
    (localPosition d (settingAt r.dqPins d) = 6 → d = 3)) ∧
  (∀ d, d < 3 → localPosition d (settingAt r.dqPins d) <
    localPosition (d + 1) (settingAt r.dqPins (d + 1))) ∧
  (inbound = true → m.testBit 5 = true ∧
    ∀ d, d < 4 → localPosition d (settingAt r.dqPins d) ≠ 0) ∧
  (r.mustBorrow = true ↔ localPosition 3 (settingAt r.dqPins 3) = 6)

instance decGoodRow (m : Nat) (inbound : Bool) (r : tsvLookup) :
    Decidable (GoodRow m inbound r) := by
  unfold GoodRow
  infer_instance

/-! ## The byte-group module -/

/-- A byte group, `byte_group_t`: the 10-bit field `tsv` (bits 1..8 are the default TSVs,
bits 0 and 9 the spares) and the 2-bit field `spare_used`. -/
structure byte_group_t where
  tsv : Nat
  spare_used : Nat
deriving DecidableEq, Repr

/-- A sub group, `sub_group_t`: the array `byte_group[8]` and the 1-bit field `rx`. -/
structure sub_group_t where
  byte_group : List byte_group_t
  rx : Nat
deriving DecidableEq, Repr

/-- A TSV group, `tsv_group_t`: the array `sub_group[2]`. -/
structure tsv_group_t where
  sub_group : List sub_group_t
deriving DecidableEq, Repr

/-- One line printed by `checkTSV`:
"Issue in Sub Group i, Byte Group j: failed_tsv_count pins set to 0". -/
structure Issue where
  subGroup : Nat
  byteGroup : Nat
  count : Nat
deriving DecidableEq, Repr

/-- The loop `for (k = 1; k <= 8; k++)` of `checkTSV` with `n` iterations left: it adds one
to `failed_tsv_count` when `(tsv & (1 << k)) == 0`. -/
def bitLoop (tsvField : Nat) : Nat → Nat → Nat → Nat
  | 0, _, failed_tsv_count => failed_tsv_count
  | n + 1, k, failed_tsv_count =>
    bitLoop tsvField n (k + 1)
      (if tsvField &&& (1 <<< k) = 0 then failed_tsv_count + 1 else failed_tsv_count)

/-- The loop `for (j = 0; j < 8; j++)` of `checkTSV` over the byte groups of sub group `i`,
with `n` iterations left; `printed` holds the lines printed so far, `none` is a read outside
the array. -/
def byteGroupLoop (sub : sub_group_t) (i : Nat) :
    Nat → Nat → List Issue → Option (List Issue)
  | 0, _, printed => some printed
  | n + 1, j, printed =>
    match sub.byte_group[j]? with
    | none => none
    | some bg =>
      let failed_tsv_count := bitLoop bg.tsv 8 1 0
      byteGroupLoop sub i n (j + 1)
        (if failed_tsv_count > 0 then printed ++ [⟨i, j, failed_tsv_count⟩] else printed)

/-- The loop `for (i = 0; i < 2; i++)` of `checkTSV` over the sub groups, with `n`
iterations left. -/
def subGroupLoop (tsvGroup : tsv_group_t) : Nat → Nat → List Issue → Option (List Issue)
  | 0, _, printed => some printed
  | n + 1, i, printed =>
    match tsvGroup.sub_group[i]? with
    | none => none
    | some sub =>
      match byteGroupLoop sub i 8 0 printed with
      | none => none
      | some printed' => subGroupLoop tsvGroup n (i + 1) printed'

/-- The function `checkTSV`: the lines it prints, in order. -/
def checkTSV (tsvGroup : tsv_group_t) : Option (List Issue) :=
  subGroupLoop tsvGroup 2 0 []

/-- Number of zero bits among the default TSV bits 1..8 of a `tsv` field. -/
def zeroDefaultBits (tsvField : Nat) : Nat :=
  ((List.range' 1 8).filter (fun k => !tsvField.testBit k)).length

/-- A TSV group as its type describes it: 2 sub groups of 8 byte groups, each `tsv` field
within 10 bits. -/
def GroupWellFormed (tsvGroup : tsv_group_t) : Prop :=
  tsvGroup.sub_group.length = 2 ∧
    ∀ sub ∈ tsvGroup.sub_group, sub.byte_group.length = 8 ∧
      ∀ bg ∈ sub.byte_group, bg.tsv < 1024

instance decGroupWellFormed (tsvGroup : tsv_group_t) : Decidable (GroupWellFormed tsvGroup) := by
  unfold GroupWellFormed
  infer_instance

/-- Byte group `j` of sub group `i`. -/
def byteGroupAt (tsvGroup : tsv_group_t) (i j : Nat) : Option byte_group_t :=
  match tsvGroup.sub_group[i]? with
  | none => none
  | some sub => sub.byte_group[j]?

/-- A TSV group whose byte groups are all intact, except that byte group 0 of sub group 0
has the single default bit 1 at 0. -/
def singleFaultGroup : tsv_group_t :=
  ⟨[⟨⟨0b1111111101, 0⟩ :: List.replicate 7 ⟨0b1111111111, 0⟩, 1⟩,
    ⟨List.replicate 8 ⟨0b1111111111, 0⟩, 1⟩]⟩

/-! ## The sanity verifier -/

theorem dqShift_eq_shiftValue (s : Nat) : dqShift s = shiftValue s := by
  match s with
  | 0 => rfl
  | 1 => rfl
  | 2 => rfl
  | 3 => rfl
  | n + 4 =>
    simp only [dqShift, shiftValue, DQ_SHIFT_0, DQ_SHIFT_1_LEFT, DQ_SHIFT_1_RIGHT, DQ_SHIFT_2_RIGHT]
    split_ifs <;> first | rfl | omega

theorem dqShift_bounds (s : Nat) : -1 ≤ dqShift s ∧ dqShift s ≤ 2 := by
  simp only [dqShift, DQ_SHIFT_0, DQ_SHIFT_1_LEFT, DQ_SHIFT_1_RIGHT, DQ_SHIFT_2_RIGHT]
  split_ifs <;> omega

theorem dqShift_eq_two (s : Nat) : dqShift s = 2 ↔ s = 3 := by
  simp only [dqShift, DQ_SHIFT_0, DQ_SHIFT_1_LEFT, DQ_SHIFT_1_RIGHT, DQ_SHIFT_2_RIGHT]
  split_ifs <;> constructor <;> intro h <;> first | rfl | omega | contradiction

theorem codeIndex_eq_dqIndex (totaldqPins : List dq_pin) (i : Nat) (hi : i < 256) :
    ((codeIndex totaldqPins i : Nat) : Int) = dqIndex totaldqPins i := by
  have hb := dqShift_bounds (settingAt totaldqPins i)
  unfold codeIndex tsvIndex dqIndex physIndex
  rw [← dqShift_eq_shiftValue]
  omega

theorem codeIndex_le (totaldqPins : List dq_pin) (i : Nat) (hi : i < 256) :
    codeIndex totaldqPins i ≤ 384 := by
  have h := codeIndex_eq_dqIndex totaldqPins i hi
  have hb := dqShift_bounds (settingAt totaldqPins i)
  unfold dqIndex physIndex at h
  rw [← dqShift_eq_shiftValue] at h
  omega

theorem codeIndex_lt_of_ne (totaldqPins : List dq_pin) (i : Nat) (hi : i < 256)
    (h3 : i = 255 → settingAt totaldqPins i ≠ 3) : codeIndex totaldqPins i < 384 := by
  have h := codeIndex_eq_dqIndex totaldqPins i hi
  have hb := dqShift_bounds (settingAt totaldqPins i)
  have h2 := dqShift_eq_two (settingAt totaldqPins i)
  unfold dqIndex physIndex at h
  rw [← dqShift_eq_shiftValue] at h
  by_cases hc : i = 255
  · have := h3 hc
    have : dqShift (settingAt totaldqPins i) ≠ 2 := fun e => this (h2.mp e)
    omega
  · omega

theorem pinOffset_step (i : Nat) :
    (if (i + 1) % 4 = 0 then 1 + 2 * (i / 4) + 2 else 1 + 2 * (i / 4)) = 1 + 2 * ((i + 1) / 4) := by
  split_ifs <;> omega

theorem getElem?_set_claim (totalPins : List Int) (idx k i : Nat) :
    (totalPins.set idx (i : Int))[k]? = some (-1) ↔ (totalPins[k]? = some (-1) ∧ k ≠ idx) := by
  by_cases h : idx = k
  · subst h
    simp only [List.getElem?_set, if_true, ne_eq, not_true_eq_false, and_false, iff_false]
    split_ifs <;> simp
  · rw [List.getElem?_set_ne h]
    constructor
    · intro h1
      exact ⟨h1, fun e => h e.symm⟩
    · intro h1
      exact h1.1

theorem settingAt_of_getElem? (totaldqPins : List dq_pin) (i : Nat) (pin : dq_pin)
    (h : totaldqPins[i]? = some pin) : settingAt totaldqPins i = pin.setting := by
  unfold settingAt
  rw [h]

theorem sanityLoop_unfold (tsvBlocks : List tsv) (totaldqPins : List dq_pin) (n i : Nat)
    (totalPins : List Int) (hi : i < totaldqPins.length) :
    sanityLoop tsvBlocks totaldqPins (n + 1) i (1 + 2 * (i / 4)) totalPins =
      match totalPins[codeIndex totaldqPins i]? with
      | none => none
      | some claimed =>
        if claimed ≠ -1 then some false
        else
          match tsvBlocks[codeIndex totaldqPins i / 6]? with
          | none => none
          | some blk =>
            if blk.tsvOperational &&& (1 <<< (5 - codeIndex totaldqPins i % 6)) = 0 then
              some false
            else
              sanityLoop tsvBlocks totaldqPins n (i + 1) (1 + 2 * ((i + 1) / 4))
                (totalPins.set (codeIndex totaldqPins i) (i : Int)) := by
  have hpin : totaldqPins[i]? = some totaldqPins[i] := List.getElem?_eq_getElem hi
  have hs := settingAt_of_getElem? totaldqPins i _ hpin
  rw [sanityLoop]
  simp only [hpin, pinOffset_step]
  unfold codeIndex
  rw [hs]

theorem sanityLoop_true_iff (tsvBlocks : List tsv) (totaldqPins : List dq_pin) :
    ∀ (n i : Nat) (totalPins : List Int), i + n ≤ totaldqPins.length →
      (sanityLoop tsvBlocks totaldqPins n i (1 + 2 * (i / 4)) totalPins = some true ↔
        (∀ j, i ≤ j → j < i + n →
            totalPins[codeIndex totaldqPins j]? = some (-1) ∧
              maskTest tsvBlocks (codeIndex totaldqPins j)) ∧
          (∀ j j', i ≤ j → j < j' → j' < i + n →
            codeIndex totaldqPins j ≠ codeIndex totaldqPins j')) := by
  intro n
  induction n with
  | zero =>
    intro i totalPins _
    simp only [sanityLoop, true_iff]
    constructor
    · intro j h1 h2
      omega
    · intro j j' h1 h2 h3
      omega
  | succ n ih =>
    intro i totalPins hlen
    have hi : i < totaldqPins.length := by omega
    rw [sanityLoop_unfold tsvBlocks totaldqPins n i totalPins hi]
    by_cases hfree : totalPins[codeIndex totaldqPins i]? = some (-1)
    · by_cases hm : maskTest tsvBlocks (codeIndex totaldqPins i)
      · obtain ⟨blk, hblk, hmask⟩ := hm
        simp only [hfree, hblk, hmask, ne_eq, not_true_eq_false, if_false]
        rw [ih (i + 1) _ (by omega)]
        constructor
        · rintro ⟨h1, h2⟩
          constructor
          · intro j hj1 hj2
            by_cases hji : j = i
            · subst hji
              exact ⟨hfree, blk, hblk, hmask⟩
            · have h := h1 j (by omega) (by omega)
              rw [getElem?_set_claim] at h
              exact ⟨h.1.1, h.2⟩
          · intro j j' hj1 hj2 hj3
            by_cases hji : j = i
            · subst hji
              have h := h1 j' (by omega) (by omega)
              rw [getElem?_set_claim] at h
              exact fun e => h.1.2 e.symm
            · exact h2 j j' (by omega) hj2 (by omega)
        · rintro ⟨h1, h2⟩
          constructor
          · intro j hj1 hj2
            have h := h1 j (by omega) (by omega)
            rw [getElem?_set_claim]
            exact ⟨⟨h.1, fun e => h2 i j (le_refl _) (by omega) (by omega) e.symm⟩, h.2⟩
          · intro j j' hj1 hj2 hj3
            exact h2 j j' (by omega) hj2 (by omega)
      · have hr : ¬ ((∀ j, i ≤ j → j < i + (n + 1) →
            totalPins[codeIndex totaldqPins j]? = some (-1) ∧
              maskTest tsvBlocks (codeIndex totaldqPins j)) ∧
          (∀ j j', i ≤ j → j < j' → j' < i + (n + 1) →
            codeIndex totaldqPins j ≠ codeIndex totaldqPins j')) :=
          fun h => hm (h.1 i (le_refl _) (by omega)).2
        simp only [hfree, ne_eq, not_true_eq_false, if_false, hr, iff_false]
        cases hblk : tsvBlocks[codeIndex totaldqPins i / 6]? with
        | none => simp
        | some blk =>
          by_cases hmask : blk.tsvOperational &&& (1 <<< (5 - codeIndex totaldqPins i % 6)) = 0
          · simp [hmask]
          · exact absurd ⟨blk, hblk, hmask⟩ hm
    · have hr : ¬ ((∀ j, i ≤ j → j < i + (n + 1) →
            totalPins[codeIndex totaldqPins j]? = some (-1) ∧
              maskTest tsvBlocks (codeIndex totaldqPins j)) ∧
          (∀ j j', i ≤ j → j < j' → j' < i + (n + 1) →
            codeIndex totaldqPins j ≠ codeIndex totaldqPins j')) :=
        fun h => hfree (h.1 i (le_refl _) (by omega)).1
      simp only [hr, iff_false]
      cases hc : totalPins[codeIndex totaldqPins i]? with
      | none => simp
      | some claimed =>
        have hne : claimed ≠ -1 := fun e => hfree (by rw [hc, e])
        simp [hne]

theorem sanityLoop_isSome (tsvBlocks : List tsv) (totaldqPins : List dq_pin)
    (hblocks : tsvBlocks.length = 64) :
    ∀ (n i : Nat) (totalPins : List Int), i + n ≤ totaldqPins.length →
      totalPins.length = 384 →
      (∀ j, i ≤ j → j < i + n → codeIndex totaldqPins j < 384) →
      ∃ b, sanityLoop tsvBlocks totaldqPins n i (1 + 2 * (i / 4)) totalPins = some b := by
  intro n
  induction n with
  | zero =>
    intro i totalPins _ _ _
    exact ⟨true, rfl⟩
  | succ n ih =>
    intro i totalPins hlen htp hidx
    have hi : i < totaldqPins.length := by omega
    have hlt : codeIndex totaldqPins i < 384 := hidx i (le_refl _) (by omega)
    have h1 : totalPins[codeIndex totaldqPins i]? = some totalPins[codeIndex totaldqPins i] :=
      List.getElem?_eq_getElem (by omega)
    have h2 : tsvBlocks[codeIndex totaldqPins i / 6]? =
        some tsvBlocks[codeIndex totaldqPins i / 6] :=
      List.getElem?_eq_getElem (by omega)
    rw [sanityLoop_unfold tsvBlocks totaldqPins n i totalPins hi]
    simp only [h1, h2]
    split_ifs
    · exact ⟨false, rfl⟩
    · exact ⟨false, rfl⟩
    · exact ih (i + 1) _ (by omega) (by rw [List.length_set]; exact htp)
        (fun j hj1 hj2 => hidx j (by omega) (by omega))

/-- The verifier accepts exactly the assignments whose 256 indices are in range, free of
repetition and pass the mask test. -/
theorem sanityTestTable_true_iff (tsvBlocks : List tsv) (totaldqPins : List dq_pin)
    (hlen : 256 ≤ totaldqPins.length) :
    sanityTestTable tsvBlocks totaldqPins = some true ↔
      (∀ j, j < 256 → codeIndex totaldqPins j < 384 ∧
          maskTest tsvBlocks (codeIndex totaldqPins j)) ∧
        (∀ j j', j < j' → j' < 256 →
          codeIndex totaldqPins j ≠ codeIndex totaldqPins j') := by
  unfold sanityTestTable
  have h := sanityLoop_true_iff tsvBlocks totaldqPins 256 0 (List.replicate (64 * 6) (-1))
    (by omega)
  simp only [Nat.zero_div, Nat.mul_zero, Nat.add_zero, Nat.zero_add, Nat.zero_le,
    true_implies] at h
  rw [h]
  simp only [List.getElem?_replicate]
  constructor
  · rintro ⟨h1, h2⟩
    refine ⟨fun j hj => ⟨?_, (h1 j hj).2⟩, h2⟩
    have := (h1 j hj).1
    split_ifs at this with hc
    exact hc
  · rintro ⟨h1, h2⟩
    refine ⟨fun j hj => ⟨?_, (h1 j hj).2⟩, h2⟩
    rw [if_pos (h1 j hj).1]

theorem sanityTestTable_isSome (tsvBlocks : List tsv) (totaldqPins : List dq_pin)
    (hblocks : tsvBlocks.length = 64) (hlen : totaldqPins.length = 256)
    (hlast : settingAt totaldqPins 255 ≠ 3) :
    ∃ b, sanityTestTable tsvBlocks totaldqPins = some b := by
  unfold sanityTestTable
  have h := sanityLoop_isSome tsvBlocks totaldqPins hblocks 256 0 (List.replicate (64 * 6) (-1))
    (by omega) (List.length_replicate _ _)
    (fun j _ hj => codeIndex_lt_of_ne totaldqPins j (by omega) (fun e => by rw [e]; exact hlast))
  exact h

/-! ## The decision table -/

theorem tsvLookupTable_length : tsvLookupTable.length = 64 := by decide

theorem tsvLookupTable_row_length : ∀ e ∈ tsvLookupTable, e.dqPins.length = 4 := by decide

theorem tsvLookupTable_last_shift :
    ∀ e ∈ tsvLookupTable, e.mustBorrow = false → settingAt e.dqPins 3 ≠ 3 := by decide

theorem tsvLookupTable_get (m : Nat) (hm : m < 64) :
    ∃ e, tsvLookupTable[m]? = some e ∧ e ∈ tsvLookupTable := by
  have h : m < tsvLookupTable.length := by rw [tsvLookupTable_length]; exact hm
  exact ⟨tsvLookupTable[m], List.getElem?_eq_getElem h, List.getElem_mem h⟩

theorem tsvLookupTable_mem_of_get (m : Nat) (e : tsvLookup) (h : tsvLookupTable[m]? = some e) :
    e ∈ tsvLookupTable ∧ m < 64 := by
  have h1 := List.getElem?_eq_some_iff.mp h
  obtain ⟨hlt, heq⟩ := h1
  refine ⟨?_, by rw [tsvLookupTable_length] at hlt; exact hlt⟩
  rw [← heq]
  exact List.getElem_mem hlt

/-! ## The block loop -/

theorem list_eq_four {α : Type} (l : List α) (h : l.length = 4) :
    ∃ a b c d, l = [a, b, c, d] := by
  match l, h with
  | [a, b, c, d], _ => exact ⟨a, b, c, d, rfl⟩

theorem set_four_eq_writeRow (totaldqPins : List dq_pin) (i : Nat) (a b c d : dq_pin)
    (hb : i * 4 + 4 ≤ totaldqPins.length) :
    (((totaldqPins.set (i * 4 + 0) a).set (i * 4 + 1) b).set (i * 4 + 2) c).set (i * 4 + 3) d =
      writeRow totaldqPins i [a, b, c, d] := by
  unfold writeRow
  apply List.ext_getElem?
  intro k
  simp only [List.getElem?_set, List.length_set, List.getElem?_append, List.length_take,
    List.getElem?_take, List.length_append, List.length_cons, List.length_nil,
    List.getElem?_drop]
  have hmin : min (i * 4) totaldqPins.length = i * 4 := by omega
  rw [hmin]
  by_cases h0 : k < i * 4
  · simp only [h0, if_true]
    have e3 : ¬ (i * 4 + 3 = k) := by omega
    have e2 : ¬ (i * 4 + 2 = k) := by omega
    have e1 : ¬ (i * 4 + 1 = k) := by omega
    have e0 : ¬ (i * 4 + 0 = k) := by omega
    have hk : k < i * 4 + (0 + 1 + 1 + 1 + 1) := by omega
    simp only [e3, e2, e1, e0, if_false, hk, if_true]
  · by_cases h4 : k < i * 4 + 4
    · obtain ⟨r, hr, rfl⟩ : ∃ r, r < 4 ∧ k = i * 4 + r := ⟨k - i * 4, by omega, by omega⟩
      have hk : i * 4 + r < i * 4 + (0 + 1 + 1 + 1 + 1) := by omega
      have hsub : i * 4 + r - i * 4 = r := by omega
      simp only [h0, if_false, hk, if_true, hsub]
      interval_cases r <;> simp <;> omega
    · have e3 : ¬ (i * 4 + 3 = k) := by omega
      have e2 : ¬ (i * 4 + 2 = k) := by omega
      have e1 : ¬ (i * 4 + 1 = k) := by omega
      have e0 : ¬ (i * 4 + 0 = k) := by omega
      have hk : ¬ k < i * 4 + (0 + 1 + 1 + 1 + 1) := by omega
      have hk0 : ¬ k < i * 4 := h0
      simp only [e3, e2, e1, e0, if_false, hk, hk0]
      congr 1
      omega

theorem writeDQ_eq (lookup : tsvLookup) (i : Nat) (totaldqPins : List dq_pin)
    (hrow : lookup.dqPins.length = 4) (hb : i * 4 + 4 ≤ totaldqPins.length) :
    writeDQ lookup i 4 0 totaldqPins = some (writeRow totaldqPins i lookup.dqPins) := by
  obtain ⟨a, b, c, d, habcd⟩ := list_eq_four lookup.dqPins hrow
  rw [habcd, ← set_four_eq_writeRow totaldqPins i a b c d hb]
  have h0 : i * 4 < totaldqPins.length := by omega
  have h1 : i * 4 + 1 < totaldqPins.length := by omega
  have h2 : i * 4 + 2 < totaldqPins.length := by omega
  have h3 : i * 4 + 3 < totaldqPins.length := by omega
  simp [writeDQ, store, habcd, List.length_set, h0, h1, h2, h3]

theorem store_some {α : Type} (xs ys : List α) (k : Nat) (v : α) (h : store xs k v = some ys) :
    k < xs.length ∧ ys.length = xs.length := by
  unfold store at h
  split_ifs at h with hk
  refine ⟨hk, ?_⟩
  cases h
  exact List.length_set _ _ _

theorem writeDQ_some (lookup : tsvLookup) (i : Nat) :
    ∀ (n j : Nat) (totaldqPins out : List dq_pin),
      writeDQ lookup i n j totaldqPins = some out →
        out.length = totaldqPins.length ∧ (0 < n → i * 4 + j + n ≤ totaldqPins.length) := by
  intro n
  induction n with
  | zero =>
    intro j totaldqPins out h
    simp only [writeDQ, Option.some.injEq] at h
    exact ⟨by rw [h], fun h0 => absurd h0 (by omega)⟩
  | succ n ih =>
    intro j totaldqPins out h
    rw [writeDQ] at h
    cases hpin : lookup.dqPins[j]? with
    | none => simp [hpin] at h
    | some pin =>
      cases hst : store totaldqPins (i * 4 + j) pin with
      | none => simp [hpin, hst] at h
      | some mid =>
        simp only [hpin, hst] at h
        have h1 := store_some _ _ _ _ hst
        have h2 := ih (j + 1) mid out h
        refine ⟨by rw [h2.1, h1.2], fun _ => ?_⟩
        by_cases hn : 0 < n
        · have := h2.2 hn
          omega
        · omega

theorem writeDQ_bound (lookup : tsvLookup) (i : Nat) (totaldqPins out : List dq_pin)
    (h : writeDQ lookup i 4 0 totaldqPins = some out) : i * 4 + 4 ≤ totaldqPins.length := by
  have := (writeDQ_some lookup i 4 0 totaldqPins out h).2 (by omega)
  omega

theorem writeRow_length (totaldqPins : List dq_pin) (i : Nat) (dqPins : List dq_pin)
    (hrow : dqPins.length = 4) (hb : i * 4 + 4 ≤ totaldqPins.length) :
    (writeRow totaldqPins i dqPins).length = totaldqPins.length := by
  unfold writeRow
  simp only [List.length_append, List.length_take, List.length_drop, hrow]
  omega

theorem writeRow_getElem? (totaldqPins : List dq_pin) (i : Nat) (dqPins : List dq_pin)
    (hrow : dqPins.length = 4) (hb : i * 4 + 4 ≤ totaldqPins.length) (k : Nat) :
    (writeRow totaldqPins i dqPins)[k]? =
      if k < i * 4 then totaldqPins[k]?
      else if k < i * 4 + 4 then dqPins[k - i * 4]? else totaldqPins[k]? := by
  unfold writeRow
  have hmin : min (i * 4) totaldqPins.length = i * 4 := by omega
  simp only [List.getElem?_append, List.length_append, List.length_take, hmin, hrow,
    List.getElem?_take, List.getElem?_drop]
  by_cases h0 : k < i * 4
  · have hk : k < i * 4 + 4 := by omega
    simp only [h0, hk, if_true]
  · by_cases h4 : k < i * 4 + 4
    · simp only [h0, h4, if_true, if_false]
    · simp only [h0, h4, if_false]
      congr 1
      omega

theorem writeRow_drop_take (totaldqPins : List dq_pin) (i : Nat) (dqPins : List dq_pin)
    (hrow : dqPins.length = 4) (hb : i * 4 + 4 ≤ totaldqPins.length) :
    ((writeRow totaldqPins i dqPins).drop (i * 4)).take 4 = dqPins := by
  unfold writeRow
  have hl : (totaldqPins.take (i * 4)).length = i * 4 := by
    rw [List.length_take]
    omega
  rw [List.append_assoc, List.drop_left' hl, List.take_left' hrow]

theorem commitLookup_eq (lookup : tsvLookup) (i : Nat) (totaldqPins : List dq_pin)
    (hrow : lookup.dqPins.length = 4) (hb : i * 4 + 4 ≤ totaldqPins.length) :
    commitLookup lookup i totaldqPins =
      some (.next lookup.mustBorrow (writeRow totaldqPins i lookup.dqPins)) := by
  unfold commitLookup
  rw [writeDQ_eq lookup i totaldqPins hrow hb]
  cases lookup.mustBorrow <;> rfl

theorem commitLookup_next (lookup : tsvLookup) (i : Nat) (totaldqPins out : List dq_pin)
    (mustBorrow' : Bool) (hrow : lookup.dqPins.length = 4)
    (h : commitLookup lookup i totaldqPins = some (.next mustBorrow' out)) :
    mustBorrow' = lookup.mustBorrow ∧ i * 4 + 4 ≤ totaldqPins.length ∧
      out = writeRow totaldqPins i lookup.dqPins := by
  have hb : i * 4 + 4 ≤ totaldqPins.length := by
    unfold commitLookup at h
    cases hw : writeDQ lookup i 4 0 totaldqPins with
    | none => simp [hw] at h
    | some mid => exact writeDQ_bound lookup i totaldqPins mid hw
  rw [commitLookup_eq lookup i totaldqPins hrow hb] at h
  simp only [Option.some.injEq, Step.next.injEq] at h
  exact ⟨h.1.symm, hb, h.2.symm⟩

theorem commitLookup_ne_returned (lookup : tsvLookup) (i : Nat) (totaldqPins out : List dq_pin)
    (site : ReturnSite) : commitLookup lookup i totaldqPins ≠ some (.returned site out) := by
  unfold commitLookup
  cases writeDQ lookup i 4 0 totaldqPins <;> simp

theorem loopBody_eq (tsvBlocks : List tsv) (i : Nat) (mustBorrow : Bool)
    (totaldqPins : List dq_pin) (blk : tsv) (entry : tsvLookup)
    (hblk : tsvBlocks[i]? = some blk)
    (hentry : tsvLookupTable[blk.tsvOperational]? = some entry) :
    loopBody tsvBlocks i mustBorrow totaldqPins =
      if entry.failed then some (.returned (.IntrinsicBlockFailure i) totaldqPins)
      else if mustBorrow && !entry.canLend then
        if blk.tsvOperational &&& 0x20 = 0 then
          some (.returned (.BorrowUnavailable i) totaldqPins)
        else
          match tsvLookupTable[blk.tsvOperational &&& 0x1F]? with
          | none => none
          | some borrowLookup =>
            if borrowLookup.failed then some (.returned (.ChainBorrowFailure i) totaldqPins)
            else commitLookup borrowLookup i totaldqPins
      else commitLookup entry i totaldqPins := by
  simp only [loopBody, hblk, hentry]

theorem loopBody_next (tsvBlocks : List tsv) (i : Nat) (mustBorrow mustBorrow' : Bool)
    (totaldqPins out : List dq_pin)
    (h : loopBody tsvBlocks i mustBorrow totaldqPins = some (.next mustBorrow' out)) :
    ∃ r, r ∈ tsvLookupTable ∧ r.failed = false ∧ mustBorrow' = r.mustBorrow ∧
      i * 4 + 4 ≤ totaldqPins.length ∧ out = writeRow totaldqPins i r.dqPins := by
  cases hblk : tsvBlocks[i]? with
  | none => simp [loopBody, hblk] at h
  | some blk =>
    cases hentry : tsvLookupTable[blk.tsvOperational]? with
    | none => simp [loopBody, hblk, hentry] at h
    | some entry =>
      rw [loopBody_eq tsvBlocks i mustBorrow totaldqPins blk entry hblk hentry] at h
      have hmem := (tsvLookupTable_mem_of_get _ _ hentry).1
      by_cases hf : entry.failed = true
      · simp [hf] at h
      · simp only [hf, Bool.false_eq_true, if_false] at h
        by_cases hb : (mustBorrow && !entry.canLend) = true
        · simp only [hb, if_true] at h
          by_cases h20 : blk.tsvOperational &&& 0x20 = 0
          · simp [h20] at h
          · simp only [h20, if_false] at h
            cases hred : tsvLookupTable[blk.tsvOperational &&& 0x1F]? with
            | none => simp [hred] at h
            | some reduced =>
              simp only [hred] at h
              have hmem2 := (tsvLookupTable_mem_of_get _ _ hred).1
              by_cases hf2 : reduced.failed = true
              · simp [hf2] at h
              · simp only [hf2, Bool.false_eq_true, if_false] at h
                have := commitLookup_next reduced i totaldqPins out mustBorrow'
                  (tsvLookupTable_row_length reduced hmem2) h
                exact ⟨reduced, hmem2, by simpa using hf2, this⟩
        · simp only [hb, Bool.false_eq_true, if_false] at h
          have := commitLookup_next entry i totaldqPins out mustBorrow'
            (tsvLookupTable_row_length entry hmem) h
          exact ⟨entry, hmem, by simpa using hf, this⟩

theorem loopBody_returned (tsvBlocks : List tsv) (i : Nat) (mustBorrow : Bool)
    (totaldqPins out : List dq_pin) (site : ReturnSite)
    (h : loopBody tsvBlocks i mustBorrow totaldqPins = some (.returned site out)) :
    out = totaldqPins := by
  cases hblk : tsvBlocks[i]? with
  | none => simp [loopBody, hblk] at h
  | some blk =>
    cases hentry : tsvLookupTable[blk.tsvOperational]? with
    | none => simp [loopBody, hblk, hentry] at h
    | some entry =>
      rw [loopBody_eq tsvBlocks i mustBorrow totaldqPins blk entry hblk hentry] at h
      split_ifs at h
      · simp only [Option.some.injEq, Step.returned.injEq] at h
        exact h.2.symm
      · simp only [Option.some.injEq, Step.returned.injEq] at h
        exact h.2.symm
      · split at h
        · simp at h
        · split_ifs at h
          · simp only [Option.some.injEq, Step.returned.injEq] at h
            exact h.2.symm
          · exact absurd h (commitLookup_ne_returned _ _ _ _ _)
      · exact absurd h (commitLookup_ne_returned _ _ _ _ _)

theorem land_1F_lt (m : Nat) : m &&& 0x1F < 64 := by
  have : m &&& 0x1F ≤ 0x1F := Nat.and_le_right
  omega

theorem loopBody_isSome (tsvBlocks : List tsv) (i : Nat) (mustBorrow : Bool)
    (totaldqPins : List dq_pin) (blk : tsv)
    (hblk : tsvBlocks[i]? = some blk) (hm : blk.tsvOperational < 64)
    (hb : i * 4 + 4 ≤ totaldqPins.length) :
    ∃ s, loopBody tsvBlocks i mustBorrow totaldqPins = some s := by
  obtain ⟨entry, hentry, hmem⟩ := tsvLookupTable_get _ hm
  obtain ⟨reduced, hred, hmem2⟩ := tsvLookupTable_get _ (land_1F_lt blk.tsvOperational)
  rw [loopBody_eq tsvBlocks i mustBorrow totaldqPins blk entry hblk hentry]
  simp only [hred]
  rw [commitLookup_eq entry i totaldqPins (tsvLookupTable_row_length entry hmem) hb,
    commitLookup_eq reduced i totaldqPins (tsvLookupTable_row_length reduced hmem2) hb]
  split_ifs <;> exact ⟨_, rfl⟩

theorem blockLoop_add (tsvBlocks : List tsv) :
    ∀ (a b i : Nat) (mustBorrow : Bool) (totaldqPins : List dq_pin),
      blockLoop tsvBlocks (a + b) i mustBorrow totaldqPins =
        match blockLoop tsvBlocks a i mustBorrow totaldqPins with
        | some (.next mustBorrow' totaldqPins') =>
          blockLoop tsvBlocks b (i + a) mustBorrow' totaldqPins'
        | r => r := by
  intro a
  induction a with
  | zero =>
    intro b i mustBorrow totaldqPins
    simp [blockLoop]
  | succ a ih =>
    intro b i mustBorrow totaldqPins
    rw [Nat.succ_add_eq_add_succ, Nat.add_succ, blockLoop, blockLoop]
    cases hbody : loopBody tsvBlocks i mustBorrow totaldqPins with
    | none => rfl
    | some s =>
      cases s with
      | returned site out => rfl
      | next mustBorrow' out =>
        simp only
        rw [ih b (i + 1) mustBorrow' out]
        have e : i + 1 + a = i + (a + 1) := by omega
        rw [e]

theorem blockLoop_last (tsvBlocks : List tsv) (n i : Nat) (mustBorrow mustBorrow' : Bool)
    (totaldqPins out : List dq_pin)
    (h : blockLoop tsvBlocks (n + 1) i mustBorrow totaldqPins = some (.next mustBorrow' out)) :
    ∃ mb mid, blockLoop tsvBlocks n i mustBorrow totaldqPins = some (.next mb mid) ∧
      loopBody tsvBlocks (i + n) mb mid = some (.next mustBorrow' out) := by
  rw [blockLoop_add tsvBlocks n 1 i mustBorrow totaldqPins] at h
  cases hpre : blockLoop tsvBlocks n i mustBorrow totaldqPins with
  | none => simp [hpre] at h
  | some s =>
    cases s with
    | returned site mid => simp [hpre] at h
    | next mb mid =>
      refine ⟨mb, mid, rfl, ?_⟩
      simp only [hpre, blockLoop] at h
      cases hbody : loopBody tsvBlocks (i + n) mb mid with
      | none => simp [hbody] at h
      | some s =>
        cases s with
        | returned site out2 => simp [hbody] at h
        | next mb2 out2 =>
          simp only [hbody] at h
          exact h

theorem blockLoop_next_length (tsvBlocks : List tsv) :
    ∀ (n i : Nat) (mustBorrow mustBorrow' : Bool) (totaldqPins out : List dq_pin),
      blockLoop tsvBlocks n i mustBorrow totaldqPins = some (.next mustBorrow' out) →
        out.length = totaldqPins.length := by
  intro n
  induction n with
  | zero =>
    intro i mustBorrow mustBorrow' totaldqPins out h
    simp only [blockLoop, Option.some.injEq, Step.next.injEq] at h
    rw [h.2]
  | succ n ih =>
    intro i mustBorrow mustBorrow' totaldqPins out h
    obtain ⟨mb, mid, hpre, hbody⟩ := blockLoop_last tsvBlocks n i _ _ _ _ h
    obtain ⟨r, hmem, _, _, hb, hout⟩ := loopBody_next tsvBlocks _ _ _ _ _ hbody
    rw [hout, writeRow_length mid (i + n) r.dqPins (tsvLookupTable_row_length r hmem) hb]
    exact ih i mustBorrow mb totaldqPins mid hpre

theorem blockLoop_isSome (tsvBlocks : List tsv) (hblocks : tsvBlocks.length = 64)
    (hmask : ∀ blk ∈ tsvBlocks, blk.tsvOperational < 64) :
    ∀ (n i : Nat) (mustBorrow : Bool) (totaldqPins : List dq_pin),
      i + n ≤ 64 → totaldqPins.length = 256 →
        ∃ s, blockLoop tsvBlocks n i mustBorrow totaldqPins = some s := by
  intro n
  induction n with
  | zero =>
    intro i mustBorrow totaldqPins _ _
    exact ⟨_, rfl⟩
  | succ n ih =>
    intro i mustBorrow totaldqPins hin hlen
    have hi : i < tsvBlocks.length := by omega
    have hblk : tsvBlocks[i]? = some tsvBlocks[i] := List.getElem?_eq_getElem hi
    obtain ⟨s, hs⟩ := loopBody_isSome tsvBlocks i mustBorrow totaldqPins tsvBlocks[i] hblk
      (hmask _ (List.getElem_mem hi)) (by omega)
    rw [blockLoop, hs]
    cases s with
    | returned site out => exact ⟨_, rfl⟩
    | next mb out =>
      obtain ⟨r, hmem, _, _, hb, hout⟩ := loopBody_next tsvBlocks _ _ _ _ _ hs
      have hl : out.length = 256 := by
        rw [hout, writeRow_length totaldqPins i r.dqPins (tsvLookupTable_row_length r hmem) hb]
        exact hlen
      exact ih (i + 1) mb out (by omega) hl

/-! ## The whole repair attempt -/

theorem settingAt_writeRow_last (totaldqPins : List dq_pin) (i : Nat) (dqPins : List dq_pin)
    (hrow : dqPins.length = 4) (hb : i * 4 + 4 ≤ totaldqPins.length) :
    settingAt (writeRow totaldqPins i dqPins) (i * 4 + 3) = settingAt dqPins 3 := by
  unfold settingAt
  rw [writeRow_getElem? totaldqPins i dqPins hrow hb]
  have h1 : ¬ (i * 4 + 3 < i * 4) := by omega
  have h2 : i * 4 + 3 < i * 4 + 4 := by omega
  have h3 : i * 4 + 3 - i * 4 = 3 := by omega
  simp only [h1, h2, h3, if_true, if_false]

theorem blockLoop_last_setting (tsvBlocks : List tsv) (n : Nat) (mustBorrow : Bool)
    (totaldqPins out : List dq_pin)
    (h : blockLoop tsvBlocks (n + 1) 0 mustBorrow totaldqPins = some (.next false out)) :
    settingAt out (n * 4 + 3) ≠ 3 := by
  obtain ⟨mb, mid, _, hbody⟩ := blockLoop_last tsvBlocks n 0 _ _ _ _ h
  obtain ⟨r, hmem, _, hmb, hb, hout⟩ := loopBody_next tsvBlocks _ _ _ _ _ hbody
  rw [Nat.zero_add] at hb hout
  rw [hout, settingAt_writeRow_last mid n r.dqPins (tsvLookupTable_row_length r hmem) hb]
  exact tsvLookupTable_last_shift r hmem hmb.symm

theorem loopBody_returned_value (tsvBlocks : List tsv) (i : Nat) (mustBorrow : Bool)
    (totaldqPins out : List dq_pin) (site : ReturnSite)
    (h : loopBody tsvBlocks i mustBorrow totaldqPins = some (.returned site out)) :
    site.value = false := by
  cases hblk : tsvBlocks[i]? with
  | none => simp [loopBody, hblk] at h
  | some blk =>
    cases hentry : tsvLookupTable[blk.tsvOperational]? with
    | none => simp [loopBody, hblk, hentry] at h
    | some entry =>
      rw [loopBody_eq tsvBlocks i mustBorrow totaldqPins blk entry hblk hentry] at h
      split_ifs at h
      · simp only [Option.some.injEq, Step.returned.injEq] at h
        rw [← h.1]
        rfl
      · simp only [Option.some.injEq, Step.returned.injEq] at h
        rw [← h.1]
        rfl
      · split at h
        · simp at h
        · split_ifs at h
          · simp only [Option.some.injEq, Step.returned.injEq] at h
            rw [← h.1]
            rfl
          · exact absurd h (commitLookup_ne_returned _ _ _ _ _)
      · exact absurd h (commitLookup_ne_returned _ _ _ _ _)

theorem blockLoop_returned_value (tsvBlocks : List tsv) :
    ∀ (n i : Nat) (mustBorrow : Bool) (totaldqPins out : List dq_pin) (site : ReturnSite),
      blockLoop tsvBlocks n i mustBorrow totaldqPins = some (.returned site out) →
        site.value = false := by
  intro n
  induction n with
  | zero =>
    intro i mustBorrow totaldqPins out site h
    simp [blockLoop] at h
  | succ n ih =>
    intro i mustBorrow totaldqPins out site h
    rw [blockLoop] at h
    cases hbody : loopBody tsvBlocks i mustBorrow totaldqPins with
    | none => simp [hbody] at h
    | some s =>
      cases s with
      | returned site2 out2 =>
        simp only [hbody, Option.some.injEq, Step.returned.injEq] at h
        rw [← h.1]
        exact loopBody_returned_value tsvBlocks i mustBorrow totaldqPins out2 site2 hbody
      | next mb out2 =>
        simp only [hbody] at h
        exact ih (i + 1) mb out2 out site h

theorem InitializeDQ_isSome (tsvBlocks : List tsv) (totaldqPins : List dq_pin)
    (printOutput : Bool) (hwf : WellFormed tsvBlocks totaldqPins) :
    ∃ r, InitializeDQ tsvBlocks totaldqPins printOutput = some r := by
  obtain ⟨hblocks, hlen, hmask⟩ := hwf
  obtain ⟨s, hs⟩ := blockLoop_isSome tsvBlocks hblocks hmask 64 0 false totaldqPins
    (by omega) hlen
  unfold InitializeDQ
  rw [hs]
  cases s with
  | returned site out => exact ⟨_, rfl⟩
  | next mb out =>
    cases mb with
    | true => exact ⟨_, rfl⟩
    | false =>
      have hl : out.length = 256 := by
        rw [blockLoop_next_length tsvBlocks 64 0 false false totaldqPins out hs]
        exact hlen
      obtain ⟨b, hb⟩ := sanityTestTable_isSome tsvBlocks out hblocks hl
        (blockLoop_last_setting tsvBlocks 63 false totaldqPins out hs)
      simp only [hb, Bool.false_eq_true, if_false]
      cases b <;> exact ⟨_, rfl⟩

theorem InitializeDQ_true (tsvBlocks : List tsv) (totaldqPins out : List dq_pin)
    (printOutput : Bool) (site : ReturnSite)
    (h : InitializeDQ tsvBlocks totaldqPins printOutput = some (site, out))
    (hv : site.value = true) :
    blockLoop tsvBlocks 64 0 false totaldqPins = some (.next false out) ∧
      sanityTestTable tsvBlocks out = some true := by
  unfold InitializeDQ at h
  cases hs : blockLoop tsvBlocks 64 0 false totaldqPins with
  | none => simp [hs] at h
  | some s =>
    cases s with
    | returned site2 out2 =>
      simp only [hs, Option.some.injEq, Prod.mk.injEq] at h
      rw [← h.1, blockLoop_returned_value tsvBlocks 64 0 false totaldqPins out2 site2 hs] at hv
      exact absurd hv (by decide)
    | next mb out2 =>
      simp only [hs] at h
      cases mb with
      | true =>
        simp only [if_true, Option.some.injEq, Prod.mk.injEq] at h
        rw [← h.1] at hv
        simp [ReturnSite.value] at hv
      | false =>
        simp only [Bool.false_eq_true, if_false] at h
        cases hv2 : sanityTestTable tsvBlocks out2 with
        | none => simp [hv2] at h
        | some b =>
          cases b with
          | false =>
            simp only [hv2, Option.some.injEq, Prod.mk.injEq] at h
            rw [← h.1] at hv
            simp [ReturnSite.value] at hv
          | true =>
            simp only [hv2, Option.some.injEq, Prod.mk.injEq] at h
            rw [← h.2]
            exact ⟨rfl, hv2⟩

theorem land_shift_iff_testBit :
    ∀ m, m < 64 → ∀ k, k < 6 → (m &&& (1 <<< k) ≠ 0 ↔ m.testBit k = true) := by decide

theorem maskTest_iff_functionalPin (tsvBlocks : List tsv)
    (hmask : ∀ blk ∈ tsvBlocks, blk.tsvOperational < 64) (k : Nat) :
    maskTest tsvBlocks k ↔ functionalPin tsvBlocks k = true := by
  unfold maskTest functionalPin
  cases hblk : tsvBlocks[k / 6]? with
  | none => simp
  | some blk =>
    have hm : blk.tsvOperational < 64 := hmask blk (List.getElem?_mem hblk)
    have := land_shift_iff_testBit blk.tsvOperational hm (5 - k % 6) (by omega)
    simp only [Option.some.injEq, exists_eq_left', this]

/-! ## Blocks whose four interior pins are functional -/

theorem interior_entry_shifts : ∀ m, m < 64 → m &&& 0b011110 = 0b011110 →
    (tsvLookupTable[m]?).map (fun e => e.dqPins) = some [⟨0⟩, ⟨0⟩, ⟨0⟩, ⟨0⟩] := by decide

theorem interior_entry_flags : ∀ m, m < 64 → m &&& 0b011110 = 0b011110 →
    (tsvLookupTable[m]?).map (fun e => (e.failed, e.mustBorrow)) = some (false, false) := by
  decide

theorem interior_bits : ∀ m, m < 64 → m &&& 0b011110 = 0b011110 →
    ∀ r, r < 4 → m &&& (1 <<< (5 - (1 + r))) ≠ 0 := by decide

theorem loopBody_interior (tsvBlocks : List tsv) (i : Nat) (totaldqPins : List dq_pin)
    (blk : tsv) (hblk : tsvBlocks[i]? = some blk) (hm : blk.tsvOperational < 64)
    (hgood : blk.tsvOperational &&& 0b011110 = 0b011110)
    (hb : i * 4 + 4 ≤ totaldqPins.length) :
    loopBody tsvBlocks i false totaldqPins =
      some (.next false (writeRow totaldqPins i [⟨0⟩, ⟨0⟩, ⟨0⟩, ⟨0⟩])) := by
  obtain ⟨entry, hentry, hmem⟩ := tsvLookupTable_get _ hm
  have h1 := interior_entry_shifts _ hm hgood
  have h := interior_entry_flags _ hm hgood
  rw [hentry] at h h1
  simp only [Option.map_some', Option.some.injEq, Prod.mk.injEq] at h h1
  obtain ⟨h2, h3⟩ := h
  rw [loopBody_eq tsvBlocks i false totaldqPins blk entry hblk hentry]
  simp only [h2, Bool.false_eq_true, if_false, Bool.false_and]
  rw [commitLookup_eq entry i totaldqPins (tsvLookupTable_row_length entry hmem) hb, h1, h3]

theorem writeRow_zero_step (totaldqPins : List dq_pin) (n : Nat)
    (hb : (n + 1) * 4 ≤ totaldqPins.length) :
    writeRow (List.replicate (n * 4) (⟨0⟩ : dq_pin) ++ totaldqPins.drop (n * 4)) n
        [⟨0⟩, ⟨0⟩, ⟨0⟩, ⟨0⟩] =
      List.replicate ((n + 1) * 4) (⟨0⟩ : dq_pin) ++ totaldqPins.drop ((n + 1) * 4) := by
  apply List.ext_getElem?
  intro k
  rw [writeRow_getElem? _ n [⟨0⟩, ⟨0⟩, ⟨0⟩, ⟨0⟩] rfl
    (by simp only [List.length_append, List.length_replicate, List.length_drop]; omega)]
  simp only [List.getElem?_append, List.length_replicate, List.getElem?_replicate,
    List.getElem?_drop]
  by_cases h0 : k < n * 4
  · have h1 : k < (n + 1) * 4 := by omega
    simp only [h0, h1, if_true]
  · by_cases h4 : k < n * 4 + 4
    · have h1 : k < (n + 1) * 4 := by omega
      obtain ⟨r, hr, rfl⟩ : ∃ r, r < 4 ∧ k = n * 4 + r := ⟨k - n * 4, by omega, by omega⟩
      have hsub : n * 4 + r - n * 4 = r := by omega
      simp only [h0, h4, h1, if_true, if_false, hsub]
      interval_cases r <;> rfl
    · have h1 : ¬ k < (n + 1) * 4 := by omega
      simp only [h0, h4, h1, if_false]
      congr 1
      omega

theorem blockLoop_interior (tsvBlocks : List tsv) :
    ∀ (n : Nat) (totaldqPins : List dq_pin), n ≤ tsvBlocks.length →
      (∀ blk ∈ tsvBlocks.take n,
        blk.tsvOperational < 64 ∧ blk.tsvOperational &&& 0b011110 = 0b011110) →
      n * 4 ≤ totaldqPins.length →
      blockLoop tsvBlocks n 0 false totaldqPins =
        some (.next false
          (List.replicate (n * 4) (⟨0⟩ : dq_pin) ++ totaldqPins.drop (n * 4))) := by
  intro n
  induction n with
  | zero =>
    intro totaldqPins _ _ _
    simp [blockLoop]
  | succ n ih =>
    intro totaldqPins hn hgood hlen
    have hpre := ih totaldqPins (by omega)
      (fun blk hblk => hgood blk (by
        obtain ⟨k, hk⟩ := List.mem_iff_getElem?.mp hblk
        apply List.mem_iff_getElem?.mpr
        refine ⟨k, ?_⟩
        rw [List.getElem?_take] at hk ⊢
        split_ifs at hk with hkn
        have hkn' : k < n + 1 := by omega
        rw [if_pos hkn']
        exact hk))
      (by omega)
    have hi : n < tsvBlocks.length := by omega
    have hblk : tsvBlocks[n]? = some tsvBlocks[n] := List.getElem?_eq_getElem hi
    have hmem : tsvBlocks[n] ∈ tsvBlocks.take (n + 1) := by
      apply List.mem_iff_getElem?.mpr
      refine ⟨n, ?_⟩
      rw [List.getElem?_take, if_pos (by omega)]
      exact hblk
    obtain ⟨hm, hg⟩ := hgood _ hmem
    rw [blockLoop_add tsvBlocks n 1 0 false totaldqPins, hpre]
    simp only [Nat.zero_add, blockLoop]
    rw [loopBody_interior tsvBlocks n _ tsvBlocks[n] hblk hm hg
      (by simp only [List.length_append, List.length_replicate, List.length_drop]; omega)]
    simp only
    rw [writeRow_zero_step totaldqPins n hlen]

theorem settingAt_replicate_zero (j : Nat) :
    settingAt (List.replicate 256 (⟨0⟩ : dq_pin)) j = 0 := by
  unfold settingAt
  rw [List.getElem?_replicate]
  split_ifs <;> rfl

theorem codeIndex_replicate_zero (j : Nat) (hj : j < 256) :
    codeIndex (List.replicate 256 (⟨0⟩ : dq_pin)) j = 6 * (j / 4) + (1 + j % 4) := by
  unfold codeIndex tsvIndex
  rw [settingAt_replicate_zero]
  simp only [dqShift, DQ_SHIFT_0, if_true]
  omega

theorem sanityTestTable_interior (tsvBlocks : List tsv) (hblocks : tsvBlocks.length = 64)
    (hgood : ∀ blk ∈ tsvBlocks,
      blk.tsvOperational < 64 ∧ blk.tsvOperational &&& 0b011110 = 0b011110) :
    sanityTestTable tsvBlocks (List.replicate 256 (⟨0⟩ : dq_pin)) = some true := by
  rw [sanityTestTable_true_iff tsvBlocks _ (by rw [List.length_replicate])]
  constructor
  · intro j hj
    rw [codeIndex_replicate_zero j hj]
    refine ⟨by omega, ?_⟩
    have hdiv : (6 * (j / 4) + (1 + j % 4)) / 6 = j / 4 := by omega
    have hmod : (6 * (j / 4) + (1 + j % 4)) % 6 = 1 + j % 4 := by omega
    have hi : j / 4 < tsvBlocks.length := by omega
    refine ⟨tsvBlocks[j / 4], ?_, ?_⟩
    · rw [hdiv]
      exact List.getElem?_eq_getElem hi
    · rw [hmod]
      obtain ⟨hm, hg⟩ := hgood _ (List.getElem_mem hi)
      exact interior_bits _ hm hg (j % 4) (by omega)
  · intro j j' hlt hj'
    rw [codeIndex_replicate_zero j (by omega), codeIndex_replicate_zero j' hj']
    omega

theorem InitializeDQ_interior (tsvBlocks : List tsv) (totaldqPins : List dq_pin)
    (printOutput : Bool) (hwf : WellFormed tsvBlocks totaldqPins)
    (hgood : ∀ blk ∈ tsvBlocks, blk.tsvOperational &&& 0b011110 = 0b011110) :
    InitializeDQ tsvBlocks totaldqPins printOutput =
      some (.Done true, List.replicate 256 ⟨0⟩) := by
  obtain ⟨hblocks, hlen, hmask⟩ := hwf
  have hg : ∀ blk ∈ tsvBlocks,
      blk.tsvOperational < 64 ∧ blk.tsvOperational &&& 0b011110 = 0b011110 :=
    fun blk hblk => ⟨hmask blk hblk, hgood blk hblk⟩
  have hloop := blockLoop_interior tsvBlocks 64 totaldqPins (by omega)
    (fun blk hblk => hg blk (List.mem_of_mem_take hblk)) (by omega)
  have hdrop : totaldqPins.drop (64 * 4) = [] := List.drop_eq_nil_of_le (by omega)
  rw [hdrop, List.append_nil] at hloop
  unfold InitializeDQ
  rw [hloop]
  simp only [Bool.false_eq_true, if_false]
  rw [sanityTestTable_interior tsvBlocks hblocks hg]
  rfl

/-! ## Single blocks and early returns -/

theorem failed_of_few_bits : ∀ m, m < 64 → bitsSet m < 3 →
    (tsvLookupTable[m]?).map (fun e => e.failed) = some true := by decide

theorem canLend_needs_spare : ∀ m, m < 64 → m &&& 0x20 = 0 →
    (tsvLookupTable[m]?).map (fun e => e.canLend) = some false := by decide

theorem loopBody_intrinsic (tsvBlocks : List tsv) (i : Nat) (mustBorrow : Bool)
    (totaldqPins : List dq_pin) (blk : tsv) (entry : tsvLookup)
    (hblk : tsvBlocks[i]? = some blk)
    (hentry : tsvLookupTable[blk.tsvOperational]? = some entry)
    (hfailed : entry.failed = true) :
    loopBody tsvBlocks i mustBorrow totaldqPins =
      some (.returned (.IntrinsicBlockFailure i) totaldqPins) := by
  rw [loopBody_eq tsvBlocks i mustBorrow totaldqPins blk entry hblk hentry, if_pos hfailed]

theorem loopBody_borrow_unavailable (tsvBlocks : List tsv) (i : Nat)
    (totaldqPins : List dq_pin) (blk : tsv) (entry : tsvLookup)
    (hblk : tsvBlocks[i]? = some blk)
    (hentry : tsvLookupTable[blk.tsvOperational]? = some entry)
    (hfailed : entry.failed = false) (hlend : entry.canLend = false)
    (hspare : blk.tsvOperational &&& 0x20 = 0) :
    loopBody tsvBlocks i true totaldqPins =
      some (.returned (.BorrowUnavailable i) totaldqPins) := by
  rw [loopBody_eq tsvBlocks i true totaldqPins blk entry hblk hentry]
  simp [hfailed, hlend, hspare]

theorem loopBody_commit (tsvBlocks : List tsv) (i : Nat) (mustBorrow : Bool)
    (totaldqPins : List dq_pin) (blk : tsv) (entry : tsvLookup)
    (hblk : tsvBlocks[i]? = some blk)
    (hentry : tsvLookupTable[blk.tsvOperational]? = some entry)
    (hfailed : entry.failed = false) (hown : mustBorrow = false ∨ entry.canLend = true)
    (hb : i * 4 + 4 ≤ totaldqPins.length) :
    loopBody tsvBlocks i mustBorrow totaldqPins =
      some (.next entry.mustBorrow (writeRow totaldqPins i entry.dqPins)) := by
  have hmem := (tsvLookupTable_mem_of_get _ _ hentry).1
  rw [loopBody_eq tsvBlocks i mustBorrow totaldqPins blk entry hblk hentry,
    commitLookup_eq entry i totaldqPins (tsvLookupTable_row_length entry hmem) hb]
  rcases hown with h | h <;> simp [hfailed, h]

theorem InitializeDQ_of_returned (tsvBlocks : List tsv) (totaldqPins : List dq_pin)
    (printOutput : Bool) (k : Nat) (hk : k < 64) (mb : Bool) (mid out : List dq_pin)
    (site : ReturnSite)
    (hpre : blockLoop tsvBlocks k 0 false totaldqPins = some (.next mb mid))
    (hbody : loopBody tsvBlocks k mb mid = some (.returned site out)) :
    InitializeDQ tsvBlocks totaldqPins printOutput = some (site, out) := by
  have e : 64 = k + ((63 - k) + 1) := by omega
  unfold InitializeDQ
  rw [e, blockLoop_add tsvBlocks k ((63 - k) + 1) 0 false totaldqPins, hpre]
  simp only [Nat.zero_add]
  rw [blockLoop, hbody]

theorem wellFormed_replicate (blk : tsv) (pin : dq_pin) (hm : blk.tsvOperational < 64) :
    WellFormed (List.replicate 64 blk) (List.replicate 256 pin) :=
  ⟨List.length_replicate _ _, List.length_replicate _ _,
    fun b hb => by rw [List.eq_of_mem_replicate hb]; exact hm⟩

theorem blockLoop_one (tsvBlocks : List tsv) (i : Nat) (mustBorrow mustBorrow' : Bool)
    (totaldqPins out : List dq_pin)
    (h : loopBody tsvBlocks i mustBorrow totaldqPins = some (.next mustBorrow' out)) :
    blockLoop tsvBlocks 1 i mustBorrow totaldqPins = some (.next mustBorrow' out) := by
  rw [blockLoop, h]
  rfl

theorem entry_000111 :
    tsvLookupTable[0b000111]? = some (row 3 3 3 3 false true false) := by decide

/-- A first block `0b000111` resolves with all four DQs shifted by +2 and a borrow. -/
theorem blockLoop_first_000111 (tsvBlocks : List tsv) (totaldqPins : List dq_pin)
    (borrowedPin : Bool) (h0 : tsvBlocks[0]? = some ⟨0b000111, borrowedPin⟩)
    (hlen : 4 ≤ totaldqPins.length) :
    blockLoop tsvBlocks 1 0 false totaldqPins =
      some (.next true (writeRow totaldqPins 0 [⟨3⟩, ⟨3⟩, ⟨3⟩, ⟨3⟩])) :=
  blockLoop_one tsvBlocks 0 false true totaldqPins _
    (loopBody_commit tsvBlocks 0 false totaldqPins _ _ h0 entry_000111 rfl (Or.inl rfl)
      (by omega))

/-- The run on 63 blocks `0b111111` followed by one block `0b000111`. -/
theorem blockLoop_last_000111 :
    blockLoop (List.replicate 63 ⟨0b111111, false⟩ ++ [⟨0b000111, false⟩]) 64 0 false
        (List.replicate 256 ⟨0⟩) =
      some (.next true (List.replicate 252 ⟨0⟩ ++ List.replicate 4 ⟨3⟩)) := by
  have hlen : (List.replicate 256 (⟨0⟩ : dq_pin)).length = 256 := List.length_replicate _ _
  have hpre := blockLoop_interior (List.replicate 63 ⟨0b111111, false⟩ ++ [⟨0b000111, false⟩])
    63 (List.replicate 256 ⟨0⟩) (by decide) (by decide) (by omega)
  have hmid : List.replicate (63 * 4) (⟨0⟩ : dq_pin) ++ (List.replicate 256 ⟨0⟩).drop (63 * 4) =
      List.replicate 256 ⟨0⟩ := by
    rw [List.drop_replicate, ← List.replicate_add]
  rw [hmid] at hpre
  have hbody := loopBody_commit
    (List.replicate 63 ⟨0b111111, false⟩ ++ [⟨0b000111, false⟩]) 63 false
    (List.replicate 256 ⟨0⟩) ⟨0b000111, false⟩ _ (by decide) entry_000111 rfl (Or.inl rfl)
    (by omega)
  have hrow : writeRow (List.replicate 256 (⟨0⟩ : dq_pin)) 63 [⟨3⟩, ⟨3⟩, ⟨3⟩, ⟨3⟩] =
      List.replicate 252 ⟨0⟩ ++ List.replicate 4 ⟨3⟩ := by
    unfold writeRow
    rw [List.take_replicate, List.drop_replicate,
      show min (63 * 4) 256 = 252 from rfl, show 256 - (63 * 4 + 4) = 0 from rfl,
      List.replicate_zero, List.append_nil]
    rfl
  rw [show (64 : Nat) = 63 + 1 from rfl, blockLoop_add _ 63 1 0 false _, hpre]
  simp only [Nat.zero_add]
  rw [blockLoop_one _ 63 false true _ _ hbody]
  exact congrArg (fun l => some (Step.next true l)) hrow

/-- On 64 blocks `0b000111` block 0 resolves with a borrow and block 1 has no left spare to
give. -/
theorem InitializeDQ_all_000111 (tsvBlocks : List tsv) (totaldqPins : List dq_pin)
    (printOutput : Bool) (hblocks : tsvBlocks.length = 64)
    (hmask : ∀ blk ∈ tsvBlocks, blk.tsvOperational = 0b000111)
    (hlen : totaldqPins.length = 256) :
    blockLoop tsvBlocks 1 0 false totaldqPins =
        some (.next true (writeRow totaldqPins 0 [⟨3⟩, ⟨3⟩, ⟨3⟩, ⟨3⟩])) ∧
      InitializeDQ tsvBlocks totaldqPins printOutput =
        some (.BorrowUnavailable 1, writeRow totaldqPins 0 [⟨3⟩, ⟨3⟩, ⟨3⟩, ⟨3⟩]) := by
  have h0 : tsvBlocks[0]? = some tsvBlocks[0] := List.getElem?_eq_getElem (by omega)
  have h1 : tsvBlocks[1]? = some tsvBlocks[1] := List.getElem?_eq_getElem (by omega)
  have m0 : tsvBlocks[0].tsvOperational = 0b000111 := hmask _ (List.getElem_mem _)
  have m1 : tsvBlocks[1].tsvOperational = 0b000111 := hmask _ (List.getElem_mem _)
  have e0 : tsvLookupTable[tsvBlocks[0].tsvOperational]? = some (row 3 3 3 3 false true false) := by
    rw [m0]
    exact entry_000111
  have e1 : tsvLookupTable[tsvBlocks[1].tsvOperational]? = some (row 3 3 3 3 false true false) := by
    rw [m1]
    exact entry_000111
  have hpre : blockLoop tsvBlocks 1 0 false totaldqPins =
      some (.next true (writeRow totaldqPins 0 [⟨3⟩, ⟨3⟩, ⟨3⟩, ⟨3⟩])) :=
    blockLoop_one tsvBlocks 0 false true totaldqPins _
      (loopBody_commit tsvBlocks 0 false totaldqPins _ _ h0 e0 rfl (Or.inl rfl) (by omega))
  refine ⟨hpre, ?_⟩
  exact InitializeDQ_of_returned tsvBlocks totaldqPins printOutput 1 (by omega) true _ _ _ hpre
    (loopBody_borrow_unavailable tsvBlocks 1 _ _ _ h1 e1 rfl rfl (by rw [m1]; decide))

/-! ## Rows of the decision table -/

theorem failed_iff_bits : ∀ m, m < 64 →
    (tsvLookupTable[m]?).map (fun e => e.failed) = some (decide (bitsSet m < 3)) := by decide

theorem bitsSet_mono (a b : Nat) (h : b &&& a = b) : bitsSet b ≤ bitsSet a := by
  unfold bitsSet
  apply List.Sublist.length_le
  apply List.monotone_filter_right
  intro k hk
  rw [← h, Nat.testBit_and] at hk
  simp only [Bool.and_eq_true] at hk
  exact hk.2

theorem failed_rows : ∀ e ∈ tsvLookupTable, e.failed = true →
    e.mustBorrow = false ∧ e.canLend = false ∧ e.dqPins = [⟨0⟩, ⟨0⟩, ⟨0⟩, ⟨0⟩] := by decide

theorem rows_place_pins : ∀ m, m < 64 → ∀ e ∈ tsvLookupTable[m]?, e.failed = false →
    (∀ d, d < 4 →
      0 ≤ localPosition d (settingAt e.dqPins d) ∧ localPosition d (settingAt e.dqPins d) ≤ 6 ∧
      (localPosition d (settingAt e.dqPins d) ≤ 5 →
        m.testBit (5 - (localPosition d (settingAt e.dqPins d)).toNat) = true) ∧
      (localPosition d (settingAt e.dqPins d) = 6 → d = 3)) ∧
    (∀ d, d < 3 → localPosition d (settingAt e.dqPins d) <
      localPosition (d + 1) (settingAt e.dqPins (d + 1))) := by decide

theorem mustBorrow_rows : ∀ e ∈ tsvLookupTable, e.failed = false →
    (e.mustBorrow = true ↔ settingAt e.dqPins 3 = DQ_SHIFT_2_RIGHT) := by decide

theorem pinOffsetAt_eq (i : Nat) : pinOffsetAt i = 1 + 2 * (i / 4) := by
  induction i with
  | zero => rfl
  | succ i ih =>
    rw [pinOffsetAt, ih]
    exact pinOffset_step i

/-! ## Dependence on the masks only -/

theorem getElem?_mask_congr (blocks₁ blocks₂ : List tsv)
    (h : blocks₁.map (fun blk => blk.tsvOperational) =
      blocks₂.map (fun blk => blk.tsvOperational)) (k : Nat) :
    (blocks₁[k]?).map (fun blk => blk.tsvOperational) =
      (blocks₂[k]?).map (fun blk => blk.tsvOperational) := by
  have := congrArg (fun l => l[k]?) h
  simpa only [List.getElem?_map] using this

theorem loopBody_congr (blocks₁ blocks₂ : List tsv) (i : Nat) (mustBorrow : Bool)
    (totaldqPins : List dq_pin)
    (h : (blocks₁[i]?).map (fun blk => blk.tsvOperational) =
      (blocks₂[i]?).map (fun blk => blk.tsvOperational)) :
    loopBody blocks₁ i mustBorrow totaldqPins = loopBody blocks₂ i mustBorrow totaldqPins := by
  cases h1 : blocks₁[i]? with
  | none =>
    cases h2 : blocks₂[i]? with
    | none => simp only [loopBody, h1, h2]
    | some y => simp [h1, h2] at h
  | some x =>
    cases h2 : blocks₂[i]? with
    | none => simp [h1, h2] at h
    | some y =>
      rw [h1, h2] at h
      simp only [Option.map_some', Option.some.injEq] at h
      simp only [loopBody, h1, h2, h]

theorem blockLoop_congr (blocks₁ blocks₂ : List tsv)
    (h : blocks₁.map (fun blk => blk.tsvOperational) =
      blocks₂.map (fun blk => blk.tsvOperational)) :
    ∀ (n i : Nat) (mustBorrow : Bool) (totaldqPins : List dq_pin),
      blockLoop blocks₁ n i mustBorrow totaldqPins =
        blockLoop blocks₂ n i mustBorrow totaldqPins := by
  intro n
  induction n with
  | zero =>
    intro i mustBorrow totaldqPins
    rfl
  | succ n ih =>
    intro i mustBorrow totaldqPins
    rw [blockLoop, blockLoop,
      loopBody_congr blocks₁ blocks₂ i mustBorrow totaldqPins (getElem?_mask_congr _ _ h i)]
    cases loopBody blocks₂ i mustBorrow totaldqPins with
    | none => rfl
    | some s =>
      cases s with
      | returned site out => rfl
      | next mb out => exact ih (i + 1) mb out

theorem sanityLoop_congr (blocks₁ blocks₂ : List tsv) (totaldqPins : List dq_pin)
    (h : blocks₁.map (fun blk => blk.tsvOperational) =
      blocks₂.map (fun blk => blk.tsvOperational)) :
    ∀ (n i pinOffset : Nat) (totalPins : List Int),
      sanityLoop blocks₁ totaldqPins n i pinOffset totalPins =
        sanityLoop blocks₂ totaldqPins n i pinOffset totalPins := by
  intro n
  induction n with
  | zero =>
    intro i pinOffset totalPins
    rfl
  | succ n ih =>
    intro i pinOffset totalPins
    rw [sanityLoop, sanityLoop]
    cases totaldqPins[i]? with
    | none => rfl
    | some pin =>
      simp only
      cases totalPins[tsvIndex i pinOffset (dqShift pin.setting)]? with
      | none => rfl
      | some claimed =>
        dsimp only
        by_cases hc : claimed ≠ -1
        · rw [if_pos hc, if_pos hc]
        · rw [if_neg hc, if_neg hc]
          have hk := getElem?_mask_congr _ _ h (tsvIndex i pinOffset (dqShift pin.setting) / 6)
          cases h1 : blocks₁[tsvIndex i pinOffset (dqShift pin.setting) / 6]? with
          | none =>
            cases h2 : blocks₂[tsvIndex i pinOffset (dqShift pin.setting) / 6]? with
            | none => rfl
            | some y => simp [h1, h2] at hk
          | some x =>
            cases h2 : blocks₂[tsvIndex i pinOffset (dqShift pin.setting) / 6]? with
            | none => simp [h1, h2] at hk
            | some y =>
              rw [h1, h2] at hk
              simp only [Option.map_some', Option.some.injEq] at hk
              simp only [hk, ih]

theorem InitializeDQ_congr (blocks₁ blocks₂ : List tsv) (totaldqPins : List dq_pin)
    (printOutput₁ printOutput₂ : Bool)
    (h : blocks₁.map (fun blk => blk.tsvOperational) =
      blocks₂.map (fun blk => blk.tsvOperational)) :
    InitializeDQ blocks₁ totaldqPins printOutput₁ =
      InitializeDQ blocks₂ totaldqPins printOutput₂ := by
  unfold InitializeDQ sanityTestTable
  rw [blockLoop_congr blocks₁ blocks₂ h]
  cases blockLoop blocks₂ 64 0 false totaldqPins with
  | none => rfl
  | some s =>
    cases s with
    | returned site out => rfl
    | next mb out =>
      simp only
      rw [sanityLoop_congr blocks₁ blocks₂ out h]

theorem commitLookup_agree (lookup : tsvLookup) (i : Nat) (pins₁ pins₂ : List dq_pin)
    (hrow : lookup.dqPins.length = 4) (h1 : i * 4 + 4 ≤ pins₁.length)
    (hlen : pins₁.length = pins₂.length)
    (hlow : ∀ k, k < 4 * i → pins₁[k]? = pins₂[k]?) :
    StepAgree (4 * (i + 1)) (commitLookup lookup i pins₁) (commitLookup lookup i pins₂) := by
  rw [commitLookup_eq lookup i pins₁ hrow h1, commitLookup_eq lookup i pins₂ hrow (by omega)]
  refine ⟨rfl, ?_, ?_⟩
  · rw [writeRow_length pins₁ i _ hrow h1, writeRow_length pins₂ i _ hrow (by omega)]
    exact hlen
  · intro k hk
    rw [writeRow_getElem? pins₁ i _ hrow h1, writeRow_getElem? pins₂ i _ hrow (by omega)]
    by_cases h0 : k < i * 4
    · simp only [h0, if_true]
      exact hlow k (by omega)
    · have h4 : k < i * 4 + 4 := by omega
      simp only [h0, h4, if_true, if_false]

theorem loopBody_agree (tsvBlocks : List tsv) (i : Nat) (mustBorrow : Bool)
    (pins₁ pins₂ : List dq_pin) (h1 : i * 4 + 4 ≤ pins₁.length)
    (hlen : pins₁.length = pins₂.length)
    (hlow : ∀ k, k < 4 * i → pins₁[k]? = pins₂[k]?) :
    StepAgree (4 * (i + 1)) (loopBody tsvBlocks i mustBorrow pins₁)
      (loopBody tsvBlocks i mustBorrow pins₂) := by
  cases hblk : tsvBlocks[i]? with
  | none => simp [loopBody, hblk, StepAgree]
  | some blk =>
    cases hentry : tsvLookupTable[blk.tsvOperational]? with
    | none => simp [loopBody, hblk, hentry, StepAgree]
    | some entry =>
      rw [loopBody_eq tsvBlocks i mustBorrow pins₁ blk entry hblk hentry,
        loopBody_eq tsvBlocks i mustBorrow pins₂ blk entry hblk hentry]
      have hmem := (tsvLookupTable_mem_of_get _ _ hentry).1
      split_ifs
      · exact rfl
      · exact rfl
      · cases hred : tsvLookupTable[blk.tsvOperational &&& 0x1F]? with
        | none => simp [StepAgree]
        | some reduced =>
          simp only
          have hmem2 := (tsvLookupTable_mem_of_get _ _ hred).1
          split_ifs
          · exact rfl
          · exact commitLookup_agree reduced i pins₁ pins₂
              (tsvLookupTable_row_length reduced hmem2) h1 hlen hlow
      · exact commitLookup_agree entry i pins₁ pins₂
          (tsvLookupTable_row_length entry hmem) h1 hlen hlow

theorem blockLoop_agree (tsvBlocks : List tsv) :
    ∀ (n i : Nat) (mustBorrow : Bool) (pins₁ pins₂ : List dq_pin),
      (i + n) * 4 ≤ pins₁.length → pins₁.length = pins₂.length →
      (∀ k, k < 4 * i → pins₁[k]? = pins₂[k]?) →
      StepAgree (4 * (i + n)) (blockLoop tsvBlocks n i mustBorrow pins₁)
        (blockLoop tsvBlocks n i mustBorrow pins₂) := by
  intro n
  induction n with
  | zero =>
    intro i mustBorrow pins₁ pins₂ _ hlen hlow
    exact ⟨rfl, hlen, hlow⟩
  | succ n ih =>
    intro i mustBorrow pins₁ pins₂ hb hlen hlow
    have hstep := loopBody_agree tsvBlocks i mustBorrow pins₁ pins₂ (by omega) hlen hlow
    rw [blockLoop, blockLoop]
    cases hs1 : loopBody tsvBlocks i mustBorrow pins₁ with
    | none =>
      cases hs2 : loopBody tsvBlocks i mustBorrow pins₂ with
      | none => trivial
      | some s2 =>
        rw [hs1, hs2] at hstep
        cases s2 <;> exact hstep.elim
    | some s1 =>
      cases hs2 : loopBody tsvBlocks i mustBorrow pins₂ with
      | none =>
        rw [hs1, hs2] at hstep
        cases s1 <;> exact hstep.elim
      | some s2 =>
        rw [hs1, hs2] at hstep
        cases s1 with
        | returned site₁ out₁ =>
          cases s2 with
          | returned site₂ out₂ => exact hstep
          | next mb₂ out₂ => exact hstep.elim
        | next mb₁ out₁ =>
          cases s2 with
          | returned site₂ out₂ => exact hstep.elim
          | next mb₂ out₂ =>
            obtain ⟨hmb, hl, hag⟩ := hstep
            obtain ⟨r, hmem, _, _, hbound, hout⟩ := loopBody_next tsvBlocks _ _ _ _ _ hs1
            have hl1 : out₁.length = pins₁.length := by
              rw [hout, writeRow_length pins₁ i r.dqPins
                (tsvLookupTable_row_length r hmem) hbound]
            simp only
            rw [hmb]
            have := ih (i + 1) mb₂ out₁ out₂ (by omega) hl hag
            have e : i + 1 + n = i + (n + 1) := by omega
            rw [e] at this
            exact this

theorem InitializeDQ_pins_agree (tsvBlocks : List tsv) (pins₁ pins₂ : List dq_pin)
    (printOutput₁ printOutput₂ : Bool) (h1 : pins₁.length = 256) (h2 : pins₂.length = 256) :
    (InitializeDQ tsvBlocks pins₁ printOutput₁).map (fun r => r.1) =
        (InitializeDQ tsvBlocks pins₂ printOutput₂).map (fun r => r.1) ∧
      ∀ site₁ out₁ site₂ out₂,
        InitializeDQ tsvBlocks pins₁ printOutput₁ = some (site₁, out₁) →
        InitializeDQ tsvBlocks pins₂ printOutput₂ = some (site₂, out₂) →
        site₁.value = true → out₁ = out₂ := by
  have hag := blockLoop_agree tsvBlocks 64 0 false pins₁ pins₂ (by omega) (by omega)
    (fun k hk => absurd hk (by omega))
  unfold InitializeDQ
  cases hs1 : blockLoop tsvBlocks 64 0 false pins₁ with
  | none =>
    cases hs2 : blockLoop tsvBlocks 64 0 false pins₂ with
    | none =>
      refine ⟨rfl, ?_⟩
      intro site₁ out₁ site₂ out₂ e1
      cases e1
    | some s2 =>
      rw [hs1, hs2] at hag
      cases s2 <;> exact hag.elim
  | some s1 =>
    cases hs2 : blockLoop tsvBlocks 64 0 false pins₂ with
    | none =>
      rw [hs1, hs2] at hag
      cases s1 <;> exact hag.elim
    | some s2 =>
      rw [hs1, hs2] at hag
      cases s1 with
      | returned site₁ o₁ =>
        cases s2 with
        | next mb₂ o₂ => exact hag.elim
        | returned site₂ o₂ =>
          have hsite : site₁ = site₂ := hag
          subst hsite
          refine ⟨rfl, ?_⟩
          intro s₁ out₁ s₂ out₂ e1 _ hv
          simp only [Option.some.injEq, Prod.mk.injEq] at e1
          rw [← e1.1, blockLoop_returned_value tsvBlocks 64 0 false pins₁ o₁ site₁ hs1] at hv
          exact absurd hv (by decide)
      | next mb₁ o₁ =>
        cases s2 with
        | returned site₂ o₂ => exact hag.elim
        | next mb₂ o₂ =>
          obtain ⟨hmb, hl, hlow⟩ := hag
          have hl1 : o₁.length = 256 := by
            rw [blockLoop_next_length tsvBlocks 64 0 false mb₁ pins₁ o₁ hs1]
            exact h1
          have heq : o₁ = o₂ := by
            apply List.ext_getElem?
            intro k
            by_cases hk : k < 256
            · exact hlow k (by omega)
            · rw [List.getElem?_eq_none (by omega), List.getElem?_eq_none (by omega)]
          subst heq
          subst hmb
          refine ⟨rfl, ?_⟩
          intro s₁ out₁ s₂ out₂ e1 e2 _
          rw [e1] at e2
          simp only [Option.some.injEq, Prod.mk.injEq] at e2
          exact e2.2

/-! ## What a failed run leaves in the array -/

theorem blockLoop_frame (tsvBlocks : List tsv) :
    ∀ (n i : Nat) (mustBorrow mustBorrow' : Bool) (totaldqPins out : List dq_pin),
      blockLoop tsvBlocks n i mustBorrow totaldqPins = some (.next mustBorrow' out) →
        ∀ k, (k < i * 4 ∨ (i + n) * 4 ≤ k) → out[k]? = totaldqPins[k]? := by
  intro n
  induction n with
  | zero =>
    intro i mustBorrow mustBorrow' totaldqPins out h k _
    simp only [blockLoop, Option.some.injEq, Step.next.injEq] at h
    rw [h.2]
  | succ n ih =>
    intro i mustBorrow mustBorrow' totaldqPins out h k hk
    obtain ⟨mb, mid, hpre, hbody⟩ := blockLoop_last tsvBlocks n i _ _ _ _ h
    obtain ⟨r, hmem, _, _, hb, hout⟩ := loopBody_next tsvBlocks _ _ _ _ _ hbody
    have hmid := ih i mustBorrow mb totaldqPins mid hpre k (by omega)
    rw [hout, writeRow_getElem? mid (i + n) r.dqPins (tsvLookupTable_row_length r hmem) hb,
      ← hmid]
    by_cases h0 : k < (i + n) * 4
    · simp only [h0, if_true]
    · have h4 : ¬ k < (i + n) * 4 + 4 := by omega
      simp only [h0, h4, if_false]

theorem loopBody_returned_site (tsvBlocks : List tsv) (i : Nat) (mustBorrow : Bool)
    (totaldqPins out : List dq_pin) (site : ReturnSite)
    (h : loopBody tsvBlocks i mustBorrow totaldqPins = some (.returned site out)) :
    site = .IntrinsicBlockFailure i ∨ site = .BorrowUnavailable i ∨
      site = .ChainBorrowFailure i := by
  cases hblk : tsvBlocks[i]? with
  | none => simp [loopBody, hblk] at h
  | some blk =>
    cases hentry : tsvLookupTable[blk.tsvOperational]? with
    | none => simp [loopBody, hblk, hentry] at h
    | some entry =>
      rw [loopBody_eq tsvBlocks i mustBorrow totaldqPins blk entry hblk hentry] at h
      split_ifs at h
      · simp only [Option.some.injEq, Step.returned.injEq] at h
        exact Or.inl h.1.symm
      · simp only [Option.some.injEq, Step.returned.injEq] at h
        exact Or.inr (Or.inl h.1.symm)
      · split at h
        · simp at h
        · split_ifs at h
          · simp only [Option.some.injEq, Step.returned.injEq] at h
            exact Or.inr (Or.inr h.1.symm)
          · exact absurd h (commitLookup_ne_returned _ _ _ _ _)
      · exact absurd h (commitLookup_ne_returned _ _ _ _ _)

theorem blockLoop_returned_at (tsvBlocks : List tsv) :
    ∀ (n i : Nat) (mustBorrow : Bool) (totaldqPins out : List dq_pin) (site : ReturnSite),
      blockLoop tsvBlocks n i mustBorrow totaldqPins = some (.returned site out) →
        ∃ j mb, j < n ∧
          blockLoop tsvBlocks j i mustBorrow totaldqPins = some (.next mb out) ∧
          loopBody tsvBlocks (i + j) mb out = some (.returned site out) := by
  intro n
  induction n with
  | zero =>
    intro i mustBorrow totaldqPins out site h
    simp [blockLoop] at h
  | succ n ih =>
    intro i mustBorrow totaldqPins out site h
    rw [blockLoop] at h
    cases hbody : loopBody tsvBlocks i mustBorrow totaldqPins with
    | none => simp [hbody] at h
    | some s =>
      cases s with
      | returned site2 out2 =>
        simp only [hbody, Option.some.injEq, Step.returned.injEq] at h
        have hout := loopBody_returned tsvBlocks i mustBorrow totaldqPins out2 site2 hbody
        refine ⟨0, mustBorrow, by omega, ?_, ?_⟩
        · rw [← h.2, hout]
          rfl
        · rw [← h.1, ← h.2, hout]
          rw [hout] at hbody
          exact hbody
      | next mb out2 =>
        simp only [hbody] at h
        obtain ⟨j, mbj, hj, hpre, hret⟩ := ih (i + 1) mb out2 out site h
        refine ⟨j + 1, mbj, by omega, ?_, ?_⟩
        · rw [blockLoop, hbody]
          exact hpre
        · have e : i + (j + 1) = i + 1 + j := by omega
          rw [e]
          exact hret

theorem drop_take_congr (l₁ l₂ : List dq_pin) (a : Nat)
    (h : ∀ k, k < a + 4 → l₁[k]? = l₂[k]?) :
    (l₁.drop a).take 4 = (l₂.drop a).take 4 := by
  apply List.ext_getElem?
  intro k
  simp only [List.getElem?_take, List.getElem?_drop]
  split_ifs with hk
  · exact h (a + k) (by omega)
  · rfl

/-- When `InitializeDQ` returns inside the loop at block `i`, the array it leaves is the
array as it was after blocks 0..i-1 were resolved. -/
theorem InitializeDQ_loop_failure (tsvBlocks : List tsv) (totaldqPins out : List dq_pin)
    (printOutput : Bool) (i : Nat) (site : ReturnSite)
    (h : InitializeDQ tsvBlocks totaldqPins printOutput = some (site, out))
    (hsite : site = .IntrinsicBlockFailure i ∨ site = .BorrowUnavailable i ∨
      site = .ChainBorrowFailure i) :
    i < 64 ∧ ∃ mb, blockLoop tsvBlocks i 0 false totaldqPins = some (.next mb out) ∧
      loopBody tsvBlocks i mb out = some (.returned site out) := by
  unfold InitializeDQ at h
  cases hs : blockLoop tsvBlocks 64 0 false totaldqPins with
  | none => simp [hs] at h
  | some s =>
    cases s with
    | returned site2 out2 =>
      simp only [hs, Option.some.injEq, Prod.mk.injEq] at h
      obtain ⟨j, mb, hj, hpre, hret⟩ :=
        blockLoop_returned_at tsvBlocks 64 0 false totaldqPins out2 site2 hs
      rw [Nat.zero_add] at hret
      have hsite2 := loopBody_returned_site tsvBlocks j mb out2 out2 site2 hret
      rw [h.1] at hsite2 hret
      rw [h.2] at hpre hret
      have hij : j = i := by
        rcases hsite with e | e | e <;> rcases hsite2 with e2 | e2 | e2 <;>
          rw [e] at e2 <;> cases e2 <;> rfl
      rw [hij] at hj hpre hret
      exact ⟨hj, mb, hpre, hret⟩
    | next mb out2 =>
      simp only [hs] at h
      split_ifs at h
      · simp only [Option.some.injEq, Prod.mk.injEq] at h
        rcases hsite with e | e | e <;> rw [e] at h <;> exact ReturnSite.noConfusion h.1
      · split at h
        · simp at h
        · simp only [Option.some.injEq, Prod.mk.injEq] at h
          rcases hsite with e | e | e <;> rw [e] at h <;> exact ReturnSite.noConfusion h.1
        · simp only [Option.some.injEq, Prod.mk.injEq] at h
          rcases hsite with e | e | e <;> rw [e] at h <;> exact ReturnSite.noConfusion h.1

theorem dqIndex_replicate_zero_range (i : Nat) (hi : i < 256) :
    0 ≤ dqIndex (List.replicate 256 ⟨0⟩) i ∧ dqIndex (List.replicate 256 ⟨0⟩) i ≤ 383 := by
  rw [← codeIndex_eq_dqIndex _ i hi, codeIndex_replicate_zero i hi]
  omega

/-! ## Placements of the four DQs of a block -/

theorem mustBorrow_iff_bits : ∀ m, m < 64 →
    (tsvLookupTable[m]?).map (fun e => e.mustBorrow) = some (decide (bitsSet m = 3)) := by
  decide

theorem canLend_iff_bits : ∀ m, m < 64 →
    (tsvLookupTable[m]?).map (fun e => e.canLend) =
      some (decide (m &&& 0x20 ≠ 0 ∧ 5 ≤ bitsSet m)) := by
  decide

theorem canLend_rows : ∀ m, m < 64 → ∀ e ∈ tsvLookupTable[m]?, e.canLend = true →
    m.testBit 5 = true ∧ m &&& 0x20 ≠ 0 ∧
      (∀ d, d < 4 → localPosition d (settingAt e.dqPins d) ≠ 0) ∧
      (m ≠ 0b101111 → settingAt e.dqPins 0 = DQ_SHIFT_0) ∧
      (m = 0b101111 → settingAt e.dqPins 0 = DQ_SHIFT_1_RIGHT) := by
  decide

theorem row_codes : ∀ e ∈ tsvLookupTable, ∀ d, d < 4 → settingAt e.dqPins d < 4 := by
  decide

theorem bitsSet_ge_of_nodup (m : Nat) (l : List Nat) (hnodup : l.Nodup)
    (hbits : ∀ k ∈ l, k < 6 ∧ m.testBit k = true) : l.length ≤ bitsSet m := by
  unfold bitsSet
  apply List.Subperm.length_le
  apply List.subperm_of_subset hnodup
  intro k hk
  obtain ⟨h6, hb⟩ := hbits k hk
  exact List.mem_filter.mpr ⟨List.mem_range.mpr h6, hb⟩

theorem nodup_three (a b c : Nat) (h1 : a ≠ b) (h2 : a ≠ c) (h3 : b ≠ c) :
    [a, b, c].Nodup := by
  simp [h1, h2, h3]

theorem nodup_four (a b c d : Nat) (h1 : a ≠ b) (h2 : a ≠ c) (h3 : a ≠ d) (h4 : b ≠ c)
    (h5 : b ≠ d) (h6 : c ≠ d) : [a, b, c, d].Nodup := by
  simp [h1, h2, h3, h4, h5, h6]

theorem localPosition_bounds (d c : Nat) :
    (d : Int) ≤ localPosition d c ∧ localPosition d c ≤ (d : Int) + 3 := by
  have hb := dqShift_bounds c
  have h2 := dqShift_eq_two c
  unfold localPosition
  rw [← dqShift_eq_shiftValue]
  omega

/-- In a placement the first three DQs sit on three different functional pins of the
block. -/
theorem placement_three_pins (m c0 c1 c2 c3 : Nat) (h : Placement m c0 c1 c2 c3) :
    positionInBlock m (localPosition 0 c0) ∧ positionInBlock m (localPosition 1 c1) ∧
      positionInBlock m (localPosition 2 c2) := by
  obtain ⟨_, _, _, _, _, f0, f1, f2, _⟩ := h
  have b0 := localPosition_bounds 0 c0
  have b1 := localPosition_bounds 1 c1
  have b2 := localPosition_bounds 2 c2
  refine ⟨?_, ?_, ?_⟩
  · rcases f0 with f | f
    · exact f
    · omega
  · rcases f1 with f | f
    · exact f
    · omega
  · rcases f2 with f | f
    · exact f
    · omega

theorem placement_bits (m c0 c1 c2 c3 : Nat) (h : Placement m c0 c1 c2 c3) :
    3 ≤ bitsSet m := by
  obtain ⟨p0, p1, p2⟩ := placement_three_pins m c0 c1 c2 c3 h
  obtain ⟨_, _, _, _, hd, _⟩ := h
  obtain ⟨d01, d02, _, d12, _, _⟩ := hd
  have := bitsSet_ge_of_nodup m
    [5 - (localPosition 0 c0).toNat, 5 - (localPosition 1 c1).toNat,
      5 - (localPosition 2 c2).toNat]
    (by
      obtain ⟨a1, a2, _⟩ := p0
      obtain ⟨b1, b2, _⟩ := p1
      obtain ⟨e1, e2, _⟩ := p2
      exact nodup_three _ _ _ (by omega) (by omega) (by omega))
    (by
      intro k hk
      simp only [List.mem_cons, List.mem_singleton, List.not_mem_nil, or_false] at hk
      rcases hk with rfl | rfl | rfl
      · exact ⟨by omega, p0.2.2⟩
      · exact ⟨by omega, p1.2.2⟩
      · exact ⟨by omega, p2.2.2⟩)
  simpa using this

/-- A placement on a mask with exactly three set bits puts the last DQ on position 6. -/
theorem placement_borrows (m c0 c1 c2 c3 : Nat) (h : Placement m c0 c1 c2 c3)
    (hbits : bitsSet m ≤ 3) : localPosition 3 c3 = 6 := by
  obtain ⟨p0, p1, p2⟩ := placement_three_pins m c0 c1 c2 c3 h
  obtain ⟨_, _, _, _, hd, _, _, _, f3⟩ := h
  obtain ⟨d01, d02, d03, d12, d13, d23⟩ := hd
  rcases f3 with p3 | p3
  · exfalso
    have := bitsSet_ge_of_nodup m
      [5 - (localPosition 0 c0).toNat, 5 - (localPosition 1 c1).toNat,
        5 - (localPosition 2 c2).toNat, 5 - (localPosition 3 c3).toNat]
      (by
        obtain ⟨a1, a2, _⟩ := p0
        obtain ⟨b1, b2, _⟩ := p1
        obtain ⟨e1, e2, _⟩ := p2
        obtain ⟨g1, g2, _⟩ := p3
        exact nodup_four _ _ _ _ (by omega) (by omega) (by omega) (by omega) (by omega)
          (by omega))
      (by
        intro k hk
        simp only [List.mem_cons, List.mem_singleton, List.not_mem_nil, or_false] at hk
        rcases hk with rfl | rfl | rfl | rfl
        · exact ⟨by omega, p0.2.2⟩
        · exact ⟨by omega, p1.2.2⟩
        · exact ⟨by omega, p2.2.2⟩
        · exact ⟨by omega, p3.2.2⟩)
    simp only [List.length_cons, List.length_nil] at this
    omega
  · exact p3

/-- The row of a mask that is not failed is a placement. -/
theorem row_placement (m : Nat) (e : tsvLookup) (hentry : tsvLookupTable[m]? = some e)
    (hnf : e.failed = false) :
    Placement m (settingAt e.dqPins 0) (settingAt e.dqPins 1) (settingAt e.dqPins 2)
      (settingAt e.dqPins 3) := by
  obtain ⟨hmem, hm⟩ := tsvLookupTable_mem_of_get m e hentry
  obtain ⟨hpos, hinc⟩ := rows_place_pins m hm e hentry hnf
  have hc := row_codes e hmem
  have i0 := hinc 0 (by omega)
  have i1 := hinc 1 (by omega)
  have i2 := hinc 2 (by omega)
  simp only [Nat.zero_add, Nat.reduceAdd] at i0 i1 i2
  have free : ∀ d, d < 4 → positionFree m (localPosition d (settingAt e.dqPins d)) := by
    intro d hd
    obtain ⟨a, b, c, _⟩ := hpos d hd
    by_cases h5 : localPosition d (settingAt e.dqPins d) ≤ 5
    · exact Or.inl ⟨a, h5, c h5⟩
    · exact Or.inr (by omega)
  refine ⟨hc 0 (by omega), hc 1 (by omega), hc 2 (by omega), hc 3 (by omega), ?_,
    free 0 (by omega), free 1 (by omega), free 2 (by omega), free 3 (by omega)⟩
  refine ⟨?_, ?_, ?_, ?_, ?_, ?_⟩ <;> omega

set_option maxRecDepth 100000 in
set_option synthInstance.maxSize 4000 in
set_option synthInstance.maxHeartbeats 400000 in
set_option maxHeartbeats 4000000 in
theorem row_placement_in_block : ∀ m, m < 64 → bitsSet m = 4 → ∀ e ∈ tsvLookupTable[m]?,
    PlacementInBlock m (settingAt e.dqPins 0) (settingAt e.dqPins 1) (settingAt e.dqPins 2)
      (settingAt e.dqPins 3) := by
  decide

theorem three_bits_not_failed : ∀ m, m < 64 → bitsSet m = 3 → ∀ e ∈ tsvLookupTable[m]?,
    e.failed = false := by
  decide

set_option maxRecDepth 100000 in
set_option synthInstance.maxSize 4000 in
set_option synthInstance.maxHeartbeats 400000 in
set_option maxHeartbeats 4000000 in
theorem minimal_four_bits : ∀ m, m < 64 → bitsSet m = 4 → ∀ e ∈ tsvLookupTable[m]?,
    ∀ c0, c0 < 4 → ∀ c1, c1 < 4 → ∀ c2, c2 < 4 → ∀ c3, c3 < 4 →
      PlacementInBlock m c0 c1 c2 c3 → entryMagnitude e ≤ shiftMagnitude c0 c1 c2 c3 := by
  decide

set_option maxRecDepth 100000 in
set_option synthInstance.maxSize 4000 in
set_option synthInstance.maxHeartbeats 400000 in
set_option maxHeartbeats 4000000 in
theorem minimal_three_bits : ∀ m, m < 64 → bitsSet m = 3 → ∀ e ∈ tsvLookupTable[m]?,
    ∀ c0, c0 < 4 → ∀ c1, c1 < 4 → ∀ c2, c2 < 4 → ∀ c3, c3 < 4 →
      Placement m c0 c1 c2 c3 → entryMagnitude e ≤ shiftMagnitude c0 c1 c2 c3 := by
  decide

/-! ## The block resolver -/

theorem loopBody_resolve (tsvBlocks : List tsv) (i : Nat) (mustBorrow : Bool)
    (totaldqPins : List dq_pin) (blk : tsv) (hblk : tsvBlocks[i]? = some blk) :
    (resolve blk.tsvOperational mustBorrow = none →
        loopBody tsvBlocks i mustBorrow totaldqPins = none) ∧
      (resolve blk.tsvOperational mustBorrow = some .intrinsic →
        loopBody tsvBlocks i mustBorrow totaldqPins =
          some (.returned (.IntrinsicBlockFailure i) totaldqPins)) ∧
      (resolve blk.tsvOperational mustBorrow = some .borrowUnavailable →
        loopBody tsvBlocks i mustBorrow totaldqPins =
          some (.returned (.BorrowUnavailable i) totaldqPins)) ∧
      (resolve blk.tsvOperational mustBorrow = some .chainFailure →
        loopBody tsvBlocks i mustBorrow totaldqPins =
          some (.returned (.ChainBorrowFailure i) totaldqPins)) ∧
      (∀ r, resolve blk.tsvOperational mustBorrow = some (.resolved r) →
        loopBody tsvBlocks i mustBorrow totaldqPins = commitLookup r i totaldqPins) := by
  unfold resolve
  simp only [loopBody, hblk]
  cases tsvLookupTable[blk.tsvOperational]? with
  | none => simp
  | some entry =>
    simp only
    by_cases hf : entry.failed = true
    · simp [hf]
    · simp only [hf, Bool.false_eq_true, if_false]
      by_cases hb : (mustBorrow && !entry.canLend) = true
      · simp only [hb, if_true]
        by_cases h20 : blk.tsvOperational &&& 0x20 = 0
        · simp [h20]
        · simp only [h20, if_false]
          cases tsvLookupTable[blk.tsvOperational &&& 0x1F]? with
          | none => simp
          | some reduced =>
            simp only
            by_cases hf2 : reduced.failed = true
            · simp [hf2]
            · simp [hf2]
      · simp [hb]

theorem resolve_resolved_mem (m : Nat) (inbound : Bool) (r : tsvLookup)
    (h : resolve m inbound = some (.resolved r)) : r ∈ tsvLookupTable ∧ m < 64 := by
  unfold resolve at h
  cases hentry : tsvLookupTable[m]? with
  | none => simp [hentry] at h
  | some entry =>
    have hm := tsvLookupTable_mem_of_get m entry hentry
    simp only [hentry] at h
    by_cases hf : entry.failed = true
    · simp [hf] at h
    · simp only [hf, Bool.false_eq_true, if_false] at h
      by_cases hb : (inbound && !entry.canLend) = true
      · simp only [hb, if_true] at h
        by_cases h20 : m &&& 0x20 = 0
        · simp [h20] at h
        · simp only [h20, if_false] at h
          cases hred : tsvLookupTable[m &&& 0x1F]? with
          | none => simp [hred] at h
          | some reduced =>
            simp only [hred] at h
            by_cases hf2 : reduced.failed = true
            · simp [hf2] at h
            · simp only [hf2, Bool.false_eq_true, if_false, Option.some.injEq,
                Resolution.resolved.injEq] at h
              rw [← h]
              exact ⟨(tsvLookupTable_mem_of_get _ _ hred).1, hm.2⟩
      · simp only [hb, Bool.false_eq_true, if_false, Option.some.injEq,
          Resolution.resolved.injEq] at h
        rw [← h]
        exact hm

theorem resolvedRow_eq (m : Nat) (inbound : Bool) (r : tsvLookup) :
    resolvedRow m inbound = some r ↔ resolve m inbound = some (.resolved r) := by
  unfold resolvedRow
  cases resolve m inbound with
  | none => simp
  | some k => cases k <;> simp

theorem loopBody_of_resolved (tsvBlocks : List tsv) (i : Nat) (mustBorrow : Bool)
    (totaldqPins : List dq_pin) (blk : tsv) (r : tsvLookup)
    (hblk : tsvBlocks[i]? = some blk)
    (hres : resolve blk.tsvOperational mustBorrow = some (.resolved r))
    (hb : i * 4 + 4 ≤ totaldqPins.length) :
    loopBody tsvBlocks i mustBorrow totaldqPins =
      some (.next r.mustBorrow (writeRow totaldqPins i r.dqPins)) := by
  rw [(loopBody_resolve tsvBlocks i mustBorrow totaldqPins blk hblk).2.2.2.2 r hres]
  exact commitLookup_eq r i totaldqPins
    (tsvLookupTable_row_length r (resolve_resolved_mem _ _ r hres).1) hb

theorem loopBody_next_resolved (tsvBlocks : List tsv) (i : Nat) (mustBorrow mustBorrow' : Bool)
    (totaldqPins out : List dq_pin)
    (h : loopBody tsvBlocks i mustBorrow totaldqPins = some (.next mustBorrow' out)) :
    ∃ blk r, tsvBlocks[i]? = some blk ∧
      resolve blk.tsvOperational mustBorrow = some (.resolved r) ∧
      mustBorrow' = r.mustBorrow ∧ i * 4 + 4 ≤ totaldqPins.length ∧
      out = writeRow totaldqPins i r.dqPins := by
  cases hblk : tsvBlocks[i]? with
  | none => simp [loopBody, hblk] at h
  | some blk =>
    obtain ⟨h0, h1, h2, h3, h4⟩ := loopBody_resolve tsvBlocks i mustBorrow totaldqPins blk hblk
    cases hres : resolve blk.tsvOperational mustBorrow with
    | none =>
      rw [h0 hres] at h
      cases h
    | some k =>
      cases k with
      | intrinsic =>
        rw [h1 hres] at h
        cases h
      | borrowUnavailable =>
        rw [h2 hres] at h
        cases h
      | chainFailure =>
        rw [h3 hres] at h
        cases h
      | resolved r =>
        rw [h4 r hres] at h
        obtain ⟨e1, e2, e3⟩ := commitLookup_next r i totaldqPins out mustBorrow'
          (tsvLookupTable_row_length r (resolve_resolved_mem _ _ r hres).1) h
        exact ⟨blk, r, rfl, hres, e1, e2, e3⟩

theorem resolve_inbound : ∀ m, m < 64 →
    ((resolvedRow m true).isSome = true ↔ (m &&& 0x20 ≠ 0 ∧ 4 ≤ bitsSet m)) ∧
      (∀ r ∈ resolvedRow m true, (r.mustBorrow = true ↔ bitsSet m = 4)) ∧
      (bitsSet m = 3 → m &&& 0x20 = 0 → resolve m true = some .borrowUnavailable) ∧
      (bitsSet m = 3 → m &&& 0x20 ≠ 0 → resolve m true = some .chainFailure) := by
  decide

/-! ## The chain pass emits an assignment that the verifier accepts -/

set_option maxRecDepth 100000 in
set_option maxHeartbeats 4000000 in
set_option synthInstance.maxSize 4000 in
set_option synthInstance.maxHeartbeats 400000 in
theorem resolved_row_good_inbound : ∀ m, m < 64 → ∀ r ∈ resolvedRow m true, GoodRow m true r := by
  decide

set_option maxRecDepth 100000 in
set_option maxHeartbeats 4000000 in
set_option synthInstance.maxSize 4000 in
set_option synthInstance.maxHeartbeats 400000 in
theorem resolved_row_good_first : ∀ m, m < 64 → ∀ r ∈ resolvedRow m false, GoodRow m false r := by
  decide

theorem resolved_row_good (m : Nat) (hm : m < 64) (b : Bool) (r : tsvLookup)
    (hr : r ∈ resolvedRow m b) : GoodRow m b r := by
  cases b
  · exact resolved_row_good_first m hm r hr
  · exact resolved_row_good_inbound m hm r hr

theorem settingAt_writeRow_lt (mid : List dq_pin) (n : Nat) (dqPins : List dq_pin)
    (hrow : dqPins.length = 4) (hb : n * 4 + 4 ≤ mid.length) (i : Nat) (hi : i < 4 * n) :
    settingAt (writeRow mid n dqPins) i = settingAt mid i := by
  unfold settingAt
  rw [writeRow_getElem? mid n dqPins hrow hb, if_pos (by omega)]

theorem settingAt_writeRow_row (mid : List dq_pin) (n : Nat) (dqPins : List dq_pin)
    (hrow : dqPins.length = 4) (hb : n * 4 + 4 ≤ mid.length) (d : Nat) (hd : d < 4) :
    settingAt (writeRow mid n dqPins) (4 * n + d) = settingAt dqPins d := by
  unfold settingAt
  rw [writeRow_getElem? mid n dqPins hrow hb, if_neg (by omega), if_pos (by omega)]
  have e : 4 * n + d - n * 4 = d := by omega
  rw [e]

theorem posAt_writeRow_lt (mid : List dq_pin) (n : Nat) (dqPins : List dq_pin)
    (hrow : dqPins.length = 4) (hb : n * 4 + 4 ≤ mid.length) (i : Nat) (hi : i < 4 * n) :
    posAt (writeRow mid n dqPins) i = posAt mid i := by
  unfold posAt
  rw [settingAt_writeRow_lt mid n dqPins hrow hb i hi]

theorem posAt_writeRow_row (mid : List dq_pin) (n : Nat) (dqPins : List dq_pin)
    (hrow : dqPins.length = 4) (hb : n * 4 + 4 ≤ mid.length) (d : Nat) (hd : d < 4) :
    posAt (writeRow mid n dqPins) (4 * n + d) = localPosition d (settingAt dqPins d) := by
  unfold posAt
  rw [settingAt_writeRow_row mid n dqPins hrow hb d hd]
  have e : (4 * n + d) % 4 = d := by omega
  rw [e]

theorem functionalPin_own (tsvBlocks : List tsv) (n : Nat) (blk : tsv)
    (hblk : tsvBlocks[n]? = some blk) (p : Nat) (hp : p ≤ 5) :
    functionalPin tsvBlocks (6 * n + p) = blk.tsvOperational.testBit (5 - p) := by
  unfold functionalPin
  have h1 : (6 * n + p) / 6 = n := by omega
  have h2 : (6 * n + p) % 6 = p := by omega
  rw [h1, h2, hblk]

theorem chainInv_step (tsvBlocks : List tsv) (n : Nat) (b : Bool) (mid : List dq_pin)
    (blk : tsv) (r : tsvLookup) (hinv : ChainInv tsvBlocks n b mid)
    (hblk : tsvBlocks[n]? = some blk)
    (hres : resolve blk.tsvOperational b = some (.resolved r))
    (hb : n * 4 + 4 ≤ mid.length) :
    ChainInv tsvBlocks (n + 1) r.mustBorrow (writeRow mid n r.dqPins) := by
  obtain ⟨hmem, hm⟩ := resolve_resolved_mem _ _ r hres
  have hrow := tsvLookupTable_row_length r hmem
  obtain ⟨g1, g2, g3, g4⟩ :=
    resolved_row_good blk.tsvOperational hm b r (Option.mem_def.mpr ((resolvedRow_eq _ _ r).mpr hres))
  obtain ⟨i1, i2, i3, i4, i5⟩ := hinv
  have hold : ∀ i, i < 4 * n → posAt (writeRow mid n r.dqPins) i = posAt mid i :=
    posAt_writeRow_lt mid n r.dqPins hrow hb
  have hnew : ∀ d, d < 4 → posAt (writeRow mid n r.dqPins) (4 * n + d) =
      localPosition d (settingAt r.dqPins d) :=
    posAt_writeRow_row mid n r.dqPins hrow hb
  refine ⟨?_, ?_, ?_, ?_, ?_⟩
  · intro i hi
    by_cases hlt : i < 4 * n
    · rw [hold i hlt]
      exact i1 i hlt
    · obtain ⟨d, hd, rfl⟩ : ∃ d, d < 4 ∧ i = 4 * n + d := ⟨i - 4 * n, by omega, by omega⟩
      rw [hnew d hd]
      obtain ⟨a1, a2, a3, a4⟩ := g1 d hd
      refine ⟨a1, a2, ?_, ?_⟩
      · intro h5
        have e : (4 * n + d) / 4 = n := by omega
        rw [e, functionalPin_own tsvBlocks n blk hblk _ (by omega)]
        exact a3 h5
      · intro h6
        have := a4 h6
        omega
  · intro i hi hmod
    by_cases hlt : i + 1 < 4 * n
    · rw [hold i (by omega), hold (i + 1) hlt]
      exact i2 i hlt hmod
    · obtain ⟨d, hd, rfl⟩ : ∃ d, d < 3 ∧ i = 4 * n + d := ⟨i - 4 * n, by omega, by omega⟩
      have e : 4 * n + d + 1 = 4 * n + (d + 1) := by omega
      rw [hnew d (by omega), e, hnew (d + 1) (by omega)]
      exact g2 d hd
  · intro k hk h6
    by_cases hlt : k + 1 < n
    · rw [hold (4 * k + 3) (by omega)] at h6
      obtain ⟨f1, f2⟩ := i3 k hlt h6
      refine ⟨f1, fun d hd => ?_⟩
      rw [hold (4 * (k + 1) + d) (by omega)]
      exact f2 d hd
    · have hkn : k + 1 = n := by omega
      rw [hold (4 * k + 3) (by omega)] at h6
      have e : 4 * k + 3 = 4 * (n - 1) + 3 := by omega
      rw [e] at h6
      have hbt : b = true := i5 (by omega) h6
      obtain ⟨q1, q2⟩ := g3 hbt
      rw [hkn]
      refine ⟨?_, fun d hd => ?_⟩
      · have := functionalPin_own tsvBlocks n blk hblk 0 (by omega)
        rw [Nat.add_zero] at this
        rw [this]
        exact q1
      · rw [hnew d hd]
        exact q2 d hd
  · intro hmb
    refine ⟨by omega, ?_⟩
    have e : 4 * (n + 1 - 1) + 3 = 4 * n + 3 := by omega
    rw [e, hnew 3 (by omega)]
    exact g4.mp hmb
  · intro _ h6
    have e : 4 * (n + 1 - 1) + 3 = 4 * n + 3 := by omega
    rw [e, hnew 3 (by omega)] at h6
    exact g4.mpr h6

theorem blockLoop_chainInv (tsvBlocks : List tsv) :
    ∀ (n : Nat) (b : Bool) (totaldqPins out : List dq_pin),
      blockLoop tsvBlocks n 0 false totaldqPins = some (.next b out) →
        ChainInv tsvBlocks n b out := by
  intro n
  induction n with
  | zero =>
    intro b totaldqPins out h
    simp only [blockLoop, Option.some.injEq, Step.next.injEq] at h
    rw [← h.1]
    refine ⟨?_, ?_, ?_, ?_, ?_⟩
    · intro i hi
      omega
    · intro i hi
      omega
    · intro k hk
      omega
    · intro hb
      cases hb
    · intro hn
      omega
  | succ n ih =>
    intro b totaldqPins out h
    obtain ⟨mb, mid, hpre, hbody⟩ := blockLoop_last tsvBlocks n 0 _ _ _ _ h
    rw [Nat.zero_add] at hbody
    obtain ⟨blk, r, hblk, hres, hmb, hbound, hout⟩ :=
      loopBody_next_resolved tsvBlocks n mb b mid out hbody
    rw [hmb, hout]
    exact chainInv_step tsvBlocks n mb mid blk r (ih mb totaldqPins mid hpre) hblk hres hbound

theorem codeIndex_eq_posAt (out : List dq_pin) (i : Nat) (hi : i < 256) :
    ((codeIndex out i : Nat) : Int) = 6 * ((i / 4 : Nat) : Int) + posAt out i := by
  rw [codeIndex_eq_dqIndex out i hi]
  unfold dqIndex physIndex posAt localPosition
  omega

theorem chainInv_accept (tsvBlocks : List tsv) (out : List dq_pin)
    (hmask : ∀ blk ∈ tsvBlocks, blk.tsvOperational < 64)
    (hlen : out.length = 256) (hinv : ChainInv tsvBlocks 64 false out) :
    sanityTestTable tsvBlocks out = some true := by
  obtain ⟨i1, i2, i3, i4, i5⟩ := hinv
  have hno : ∀ k, k < 64 → posAt out (4 * k + 3) = 6 → k + 1 < 64 := by
    intro k hk h6
    by_contra hc
    have hk63 : k = 63 := by omega
    rw [hk63] at h6
    have := i5 (by omega) h6
    cases this
  have hinc : ∀ i j, i < j → j < 256 → i / 4 = j / 4 → posAt out i < posAt out j := by
    intro i j hij hj hblk
    have s1 : ∀ t, t < 256 → t % 4 < 3 → posAt out t < posAt out (t + 1) :=
      fun t ht hm => i2 t (by omega) hm
    have hcases : j = i + 1 ∨ j = i + 2 ∨ j = i + 3 := by omega
    rcases hcases with e | e | e
    · rw [e]
      exact s1 i (by omega) (by omega)
    · rw [e]
      have a := s1 i (by omega) (by omega)
      have b := s1 (i + 1) (by omega) (by omega)
      have e2 : i + 1 + 1 = i + 2 := by omega
      rw [e2] at b
      omega
    · rw [e]
      have a := s1 i (by omega) (by omega)
      have b := s1 (i + 1) (by omega) (by omega)
      have c := s1 (i + 2) (by omega) (by omega)
      have e2 : i + 1 + 1 = i + 2 := by omega
      have e3 : i + 2 + 1 = i + 3 := by omega
      rw [e2] at b
      rw [e3] at c
      omega
  rw [sanityTestTable_true_iff tsvBlocks out (by omega)]
  constructor
  · intro j hj
    obtain ⟨a1, a2, a3, a4⟩ := i1 j (by omega)
    have hidx := codeIndex_eq_posAt out j hj
    by_cases h5 : posAt out j ≤ 5
    · refine ⟨by omega, ?_⟩
      rw [maskTest_iff_functionalPin tsvBlocks hmask]
      have e : codeIndex out j = 6 * (j / 4) + (posAt out j).toNat := by omega
      rw [e]
      exact a3 h5
    · have h6 : posAt out j = 6 := by omega
      have hmod := a4 h6
      have ej : j = 4 * (j / 4) + 3 := by omega
      rw [ej] at h6
      have hk := hno (j / 4) (by omega) h6
      refine ⟨by omega, ?_⟩
      rw [maskTest_iff_functionalPin tsvBlocks hmask]
      have e : codeIndex out j = 6 * (j / 4 + 1) := by omega
      rw [e]
      exact (i3 (j / 4) hk h6).1
  · intro j j' hlt hj' heq
    have hidx := codeIndex_eq_posAt out j (by omega)
    have hidx' := codeIndex_eq_posAt out j' hj'
    obtain ⟨a1, a2, _, a4⟩ := i1 j (by omega)
    obtain ⟨b1, b2, _, _⟩ := i1 j' (by omega)
    by_cases hsame : j / 4 = j' / 4
    · have := hinc j j' hlt hj' hsame
      omega
    · have h6 : posAt out j = 6 := by omega
      have h0 : posAt out j' = 0 := by omega
      have hk : j' / 4 = j / 4 + 1 := by omega
      have hmod := a4 h6
      have ej : j = 4 * (j / 4) + 3 := by omega
      rw [ej] at h6
      have hk2 := hno (j / 4) (by omega) h6
      have := (i3 (j / 4) hk2 h6).2 (j' % 4) (by omega)
      have ej' : 4 * (j / 4 + 1) + j' % 4 = j' := by omega
      rw [ej'] at this
      exact this h0

/-- When the block loop resolves all 64 blocks and ends without a borrow, the verifier accepts
the emitted assignment. -/
theorem sanityTestTable_of_blockLoop (tsvBlocks : List tsv) (totaldqPins out : List dq_pin)
    (hwf : WellFormed tsvBlocks totaldqPins)
    (hloop : blockLoop tsvBlocks 64 0 false totaldqPins = some (.next false out)) :
    sanityTestTable tsvBlocks out = some true := by
  obtain ⟨_, hlen, hmask⟩ := hwf
  have hl : out.length = 256 := by
    rw [blockLoop_next_length tsvBlocks 64 0 false false totaldqPins out hloop]
    exact hlen
  exact chainInv_accept tsvBlocks out hmask hl
    (blockLoop_chainInv tsvBlocks 64 false totaldqPins out hloop)

theorem InitializeDQ_of_blockLoop (tsvBlocks : List tsv) (totaldqPins out : List dq_pin)
    (printOutput : Bool) (hwf : WellFormed tsvBlocks totaldqPins)
    (hloop : blockLoop tsvBlocks 64 0 false totaldqPins = some (.next false out)) :
    InitializeDQ tsvBlocks totaldqPins printOutput = some (.Done true, out) := by
  have hs := sanityTestTable_of_blockLoop tsvBlocks totaldqPins out hwf hloop
  unfold InitializeDQ
  rw [hloop]
  simp only [Bool.false_eq_true, if_false]
  rw [hs]
  rfl

theorem InitializeDQ_not_verification (tsvBlocks : List tsv) (totaldqPins out : List dq_pin)
    (printOutput : Bool) (hwf : WellFormed tsvBlocks totaldqPins) :
    InitializeDQ tsvBlocks totaldqPins printOutput ≠ some (.VerificationFailure, out) := by
  intro h
  cases hs : blockLoop tsvBlocks 64 0 false totaldqPins with
  | none => simp [InitializeDQ, hs] at h
  | some s =>
    cases s with
    | returned site out2 =>
      simp only [InitializeDQ, hs, Option.some.injEq, Prod.mk.injEq] at h
      obtain ⟨j, mb, _, _, hbody⟩ := blockLoop_returned_at tsvBlocks 64 0 false totaldqPins
        out2 site hs
      rcases loopBody_returned_site tsvBlocks _ mb out2 out2 site hbody with e | e | e <;>
        · rw [e] at h
          exact ReturnSite.noConfusion h.1
    | next mb out2 =>
      cases mb with
      | true => simp [InitializeDQ, hs] at h
      | false =>
        rw [InitializeDQ_of_blockLoop tsvBlocks totaldqPins out2 printOutput hwf hs] at h
        simp at h

/-! ## The chain pass resolves every repairable input -/

theorem testBit_land_1F : ∀ m, m < 64 → ∀ k, k < 5 →
    (m &&& 0x1F).testBit k = m.testBit k := by
  decide

theorem resolve_complete_first : ∀ m, m < 64 → 3 ≤ bitsSet m →
    (resolvedRow m false).isSome = true ∧
      ∀ r ∈ resolvedRow m false, r.mustBorrow = true → bitsSet m ≤ 3 := by
  decide

theorem resolve_complete_inbound : ∀ m, m < 64 → m.testBit 5 = true →
    3 ≤ bitsSet (m &&& 0x1F) →
    (resolvedRow m true).isSome = true ∧
      ∀ r ∈ resolvedRow m true, r.mustBorrow = true → bitsSet (m &&& 0x1F) ≤ 3 := by
  decide

theorem resolve_complete (m : Nat) (hm : m < 64) (b : Bool)
    (hin : b = true → m.testBit 5 = true) (hbits : 3 ≤ bitsSet (availableMask m b)) :
    ∃ r, resolve m b = some (.resolved r) ∧
      (r.mustBorrow = true → bitsSet (availableMask m b) ≤ 3) := by
  cases b with
  | false =>
    obtain ⟨h1, h2⟩ := resolve_complete_first m hm hbits
    obtain ⟨r, hr⟩ := Option.isSome_iff_exists.mp h1
    exact ⟨r, (resolvedRow_eq m false r).mp hr, h2 r (Option.mem_def.mpr hr)⟩
  | true =>
    obtain ⟨h1, h2⟩ := resolve_complete_inbound m hm (hin rfl) hbits
    obtain ⟨r, hr⟩ := Option.isSome_iff_exists.mp h1
    exact ⟨r, (resolvedRow_eq m true r).mp hr, h2 r (Option.mem_def.mpr hr)⟩

theorem positionFree_available (m : Nat) (hm : m < 64) (b : Bool) (d c : Nat)
    (hf : localPosition d c ≤ 5 → m.testBit (5 - (localPosition d c).toNat) = true)
    (hin : b = true → localPosition d c ≠ 0) (hd : d < 4) :
    positionFree (availableMask m b) (localPosition d c) := by
  have hb := localPosition_bounds d c
  by_cases h5 : localPosition d c ≤ 5
  · left
    refine ⟨by omega, h5, ?_⟩
    cases b with
    | false => exact hf h5
    | true =>
      have h0 := hin rfl
      show (m &&& 0x1F).testBit _ = true
      rw [testBit_land_1F m hm _ (by omega)]
      exact hf h5
  · right
    omega

theorem physIndex_block (n d c : Nat) (hd : d < 4) :
    physIndex (4 * n + d) c = 6 * (n : Int) + localPosition d c := by
  unfold physIndex localPosition
  have e1 : (4 * n + d) / 4 = n := by omega
  have e2 : (4 * n + d) % 4 = d := by omega
  rw [e1, e2]
  omega

theorem blockLoop_snoc (tsvBlocks : List tsv) (n : Nat) (b b' : Bool)
    (totaldqPins mid out : List dq_pin)
    (hpre : blockLoop tsvBlocks n 0 false totaldqPins = some (.next b mid))
    (hbody : loopBody tsvBlocks n b mid = some (.next b' out)) :
    blockLoop tsvBlocks (n + 1) 0 false totaldqPins = some (.next b' out) := by
  have h := blockLoop_add tsvBlocks n 1 0 false totaldqPins
  rw [hpre] at h
  simp only [Nat.zero_add] at h
  rw [h]
  exact blockLoop_one tsvBlocks n b b' mid out hbody

theorem blockLoop_complete (tsvBlocks : List tsv) (totaldqPins : List dq_pin)
    (code : Nat → Nat) (hwf : WellFormed tsvBlocks totaldqPins)
    (hcode : ∀ i, i < 256 → code i < 4)
    (hdist : ∀ i j, i < j → j < 256 → physIndex i (code i) ≠ physIndex j (code j))
    (hfun : ∀ i, i < 256 → functionalPin tsvBlocks (physIndex i (code i)).toNat = true) :
    ∀ n, n ≤ 64 → ∃ b out,
      blockLoop tsvBlocks n 0 false totaldqPins = some (.next b out) ∧
        (b = true → 0 < n ∧ localPosition 3 (code (4 * (n - 1) + 3)) = 6) := by
  obtain ⟨hblocks, hlen, hmask⟩ := hwf
  intro n
  induction n with
  | zero =>
    intro _
    exact ⟨false, totaldqPins, rfl, fun h => by cases h⟩
  | succ n ih =>
    intro hn
    obtain ⟨b, mid, hpre, hb⟩ := ih (by omega)
    have hmid : mid.length = 256 := by
      rw [blockLoop_next_length tsvBlocks n 0 false b totaldqPins mid hpre]
      exact hlen
    obtain ⟨blk, hblk⟩ : ∃ blk, tsvBlocks[n]? = some blk :=
      ⟨tsvBlocks[n], List.getElem?_eq_getElem (by omega)⟩
    have hm : blk.tsvOperational < 64 := hmask blk (List.getElem?_mem hblk)
    have hphys : ∀ d, d < 4 → physIndex (4 * n + d) (code (4 * n + d)) =
        6 * (n : Int) + localPosition d (code (4 * n + d)) :=
      fun d hd => physIndex_block n d _ hd
    have hf : ∀ d, d < 4 → localPosition d (code (4 * n + d)) ≤ 5 →
        blk.tsvOperational.testBit (5 - (localPosition d (code (4 * n + d))).toNat) = true := by
      intro d hd h5
      have hbd := localPosition_bounds d (code (4 * n + d))
      have h := hfun (4 * n + d) (by omega)
      rw [hphys d hd] at h
      have e : (6 * (n : Int) + localPosition d (code (4 * n + d))).toNat =
          6 * n + (localPosition d (code (4 * n + d))).toNat := by omega
      rw [e, functionalPin_own tsvBlocks n blk hblk _ (by omega)] at h
      exact h
    have hprev : b = true → blk.tsvOperational.testBit 5 = true ∧
        ∀ d, d < 4 → localPosition d (code (4 * n + d)) ≠ 0 := by
      intro hbt
      obtain ⟨hpos, h6⟩ := hb hbt
      have hp := physIndex_block (n - 1) 3 (code (4 * (n - 1) + 3)) (by omega)
      rw [h6] at hp
      constructor
      · have h := hfun (4 * (n - 1) + 3) (by omega)
        rw [hp] at h
        have e : (6 * ((n - 1 : Nat) : Int) + 6).toNat = 6 * n + 0 := by omega
        rw [e, functionalPin_own tsvBlocks n blk hblk 0 (by omega)] at h
        exact h
      · intro d hd h0
        have h := hdist (4 * (n - 1) + 3) (4 * n + d) (by omega) (by omega)
        rw [hp, hphys d hd, h0] at h
        omega
    have hplace : Placement (availableMask blk.tsvOperational b) (code (4 * n + 0))
        (code (4 * n + 1)) (code (4 * n + 2)) (code (4 * n + 3)) := by
      have hne : ∀ d e, d < e → e < 4 →
          localPosition d (code (4 * n + d)) ≠ localPosition e (code (4 * n + e)) := by
        intro d e hde he heq
        have h := hdist (4 * n + d) (4 * n + e) (by omega) (by omega)
        rw [hphys d (by omega), hphys e he, heq] at h
        exact h rfl
      have hfree : ∀ d, d < 4 → positionFree (availableMask blk.tsvOperational b)
          (localPosition d (code (4 * n + d))) :=
        fun d hd => positionFree_available blk.tsvOperational hm b d _ (hf d hd)
          (fun hbt => (hprev hbt).2 d hd) hd
      exact ⟨hcode _ (by omega), hcode _ (by omega), hcode _ (by omega), hcode _ (by omega),
        ⟨hne 0 1 (by omega) (by omega), hne 0 2 (by omega) (by omega),
          hne 0 3 (by omega) (by omega), hne 1 2 (by omega) (by omega),
          hne 1 3 (by omega) (by omega), hne 2 3 (by omega) (by omega)⟩,
        hfree 0 (by omega), hfree 1 (by omega), hfree 2 (by omega), hfree 3 (by omega)⟩
    obtain ⟨r, hres, hmb⟩ := resolve_complete blk.tsvOperational hm b
      (fun hbt => (hprev hbt).1) (placement_bits _ _ _ _ _ hplace)
    have hbody := loopBody_of_resolved tsvBlocks n b mid blk r hblk hres (by omega)
    refine ⟨r.mustBorrow, _, blockLoop_snoc tsvBlocks n b _ totaldqPins mid _ hpre hbody, ?_⟩
    intro hr
    refine ⟨by omega, ?_⟩
    have e : 4 * (n + 1 - 1) + 3 = 4 * n + 3 := by omega
    rw [e]
    exact placement_borrows _ _ _ _ _ hplace (hmb hr)

/-! ## The byte-group check -/

theorem land_shift_eq_zero_iff (x k : Nat) : x &&& (1 <<< k) = 0 ↔ x.testBit k = false := by
  rw [Nat.one_shiftLeft]
  constructor
  · intro h
    by_contra hne
    have ht : x.testBit k = true := by
      cases hx : x.testBit k
      · exact absurd hx hne
      · rfl
    have h2 : (x &&& 2 ^ k).testBit k = true := by
      rw [Nat.testBit_and, ht, Nat.testBit_two_pow_self]
      rfl
    rw [h] at h2
    simp at h2
  · intro h
    apply Nat.eq_of_testBit_eq
    intro j
    rw [Nat.testBit_and, Nat.zero_testBit, Nat.testBit_two_pow]
    by_cases hkj : k = j
    · rw [← hkj, h]
      rfl
    · simp [hkj]

theorem bitLoop_eq (tsvField : Nat) : ∀ (n k failed_tsv_count : Nat),
    bitLoop tsvField n k failed_tsv_count =
      failed_tsv_count + ((List.range' k n).filter (fun t => !tsvField.testBit t)).length := by
  intro n
  induction n with
  | zero =>
    intro k c
    simp [bitLoop]
  | succ n ih =>
    intro k c
    rw [bitLoop, ih, List.range'_succ, List.filter_cons]
    by_cases hb : tsvField.testBit k = true
    · have hne : ¬ (tsvField &&& (1 <<< k) = 0) := by
        rw [land_shift_eq_zero_iff, hb]
        exact Bool.noConfusion
      simp [hb, hne]
    · have hf : tsvField.testBit k = false := by
        cases hx : tsvField.testBit k
        · rfl
        · exact absurd hx hb
      have he : tsvField &&& (1 <<< k) = 0 := (land_shift_eq_zero_iff _ _).mpr hf
      simp [hf, he]
      omega

theorem bitLoop_zeroDefaultBits (tsvField : Nat) :
    bitLoop tsvField 8 1 0 = zeroDefaultBits tsvField := by
  rw [bitLoop_eq, Nat.zero_add]
  rfl

theorem byteGroupLoop_spec (sub : sub_group_t) (i : Nat) :
    ∀ (n j : Nat) (printed : List Issue), j + n ≤ sub.byte_group.length →
      ∃ res, byteGroupLoop sub i n j printed = some res ∧
        ∀ x, x ∈ res ↔ x ∈ printed ∨
          ∃ t bg, j ≤ t ∧ t < j + n ∧ sub.byte_group[t]? = some bg ∧
            0 < bitLoop bg.tsv 8 1 0 ∧ x = ⟨i, t, bitLoop bg.tsv 8 1 0⟩ := by
  intro n
  induction n with
  | zero =>
    intro j printed _
    refine ⟨printed, rfl, fun x => ⟨fun h => Or.inl h, ?_⟩⟩
    rintro (h | ⟨t, _, h1, h2, _⟩)
    · exact h
    · omega
  | succ n ih =>
    intro j printed hlen
    obtain ⟨bg, hbg⟩ : ∃ bg, sub.byte_group[j]? = some bg :=
      ⟨sub.byte_group[j], List.getElem?_eq_getElem (by omega)⟩
    obtain ⟨res, hres, hmem⟩ := ih (j + 1)
      (if bitLoop bg.tsv 8 1 0 > 0 then printed ++ [⟨i, j, bitLoop bg.tsv 8 1 0⟩] else printed)
      (by omega)
    refine ⟨res, ?_, ?_⟩
    · rw [byteGroupLoop, hbg]
      exact hres
    · intro x
      rw [hmem x]
      constructor
      · rintro (h | ⟨t, bg2, h1, h2, h3, h4, h5⟩)
        · by_cases hc : bitLoop bg.tsv 8 1 0 > 0
          · rw [if_pos hc, List.mem_append, List.mem_singleton] at h
            rcases h with h | h
            · exact Or.inl h
            · exact Or.inr ⟨j, bg, by omega, by omega, hbg, hc, h⟩
          · rw [if_neg hc] at h
            exact Or.inl h
        · exact Or.inr ⟨t, bg2, by omega, by omega, h3, h4, h5⟩
      · rintro (h | ⟨t, bg2, h1, h2, h3, h4, h5⟩)
        · left
          by_cases hc : bitLoop bg.tsv 8 1 0 > 0
          · rw [if_pos hc, List.mem_append]
            exact Or.inl h
          · rw [if_neg hc]
            exact h
        · by_cases htj : t = j
          · left
            rw [htj, hbg] at h3
            cases h3
            rw [if_pos h4, List.mem_append, List.mem_singleton]
            right
            rw [h5, htj]
          · exact Or.inr ⟨t, bg2, by omega, by omega, h3, h4, h5⟩

theorem subGroupLoop_spec (tsvGroup : tsv_group_t)
    (hsub : ∀ sub ∈ tsvGroup.sub_group, sub.byte_group.length = 8) :
    ∀ (n i : Nat) (printed : List Issue), i + n ≤ tsvGroup.sub_group.length →
      ∃ res, subGroupLoop tsvGroup n i printed = some res ∧
        ∀ x, x ∈ res ↔ x ∈ printed ∨
          ∃ s t sub bg, i ≤ s ∧ s < i + n ∧ tsvGroup.sub_group[s]? = some sub ∧
            sub.byte_group[t]? = some bg ∧
            0 < bitLoop bg.tsv 8 1 0 ∧ x = ⟨s, t, bitLoop bg.tsv 8 1 0⟩ := by
  intro n
  induction n with
  | zero =>
    intro i printed _
    refine ⟨printed, rfl, fun x => ⟨fun h => Or.inl h, ?_⟩⟩
    rintro (h | ⟨s, _, _, _, h1, h2, _⟩)
    · exact h
    · omega
  | succ n ih =>
    intro i printed hlen
    obtain ⟨sub, hs⟩ : ∃ sub, tsvGroup.sub_group[i]? = some sub :=
      ⟨tsvGroup.sub_group[i], List.getElem?_eq_getElem (by omega)⟩
    have h8 := hsub sub (List.getElem?_mem hs)
    obtain ⟨mid, hmid, hmemMid⟩ := byteGroupLoop_spec sub i 8 0 printed (by omega)
    obtain ⟨res, hres, hmem⟩ := ih (i + 1) mid (by omega)
    refine ⟨res, ?_, ?_⟩
    · rw [subGroupLoop, hs]
      simp only [hmid]
      exact hres
    · intro x
      rw [hmem x, hmemMid x]
      constructor
      · rintro ((h | ⟨t, bg, _, _, h3, h4, h5⟩) | ⟨s, t, sub2, bg, h1, h2, h3, h4, h5, h6⟩)
        · exact Or.inl h
        · exact Or.inr ⟨i, t, sub, bg, by omega, by omega, hs, h3, h4, h5⟩
        · exact Or.inr ⟨s, t, sub2, bg, by omega, by omega, h3, h4, h5, h6⟩
      · rintro (h | ⟨s, t, sub2, bg, h1, h2, h3, h4, h5, h6⟩)
        · exact Or.inl (Or.inl h)
        · by_cases hsi : s = i
          · rw [hsi, hs] at h3
            cases h3
            have ht : t < 8 := by
              by_contra hc
              rw [List.getElem?_eq_none (by omega)] at h4
              cases h4
            rw [hsi] at h6
            exact Or.inl (Or.inr ⟨t, bg, by omega, by omega, h4, h5, h6⟩)
          · exact Or.inr ⟨s, t, sub2, bg, by omega, by omega, h3, h4, h5, h6⟩

theorem checkTSV_mem (tsvGroup : tsv_group_t) (hwf : GroupWellFormed tsvGroup) :
    ∃ printed, checkTSV tsvGroup = some printed ∧
      ∀ x, x ∈ printed ↔
        ∃ bg, byteGroupAt tsvGroup x.subGroup x.byteGroup = some bg ∧
          0 < zeroDefaultBits bg.tsv ∧ x.count = zeroDefaultBits bg.tsv := by
  obtain ⟨h2, hsub⟩ := hwf
  obtain ⟨res, hres, hmem⟩ := subGroupLoop_spec tsvGroup (fun sub h => (hsub sub h).1) 2 0 []
    (by omega)
  refine ⟨res, hres, fun x => ?_⟩
  rw [hmem x]
  constructor
  · rintro (h | ⟨s, t, sub, bg, _, _, h3, h4, h5, h6⟩)
    · cases h
    · refine ⟨bg, ?_, ?_, ?_⟩
      · rw [h6]
        simp only [byteGroupAt, h3]
        exact h4
      · rw [← bitLoop_zeroDefaultBits]
        exact h5
      · rw [h6, ← bitLoop_zeroDefaultBits]
  · rintro ⟨bg, hat, hpos, hcount⟩
    right
    unfold byteGroupAt at hat
    cases hs : tsvGroup.sub_group[x.subGroup]? with
    | none => simp [hs] at hat
    | some sub =>
      simp only [hs] at hat
      have hlt : x.subGroup < 2 := by
        by_contra hc
        rw [List.getElem?_eq_none (by omega)] at hs
        cases hs
      refine ⟨x.subGroup, x.byteGroup, sub, bg, by omega, by omega, hs, hat, ?_, ?_⟩
      · rw [bitLoop_zeroDefaultBits]
        exact hpos
      · rw [bitLoop_zeroDefaultBits, ← hcount]

/-! ## The two functions run on the caller's memory -/

theorem storeDQ_frame (mem mem' : Memory) (k : Nat) (pin : dq_pin)
    (h : mem.storeDQ k pin = some mem') :
    mem'.tsvBlocks = mem.tsvBlocks ∧ store mem.totaldqPins k pin = some mem'.totaldqPins := by
  unfold Memory.storeDQ at h
  cases hs : store mem.totaldqPins k pin with
  | none => simp [hs] at h
  | some out =>
    simp only [hs, Option.some.injEq] at h
    rw [← h]
    exact ⟨rfl, rfl⟩

theorem writeDQ_mem_frame (lookup : tsvLookup) (i : Nat) :
    ∀ (n j : Nat) (mem mem' : Memory), writeDQ_mem lookup i n j mem = some mem' →
      mem'.tsvBlocks = mem.tsvBlocks ∧
        writeDQ lookup i n j mem.totaldqPins = some mem'.totaldqPins := by
  intro n
  induction n with
  | zero =>
    intro j mem mem' h
    simp only [writeDQ_mem, Option.some.injEq] at h
    rw [← h]
    exact ⟨rfl, rfl⟩
  | succ n ih =>
    intro j mem mem' h
    rw [writeDQ_mem] at h
    cases hpin : lookup.dqPins[j]? with
    | none => simp [hpin] at h
    | some pin =>
      simp only [hpin] at h
      cases hst : mem.storeDQ (i * 4 + j) pin with
      | none => simp [hst] at h
      | some mid =>
        simp only [hst] at h
        obtain ⟨f1, f2⟩ := storeDQ_frame mem mid _ pin hst
        obtain ⟨g1, g2⟩ := ih (j + 1) mid mem' h
        refine ⟨by rw [g1, f1], ?_⟩
        rw [writeDQ]
        simp only [hpin, f2]
        exact g2

theorem writeDQ_mem_of_writeDQ (lookup : tsvLookup) (i : Nat) :
    ∀ (n j : Nat) (mem : Memory) (out : List dq_pin),
      writeDQ lookup i n j mem.totaldqPins = some out →
        writeDQ_mem lookup i n j mem = some ⟨mem.tsvBlocks, out⟩ := by
  intro n
  induction n with
  | zero =>
    intro j mem out h
    simp only [writeDQ, Option.some.injEq] at h
    rw [writeDQ_mem, ← h]
  | succ n ih =>
    intro j mem out h
    rw [writeDQ] at h
    rw [writeDQ_mem]
    cases hpin : lookup.dqPins[j]? with
    | none => simp [hpin] at h
    | some pin =>
      simp only [hpin] at h
      cases hst : store mem.totaldqPins (i * 4 + j) pin with
      | none => simp [hst] at h
      | some mid =>
        simp only [hst] at h
        simp only [Memory.storeDQ, hst]
        exact ih (j + 1) ⟨mem.tsvBlocks, mid⟩ out h

theorem commitLookup_mem_frame (lookup : tsvLookup) (i : Nat) (mem : Memory) (s : MemStep)
    (h : commitLookup_mem lookup i mem = some s) :
    ∃ t, commitLookup lookup i mem.totaldqPins = some t ∧ s = t.onMemory mem.tsvBlocks := by
  unfold commitLookup_mem at h
  cases hw : writeDQ_mem lookup i 4 0 mem with
  | none => simp [hw] at h
  | some mem' =>
    simp only [hw, Option.some.injEq] at h
    obtain ⟨f1, f2⟩ := writeDQ_mem_frame lookup i 4 0 mem mem' hw
    refine ⟨.next (if lookup.mustBorrow then true else false) mem'.totaldqPins, ?_, ?_⟩
    · unfold commitLookup
      rw [f2]
    · rw [← h, ← f1]
      rfl

theorem commitLookup_mem_of_commitLookup (lookup : tsvLookup) (i : Nat) (mem : Memory)
    (t : Step) (h : commitLookup lookup i mem.totaldqPins = some t) :
    commitLookup_mem lookup i mem = some (t.onMemory mem.tsvBlocks) := by
  unfold commitLookup at h
  cases hw : writeDQ lookup i 4 0 mem.totaldqPins with
  | none => simp [hw] at h
  | some out =>
    simp only [hw, Option.some.injEq] at h
    unfold commitLookup_mem
    rw [writeDQ_mem_of_writeDQ lookup i 4 0 mem out hw, ← h]
    rfl

theorem loopBody_mem_frame (i : Nat) (mustBorrow : Bool) (mem : Memory) (s : MemStep)
    (h : loopBody_mem i mustBorrow mem = some s) :
    ∃ t, loopBody mem.tsvBlocks i mustBorrow mem.totaldqPins = some t ∧
      s = t.onMemory mem.tsvBlocks := by
  unfold loopBody_mem at h
  unfold loopBody
  cases hblk : mem.tsvBlocks[i]? with
  | none => simp [hblk] at h
  | some blk =>
    simp only [hblk] at h ⊢
    cases hentry : tsvLookupTable[blk.tsvOperational]? with
    | none => simp [hentry] at h
    | some lookup =>
      simp only [hentry] at h ⊢
      by_cases hf : lookup.failed = true
      · simp only [hf, if_true, Option.some.injEq] at h ⊢
        exact ⟨_, rfl, h.symm⟩
      · simp only [hf, Bool.false_eq_true, if_false] at h ⊢
        by_cases hb : (mustBorrow && !lookup.canLend) = true
        · simp only [hb, if_true] at h ⊢
          by_cases h20 : blk.tsvOperational &&& 0x20 = 0
          · simp only [h20, if_true, Option.some.injEq] at h ⊢
            exact ⟨_, rfl, h.symm⟩
          · simp only [h20, if_false] at h ⊢
            cases hred : tsvLookupTable[blk.tsvOperational &&& 0x1F]? with
            | none => simp [hred] at h
            | some borrowLookup =>
              simp only [hred] at h ⊢
              by_cases hf2 : borrowLookup.failed = true
              · simp only [hf2, if_true, Option.some.injEq] at h ⊢
                exact ⟨_, rfl, h.symm⟩
              · simp only [hf2, Bool.false_eq_true, if_false] at h ⊢
                exact commitLookup_mem_frame borrowLookup i mem s h
        · simp only [hb, Bool.false_eq_true, if_false] at h ⊢
          exact commitLookup_mem_frame lookup i mem s h

theorem loopBody_mem_of_loopBody (i : Nat) (mustBorrow : Bool) (mem : Memory) (t : Step)
    (h : loopBody mem.tsvBlocks i mustBorrow mem.totaldqPins = some t) :
    loopBody_mem i mustBorrow mem = some (t.onMemory mem.tsvBlocks) := by
  unfold loopBody at h
  unfold loopBody_mem
  cases hblk : mem.tsvBlocks[i]? with
  | none => simp [hblk] at h
  | some blk =>
    simp only [hblk] at h ⊢
    cases hentry : tsvLookupTable[blk.tsvOperational]? with
    | none => simp [hentry] at h
    | some lookup =>
      simp only [hentry] at h ⊢
      by_cases hf : lookup.failed = true
      · simp only [hf, if_true, Option.some.injEq] at h ⊢
        rw [← h]
        rfl
      · simp only [hf, Bool.false_eq_true, if_false] at h ⊢
        by_cases hb : (mustBorrow && !lookup.canLend) = true
        · simp only [hb, if_true] at h ⊢
          by_cases h20 : blk.tsvOperational &&& 0x20 = 0
          · simp only [h20, if_true, Option.some.injEq] at h ⊢
            rw [← h]
            rfl
          · simp only [h20, if_false] at h ⊢
            cases hred : tsvLookupTable[blk.tsvOperational &&& 0x1F]? with
            | none => simp [hred] at h
            | some borrowLookup =>
              simp only [hred] at h ⊢
              by_cases hf2 : borrowLookup.failed = true
              · simp only [hf2, if_true, Option.some.injEq] at h ⊢
                rw [← h]
                rfl
              · simp only [hf2, Bool.false_eq_true, if_false] at h ⊢
                exact commitLookup_mem_of_commitLookup borrowLookup i mem t h
        · simp only [hb, Bool.false_eq_true, if_false] at h ⊢
          exact commitLookup_mem_of_commitLookup lookup i mem t h

theorem blockLoop_mem_frame :
    ∀ (n i : Nat) (mustBorrow : Bool) (mem : Memory) (s : MemStep),
      blockLoop_mem n i mustBorrow mem = some s →
        ∃ t, blockLoop mem.tsvBlocks n i mustBorrow mem.totaldqPins = some t ∧
          s = t.onMemory mem.tsvBlocks := by
  intro n
  induction n with
  | zero =>
    intro i mustBorrow mem s h
    simp only [blockLoop_mem, Option.some.injEq] at h
    exact ⟨.next mustBorrow mem.totaldqPins, rfl, h.symm⟩
  | succ n ih =>
    intro i mustBorrow mem s h
    rw [blockLoop_mem] at h
    rw [blockLoop]
    cases hbody : loopBody_mem i mustBorrow mem with
    | none => simp [hbody] at h
    | some s1 =>
      obtain ⟨t1, ht1, hs1⟩ := loopBody_mem_frame i mustBorrow mem s1 hbody
      rw [ht1]
      cases t1 with
      | returned site out =>
        rw [hs1] at hbody
        simp only [hbody, Step.onMemory, Option.some.injEq] at h
        exact ⟨_, rfl, h.symm⟩
      | next mb out =>
        rw [hs1] at hbody
        simp only [hbody, Step.onMemory] at h
        exact ih (i + 1) mb ⟨mem.tsvBlocks, out⟩ s h

theorem blockLoop_mem_of_blockLoop :
    ∀ (n i : Nat) (mustBorrow : Bool) (mem : Memory) (t : Step),
      blockLoop mem.tsvBlocks n i mustBorrow mem.totaldqPins = some t →
        blockLoop_mem n i mustBorrow mem = some (t.onMemory mem.tsvBlocks) := by
  intro n
  induction n with
  | zero =>
    intro i mustBorrow mem t h
    simp only [blockLoop, Option.some.injEq] at h
    rw [blockLoop_mem, ← h]
    rfl
  | succ n ih =>
    intro i mustBorrow mem t h
    rw [blockLoop] at h
    rw [blockLoop_mem]
    cases hbody : loopBody mem.tsvBlocks i mustBorrow mem.totaldqPins with
    | none => simp [hbody] at h
    | some t1 =>
      rw [loopBody_mem_of_loopBody i mustBorrow mem t1 hbody]
      cases t1 with
      | returned site out =>
        simp only [hbody, Option.some.injEq] at h
        rw [← h]
        rfl
      | next mb out =>
        simp only [hbody] at h
        exact ih (i + 1) mb ⟨mem.tsvBlocks, out⟩ t h

theorem sanityLoop_mem_eq :
    ∀ (n i pinOffset : Nat) (totalPins : List Int) (mem : Memory),
      sanityLoop_mem n i pinOffset totalPins mem =
        (sanityLoop mem.tsvBlocks mem.totaldqPins n i pinOffset totalPins).map
          (fun result => (result, mem)) := by
  intro n
  induction n with
  | zero =>
    intro i pinOffset totalPins mem
    rfl
  | succ n ih =>
    intro i pinOffset totalPins mem
    rw [sanityLoop_mem, sanityLoop]
    cases mem.totaldqPins[i]? with
    | none => rfl
    | some pin =>
      simp only
      cases totalPins[tsvIndex i pinOffset (dqShift pin.setting)]? with
      | none => rfl
      | some claimed =>
        simp only
        by_cases hc : claimed ≠ -1
        · rw [if_pos hc, if_pos hc]
          rfl
        · rw [if_neg hc, if_neg hc]
          cases mem.tsvBlocks[tsvIndex i pinOffset (dqShift pin.setting) / 6]? with
          | none => rfl
          | some blk =>
            simp only
            by_cases hz : blk.tsvOperational &&&
                (1 <<< (5 - tsvIndex i pinOffset (dqShift pin.setting) % 6)) = 0
            · rw [if_pos hz, if_pos hz]
              rfl
            · rw [if_neg hz, if_neg hz]
              exact ih _ _ _ mem

theorem sanityTestTable_mem_eq (mem : Memory) :
    sanityTestTable_mem mem =
      (sanityTestTable mem.tsvBlocks mem.totaldqPins).map (fun result => (result, mem)) :=
  sanityLoop_mem_eq 256 0 1 _ mem

theorem InitializeDQ_mem_frame (mem mem' : Memory) (printOutput : Bool) (site : ReturnSite)
    (h : InitializeDQ_mem mem printOutput = some (site, mem')) :
    mem'.tsvBlocks = mem.tsvBlocks ∧
      InitializeDQ mem.tsvBlocks mem.totaldqPins printOutput = some (site, mem'.totaldqPins) := by
  unfold InitializeDQ_mem at h
  unfold InitializeDQ
  cases hloop : blockLoop_mem 64 0 false mem with
  | none => simp [hloop] at h
  | some s =>
    obtain ⟨t, ht, hs⟩ := blockLoop_mem_frame 64 0 false mem s hloop
    rw [ht]
    rw [hs] at hloop
    cases t with
    | returned site2 out =>
      simp only [hloop, Step.onMemory, Option.some.injEq, Prod.mk.injEq] at h
      rw [← h.2, ← h.1]
      exact ⟨rfl, rfl⟩
    | next mb out =>
      simp only [hloop, Step.onMemory] at h
      cases mb with
      | true =>
        simp only [if_true, Option.some.injEq, Prod.mk.injEq] at h
        rw [← h.2, ← h.1]
        exact ⟨rfl, rfl⟩
      | false =>
        simp only [Bool.false_eq_true, if_false] at h ⊢
        rw [sanityTestTable_mem_eq] at h
        cases hv : sanityTestTable mem.tsvBlocks out with
        | none => simp [hv] at h
        | some result =>
          cases result with
          | false =>
            simp only [hv, Option.map_some', Option.some.injEq, Prod.mk.injEq] at h
            rw [← h.2, ← h.1]
            exact ⟨rfl, rfl⟩
          | true =>
            simp only [hv, Option.map_some', Option.some.injEq, Prod.mk.injEq] at h
            rw [← h.2, ← h.1]
            exact ⟨rfl, rfl⟩

theorem InitializeDQ_mem_of_InitializeDQ (mem : Memory) (printOutput : Bool)
    (site : ReturnSite) (out : List dq_pin)
    (h : InitializeDQ mem.tsvBlocks mem.totaldqPins printOutput = some (site, out)) :
    InitializeDQ_mem mem printOutput = some (site, ⟨mem.tsvBlocks, out⟩) := by
  unfold InitializeDQ at h
  unfold InitializeDQ_mem
  cases hloop : blockLoop mem.tsvBlocks 64 0 false mem.totaldqPins with
  | none => simp [hloop] at h
  | some t =>
    rw [blockLoop_mem_of_blockLoop 64 0 false mem t hloop]
    cases t with
    | returned site2 out2 =>
      simp only [hloop, Option.some.injEq, Prod.mk.injEq] at h
      simp only [Step.onMemory]
      rw [← h.1, ← h.2]
    | next mb out2 =>
      simp only [hloop] at h
      simp only [Step.onMemory]
      cases mb with
      | true =>
        simp only [if_true, Option.some.injEq, Prod.mk.injEq] at h
        simp only [if_true]
        rw [← h.1, ← h.2]
      | false =>
        simp only [Bool.false_eq_true, if_false] at h ⊢
        rw [sanityTestTable_mem_eq]
        cases hv : sanityTestTable mem.tsvBlocks out2 with
        | none => simp [hv] at h
        | some result =>
          cases result with
          | false =>
            simp only [hv, Option.some.injEq, Prod.mk.injEq] at h
            simp only [hv, Option.map_some']
            rw [← h.1, ← h.2]
          | true =>
            simp only [hv, Option.some.injEq, Prod.mk.injEq] at h
            simp only [hv, Option.map_some']
            rw [← h.1, ← h.2]

/-! ## The claims -/

/-- C1: on every input of 64 six-bit masks on which `InitializeDQ` returns true, the
physical indices `6 * (i div 4) + 1 + (i mod 4) + shift(i)` computed from the emitted shifts
of two different DQ pins are different. -/
theorem InitializeDQ_indices_distinct (tsvBlocks : List tsv) (totaldqPins out : List dq_pin)
    (printOutput : Bool) (site : ReturnSite) (i j : Nat)
    (hwf : WellFormed tsvBlocks totaldqPins)
    (h : InitializeDQ tsvBlocks totaldqPins printOutput = some (site, out))
    (hv : site.value = true) (hi : i < 256) (hj : j < 256) (hij : i ≠ j) :
    dqIndex out i ≠ dqIndex out j := by
  obtain ⟨hloop, hsane⟩ := InitializeDQ_true tsvBlocks totaldqPins out printOutput site h hv
  have hl : out.length = totaldqPins.length :=
    blockLoop_next_length tsvBlocks 64 0 false false totaldqPins out hloop
  have hdist := ((sanityTestTable_true_iff tsvBlocks out (by rw [hl, hwf.2.1])).mp hsane).2
  rw [← codeIndex_eq_dqIndex out i hi, ← codeIndex_eq_dqIndex out j hj]
  intro e
  have e2 : codeIndex out i = codeIndex out j := by exact_mod_cast e
  rcases Nat.lt_or_gt_of_ne hij with hlt | hgt
  · exact hdist i j hlt hj e2
  · exact hdist j i hgt hi e2.symm

/-- Witness of C1: 64 blocks `0b111111`, DQ pins 0 and 255. -/
theorem InitializeDQ_indices_distinct_witness :
    WellFormed (List.replicate 64 ⟨0b111111, false⟩) (List.replicate 256 ⟨3⟩) ∧
      InitializeDQ (List.replicate 64 ⟨0b111111, false⟩) (List.replicate 256 ⟨3⟩) false =
        some (.Done true, List.replicate 256 ⟨0⟩) ∧
      dqIndex (List.replicate 256 ⟨0⟩) 0 ≠ dqIndex (List.replicate 256 ⟨0⟩) 255 :=
  have hwf : WellFormed (List.replicate 64 ⟨0b111111, false⟩) (List.replicate 256 ⟨3⟩) :=
    wellFormed_replicate _ _ (by decide)
  have hrun := InitializeDQ_interior (List.replicate 64 ⟨0b111111, false⟩)
    (List.replicate 256 ⟨3⟩) false hwf (by decide)
  ⟨hwf, hrun, InitializeDQ_indices_distinct _ _ _ false _ 0 255 hwf hrun rfl (by decide)
    (by decide) (by decide)⟩

/-- C2: on every input of 64 six-bit masks `InitializeDQ` runs without leaving any of its
arrays (the verifier included: the last DQ never resolves to index 384), and when it
returns true every physical index `6 * (i div 4) + 1 + (i mod 4) + shift(i)` lies in
[0, 383] and names a functional pin: bit `5 - index mod 6` of the mask of block
`index div 6` is set. -/
theorem InitializeDQ_indices_functional (tsvBlocks : List tsv) (totaldqPins : List dq_pin)
    (printOutput : Bool) (hwf : WellFormed tsvBlocks totaldqPins) :
    ∃ site out, InitializeDQ tsvBlocks totaldqPins printOutput = some (site, out) ∧
      (site.value = true → ∀ i, i < 256 →
        0 ≤ dqIndex out i ∧ dqIndex out i ≤ 383 ∧
          functionalPin tsvBlocks (dqIndex out i).toNat = true) := by
  obtain ⟨⟨site, out⟩, h⟩ := InitializeDQ_isSome tsvBlocks totaldqPins printOutput hwf
  refine ⟨site, out, h, fun hv i hi => ?_⟩
  obtain ⟨hloop, hsane⟩ := InitializeDQ_true tsvBlocks totaldqPins out printOutput site h hv
  have hl : out.length = totaldqPins.length :=
    blockLoop_next_length tsvBlocks 64 0 false false totaldqPins out hloop
  have hok := ((sanityTestTable_true_iff tsvBlocks out (by rw [hl, hwf.2.1])).mp hsane).1 i hi
  have hfun := (maskTest_iff_functionalPin tsvBlocks hwf.2.2 _).mp hok.2
  have hidx := codeIndex_eq_dqIndex out i hi
  rw [← hidx]
  refine ⟨by omega, by omega, ?_⟩
  rw [Int.toNat_ofNat]
  exact hfun

/-- Witness of C2: 64 blocks `0b011111`, on which the repair succeeds. -/
theorem InitializeDQ_indices_functional_witness :
    WellFormed (List.replicate 64 ⟨0b011111, true⟩) (List.replicate 256 ⟨1⟩) ∧
      InitializeDQ (List.replicate 64 ⟨0b011111, true⟩) (List.replicate 256 ⟨1⟩) true =
        some (.Done true, List.replicate 256 ⟨0⟩) ∧
      ∃ site out,
        InitializeDQ (List.replicate 64 ⟨0b011111, true⟩) (List.replicate 256 ⟨1⟩) true =
          some (site, out) ∧
        (site.value = true → ∀ i, i < 256 →
          0 ≤ dqIndex out i ∧ dqIndex out i ≤ 383 ∧
            functionalPin (List.replicate 64 ⟨0b011111, true⟩) (dqIndex out i).toNat = true) :=
  have hwf : WellFormed (List.replicate 64 ⟨0b011111, true⟩) (List.replicate 256 ⟨1⟩) :=
    wellFormed_replicate _ _ (by decide)
  ⟨hwf, InitializeDQ_interior _ _ true hwf (by decide),
    InitializeDQ_indices_functional _ _ true hwf⟩

/-- C3: for every mask `m` in [0, 63] the table has an entry, its `failed` flag is true
exactly when `m` has fewer than 3 bits set, and it is false when `m` has 5 or more bits
set. -/
theorem tsvLookupTable_failed_iff (m : Nat) (hm : m < 64) :
    ∃ e, tsvLookupTable[m]? = some e ∧ (e.failed = true ↔ bitsSet m < 3) ∧
      (5 ≤ bitsSet m → e.failed = false) := by
  interval_cases m <;> exact ⟨_, rfl, by decide, by decide⟩

/-- Witness of C3: mask `0b000111`. -/
theorem tsvLookupTable_failed_iff_witness :
    0b000111 < 64 ∧
      ∃ e, tsvLookupTable[0b000111]? = some e ∧ (e.failed = true ↔ bitsSet 0b000111 < 3) ∧
        (5 ≤ bitsSet 0b000111 → e.failed = false) :=
  ⟨by decide, tsvLookupTable_failed_iff 0b000111 (by decide)⟩

/-- C4: when the loop body of `InitializeDQ` resolves block `i` (mask `m`, inbound borrow
`mustBorrow`) without returning: if the borrow is inbound and `table[m].canLend` is false,
the four settings written at `4*i .. 4*i+3` are `table[m & 0x1F].dqPins` and the outbound
borrow is `table[m & 0x1F].mustBorrow`; otherwise they are `table[m].dqPins` and
`table[m].mustBorrow`. -/
theorem loopBody_effective_entry (tsvBlocks : List tsv) (i : Nat) (mustBorrow : Bool)
    (totaldqPins out : List dq_pin) (blk : tsv) (entry : tsvLookup) (mustBorrow' : Bool)
    (hblk : tsvBlocks[i]? = some blk)
    (hentry : tsvLookupTable[blk.tsvOperational]? = some entry)
    (hstep : loopBody tsvBlocks i mustBorrow totaldqPins = some (.next mustBorrow' out)) :
    (mustBorrow = true ∧ entry.canLend = false →
        ∃ reduced, tsvLookupTable[blk.tsvOperational &&& 0x1F]? = some reduced ∧
          (out.drop (i * 4)).take 4 = reduced.dqPins ∧ mustBorrow' = reduced.mustBorrow) ∧
      (¬ (mustBorrow = true ∧ entry.canLend = false) →
        (out.drop (i * 4)).take 4 = entry.dqPins ∧ mustBorrow' = entry.mustBorrow) := by
  rw [loopBody_eq tsvBlocks i mustBorrow totaldqPins blk entry hblk hentry] at hstep
  have hmem := (tsvLookupTable_mem_of_get _ _ hentry).1
  by_cases hf : entry.failed = true
  · simp [hf] at hstep
  · simp only [hf, Bool.false_eq_true, if_false] at hstep
    constructor
    · rintro ⟨hmb, hlend⟩
      simp only [hmb, hlend, Bool.not_false, Bool.and_self, if_true] at hstep
      by_cases h20 : blk.tsvOperational &&& 0x20 = 0
      · simp [h20] at hstep
      · simp only [h20, if_false] at hstep
        cases hred : tsvLookupTable[blk.tsvOperational &&& 0x1F]? with
        | none => simp [hred] at hstep
        | some reduced =>
          simp only [hred] at hstep
          have hmem2 := (tsvLookupTable_mem_of_get _ _ hred).1
          have hrow := tsvLookupTable_row_length reduced hmem2
          by_cases hf2 : reduced.failed = true
          · simp [hf2] at hstep
          · simp only [hf2, Bool.false_eq_true, if_false] at hstep
            obtain ⟨h1, h2, h3⟩ :=
              commitLookup_next reduced i totaldqPins out mustBorrow' hrow hstep
            refine ⟨reduced, rfl, ?_, h1⟩
            rw [h3, writeRow_drop_take totaldqPins i reduced.dqPins hrow h2]
    · intro hnot
      have hb : (mustBorrow && !entry.canLend) = false := by
        cases hmb : mustBorrow <;> cases hl : entry.canLend <;> simp_all
      simp only [hb, Bool.false_eq_true, if_false] at hstep
      have hrow := tsvLookupTable_row_length entry hmem
      obtain ⟨h1, h2, h3⟩ := commitLookup_next entry i totaldqPins out mustBorrow' hrow hstep
      refine ⟨?_, h1⟩
      rw [h3, writeRow_drop_take totaldqPins i entry.dqPins hrow h2]

/-- Witness of C4: block 1 with mask `0b100111` and an inbound borrow resolves with the row
of the reduced mask `0b000111`. -/
theorem loopBody_effective_entry_witness :
    ([⟨0b000111, false⟩, ⟨0b100111, false⟩] : List tsv)[1]? = some ⟨0b100111, false⟩ ∧
      tsvLookupTable[0b100111]? = some (row 1 2 2 2 false false false) ∧
      loopBody [⟨0b000111, false⟩, ⟨0b100111, false⟩] 1 true (List.replicate 8 ⟨0⟩) =
        some (.next true [⟨0⟩, ⟨0⟩, ⟨0⟩, ⟨0⟩, ⟨3⟩, ⟨3⟩, ⟨3⟩, ⟨3⟩]) ∧
      ((true = true ∧ (row 1 2 2 2 false false false).canLend = false →
          ∃ reduced, tsvLookupTable[0b100111 &&& 0x1F]? = some reduced ∧
            (([⟨0⟩, ⟨0⟩, ⟨0⟩, ⟨0⟩, ⟨3⟩, ⟨3⟩, ⟨3⟩, ⟨3⟩] : List dq_pin).drop (1 * 4)).take 4 =
              reduced.dqPins ∧ true = reduced.mustBorrow) ∧
        (¬ (true = true ∧ (row 1 2 2 2 false false false).canLend = false) →
          (([⟨0⟩, ⟨0⟩, ⟨0⟩, ⟨0⟩, ⟨3⟩, ⟨3⟩, ⟨3⟩, ⟨3⟩] : List dq_pin).drop (1 * 4)).take 4 =
              (row 1 2 2 2 false false false).dqPins ∧
            true = (row 1 2 2 2 false false false).mustBorrow)) :=
  ⟨by decide, by decide, by decide,
    loopBody_effective_entry [⟨0b000111, false⟩, ⟨0b100111, false⟩] 1 true
      (List.replicate 8 ⟨0⟩) [⟨0⟩, ⟨0⟩, ⟨0⟩, ⟨0⟩, ⟨3⟩, ⟨3⟩, ⟨3⟩, ⟨3⟩] ⟨0b100111, false⟩
      (row 1 2 2 2 false false false) true (by decide) (by decide) (by decide)⟩

/-- C5: when all 64 blocks resolve inside the loop and the borrow carried out of block 63 is
true, `InitializeDQ` returns false at the final-borrow check (`UnresolvedAtBoundary`), which
sits before the call of the verifier; e.g. blocks 0..62 = `0b111111`, block 63 =
`0b000111`. -/
theorem InitializeDQ_unresolved_at_boundary (tsvBlocks : List tsv)
    (totaldqPins out : List dq_pin) (printOutput : Bool)
    (hloop : blockLoop tsvBlocks 64 0 false totaldqPins = some (.next true out)) :
    InitializeDQ tsvBlocks totaldqPins printOutput = some (.UnresolvedAtBoundary, out) ∧
      ReturnSite.UnresolvedAtBoundary.value = false := by
  unfold InitializeDQ
  rw [hloop]
  exact ⟨rfl, rfl⟩

/-- Witness of C5: blocks 0..62 = `0b111111` and block 63 = `0b000111`. -/
theorem InitializeDQ_unresolved_at_boundary_witness :
    blockLoop (List.replicate 63 ⟨0b111111, false⟩ ++ [⟨0b000111, false⟩]) 64 0 false
        (List.replicate 256 ⟨0⟩) =
      some (.next true (List.replicate 252 ⟨0⟩ ++ List.replicate 4 ⟨3⟩)) ∧
    (InitializeDQ (List.replicate 63 ⟨0b111111, false⟩ ++ [⟨0b000111, false⟩])
        (List.replicate 256 ⟨0⟩) false =
      some (.UnresolvedAtBoundary, List.replicate 252 ⟨0⟩ ++ List.replicate 4 ⟨3⟩) ∧
      ReturnSite.UnresolvedAtBoundary.value = false) :=
  ⟨blockLoop_last_000111,
    InitializeDQ_unresolved_at_boundary _ _ _ false blockLoop_last_000111⟩

/-- C6: when blocks 0..k-1 resolve without failure and the mask of block `k` has fewer than
3 bits set, `InitializeDQ` returns false at block `k` through the intrinsic-failure branch,
whatever the borrow `mustBorrow` inbound to block `k` is. -/
theorem InitializeDQ_intrinsic_failure (tsvBlocks : List tsv) (totaldqPins out : List dq_pin)
    (printOutput : Bool) (k : Nat) (mustBorrow : Bool) (blk : tsv) (hk : k < 64)
    (hpre : blockLoop tsvBlocks k 0 false totaldqPins = some (.next mustBorrow out))
    (hblk : tsvBlocks[k]? = some blk) (hm : blk.tsvOperational < 64)
    (hbits : bitsSet blk.tsvOperational < 3) :
    InitializeDQ tsvBlocks totaldqPins printOutput = some (.IntrinsicBlockFailure k, out) ∧
      (ReturnSite.IntrinsicBlockFailure k).value = false := by
  obtain ⟨entry, hentry, _⟩ := tsvLookupTable_get _ hm
  have hf := failed_of_few_bits _ hm hbits
  rw [hentry] at hf
  simp only [Option.map_some', Option.some.injEq] at hf
  exact ⟨InitializeDQ_of_returned tsvBlocks totaldqPins printOutput k hk mustBorrow out out _
    hpre (loopBody_intrinsic tsvBlocks k mustBorrow out blk entry hblk hentry hf), rfl⟩

/-- Witness of C6: block 10 = `0b000010`, all other blocks `0b111111`: failure at block 10
(no borrow inbound); and block 0 = `0b000111`, block 1 = `0b000010`: failure at block 1 with
a borrow inbound. -/
theorem InitializeDQ_intrinsic_failure_witness :
    10 < 64 ∧
    blockLoop (List.replicate 10 ⟨0b111111, false⟩ ++ ⟨0b000010, false⟩ ::
          List.replicate 53 ⟨0b111111, false⟩) 10 0 false (List.replicate 256 ⟨1⟩) =
      some (.next false
        (List.replicate (10 * 4) ⟨0⟩ ++ (List.replicate 256 (⟨1⟩ : dq_pin)).drop (10 * 4))) ∧
    (List.replicate 10 ⟨0b111111, false⟩ ++ ⟨0b000010, false⟩ ::
          List.replicate 53 ⟨0b111111, false⟩)[10]? = some (⟨0b000010, false⟩ : tsv) ∧
    0b000010 < 64 ∧ bitsSet 0b000010 < 3 ∧
    (InitializeDQ (List.replicate 10 ⟨0b111111, false⟩ ++ ⟨0b000010, false⟩ ::
          List.replicate 53 ⟨0b111111, false⟩) (List.replicate 256 ⟨1⟩) false =
      some (.IntrinsicBlockFailure 10,
        List.replicate (10 * 4) ⟨0⟩ ++ (List.replicate 256 (⟨1⟩ : dq_pin)).drop (10 * 4)) ∧
      (ReturnSite.IntrinsicBlockFailure 10).value = false) ∧
    blockLoop (⟨0b000111, false⟩ :: ⟨0b000010, false⟩ :: List.replicate 62 ⟨0b111111, false⟩)
        1 0 false (List.replicate 256 ⟨1⟩) =
      some (.next true (writeRow (List.replicate 256 ⟨1⟩) 0 [⟨3⟩, ⟨3⟩, ⟨3⟩, ⟨3⟩])) ∧
    (InitializeDQ
        (⟨0b000111, false⟩ :: ⟨0b000010, false⟩ :: List.replicate 62 ⟨0b111111, false⟩)
        (List.replicate 256 ⟨1⟩) false =
      some (.IntrinsicBlockFailure 1,
        writeRow (List.replicate 256 ⟨1⟩) 0 [⟨3⟩, ⟨3⟩, ⟨3⟩, ⟨3⟩]) ∧
      (ReturnSite.IntrinsicBlockFailure 1).value = false) := by
  have hpre2 := blockLoop_first_000111
    (⟨0b000111, false⟩ :: ⟨0b000010, false⟩ :: List.replicate 62 ⟨0b111111, false⟩)
    (List.replicate 256 ⟨1⟩) false rfl (by rw [List.length_replicate]; omega)
  have hpre := blockLoop_interior (List.replicate 10 ⟨0b111111, false⟩ ++ ⟨0b000010, false⟩ ::
      List.replicate 53 ⟨0b111111, false⟩) 10 (List.replicate 256 ⟨1⟩) (by decide) (by decide)
    (by rw [List.length_replicate]; omega)
  have hblk : (List.replicate 10 ⟨0b111111, false⟩ ++ ⟨0b000010, false⟩ ::
      List.replicate 53 ⟨0b111111, false⟩)[10]? = some (⟨0b000010, false⟩ : tsv) := by rfl
  exact ⟨by decide, hpre, hblk, by decide, by decide,
    InitializeDQ_intrinsic_failure _ _ _ false 10 false ⟨0b000010, false⟩ (by decide) hpre
      hblk (by decide) (by decide),
    hpre2,
    InitializeDQ_intrinsic_failure _ _ _ false 1 true ⟨0b000010, false⟩ (by decide) hpre2
      rfl (by decide) (by decide)⟩

/-- C7: no mask with bit 0x20 clear has `canLend` set; so when block `i` (`i < 63`) resolves
with an outbound borrow and the mask of block `i+1` is not failed but has bit 0x20 clear,
`InitializeDQ` returns false at block `i+1` through the borrow-unavailable branch. -/
theorem InitializeDQ_borrow_unavailable (tsvBlocks : List tsv)
    (totaldqPins out : List dq_pin) (printOutput : Bool) (i : Nat) (blk : tsv)
    (entry : tsvLookup) (hi : i < 63)
    (hpre : blockLoop tsvBlocks (i + 1) 0 false totaldqPins = some (.next true out))
    (hblk : tsvBlocks[i + 1]? = some blk)
    (hentry : tsvLookupTable[blk.tsvOperational]? = some entry)
    (hfailed : entry.failed = false) (hspare : blk.tsvOperational &&& 0x20 = 0) :
    (∀ m e, tsvLookupTable[m]? = some e → m &&& 0x20 = 0 → e.canLend = false) ∧
      InitializeDQ tsvBlocks totaldqPins printOutput = some (.BorrowUnavailable (i + 1), out) ∧
      (ReturnSite.BorrowUnavailable (i + 1)).value = false := by
  have htable : ∀ m e, tsvLookupTable[m]? = some e → m &&& 0x20 = 0 → e.canLend = false := by
    intro m e he h20
    have h := canLend_needs_spare m (tsvLookupTable_mem_of_get m e he).2 h20
    rw [he] at h
    simpa using h
  exact ⟨htable, InitializeDQ_of_returned tsvBlocks totaldqPins printOutput (i + 1) (by omega)
    true out out _ hpre (loopBody_borrow_unavailable tsvBlocks (i + 1) out blk entry hblk hentry
      hfailed (htable _ _ hentry hspare) hspare), rfl⟩

/-- Witness of C7: block 0 = `0b000111` must borrow and block 1 = `0b011110` has no left
spare. -/
theorem InitializeDQ_borrow_unavailable_witness :
    0 < 63 ∧
    blockLoop (⟨0b000111, false⟩ :: ⟨0b011110, false⟩ :: List.replicate 62 ⟨0b111111, false⟩)
        (0 + 1) 0 false (List.replicate 256 ⟨0⟩) =
      some (.next true (writeRow (List.replicate 256 ⟨0⟩) 0 [⟨3⟩, ⟨3⟩, ⟨3⟩, ⟨3⟩])) ∧
    (⟨0b000111, false⟩ :: ⟨0b011110, false⟩ :: List.replicate 62 ⟨0b111111, false⟩)[0 + 1]? =
      some (⟨0b011110, false⟩ : tsv) ∧
    tsvLookupTable[0b011110]? = some (row 0 0 0 0 false false false) ∧
    (row 0 0 0 0 false false false).failed = false ∧ 0b011110 &&& 0x20 = 0 ∧
    ((∀ m e, tsvLookupTable[m]? = some e → m &&& 0x20 = 0 → e.canLend = false) ∧
      InitializeDQ
          (⟨0b000111, false⟩ :: ⟨0b011110, false⟩ :: List.replicate 62 ⟨0b111111, false⟩)
          (List.replicate 256 ⟨0⟩) false =
        some (.BorrowUnavailable (0 + 1),
          writeRow (List.replicate 256 ⟨0⟩) 0 [⟨3⟩, ⟨3⟩, ⟨3⟩, ⟨3⟩]) ∧
      (ReturnSite.BorrowUnavailable (0 + 1)).value = false) :=
  have hpre := blockLoop_first_000111
    (⟨0b000111, false⟩ :: ⟨0b011110, false⟩ :: List.replicate 62 ⟨0b111111, false⟩)
    (List.replicate 256 ⟨0⟩) false rfl (by rw [List.length_replicate]; omega)
  ⟨by decide, hpre, by decide, by decide, by decide, by decide,
    InitializeDQ_borrow_unavailable _ _ _ false 0 ⟨0b011110, false⟩
      (row 0 0 0 0 false false false) (by decide) hpre (by decide) (by decide) (by decide)
      (by decide)⟩

/-- C8: when every block has its four interior pins functional (`mask & 0b011110 =
0b011110`), `InitializeDQ` returns true, all 256 emitted settings are 0, and the borrow flag
is false after every block. -/
theorem InitializeDQ_interior_pins (tsvBlocks : List tsv) (totaldqPins : List dq_pin)
    (printOutput : Bool) (hwf : WellFormed tsvBlocks totaldqPins)
    (hgood : ∀ blk ∈ tsvBlocks, blk.tsvOperational &&& 0b011110 = 0b011110) :
    InitializeDQ tsvBlocks totaldqPins printOutput =
        some (.Done true, List.replicate 256 ⟨DQ_SHIFT_0⟩) ∧
      (ReturnSite.Done true).value = true ∧
      ∀ k, k < 64 → ∃ mid,
        blockLoop tsvBlocks (k + 1) 0 false totaldqPins = some (.next false mid) := by
  refine ⟨InitializeDQ_interior tsvBlocks totaldqPins printOutput hwf hgood, rfl, ?_⟩
  intro k hk
  obtain ⟨hblocks, hlen, hmask⟩ := hwf
  exact ⟨_, blockLoop_interior tsvBlocks (k + 1) totaldqPins (by omega)
    (fun blk hblk => ⟨hmask blk (List.mem_of_mem_take hblk),
      hgood blk (List.mem_of_mem_take hblk)⟩) (by omega)⟩

/-- Witness of C8: all 64 masks = `0b011110`. -/
theorem InitializeDQ_interior_pins_witness :
    WellFormed (List.replicate 64 ⟨0b011110, false⟩) (List.replicate 256 ⟨2⟩) ∧
    (∀ blk ∈ List.replicate 64 (⟨0b011110, false⟩ : tsv),
      blk.tsvOperational &&& 0b011110 = 0b011110) ∧
    (InitializeDQ (List.replicate 64 ⟨0b011110, false⟩) (List.replicate 256 ⟨2⟩) false =
        some (.Done true, List.replicate 256 ⟨DQ_SHIFT_0⟩) ∧
      (ReturnSite.Done true).value = true ∧
      ∀ k, k < 64 → ∃ mid,
        blockLoop (List.replicate 64 ⟨0b011110, false⟩) (k + 1) 0 false
          (List.replicate 256 ⟨2⟩) = some (.next false mid)) :=
  ⟨wellFormed_replicate _ _ (by decide), by decide,
    InitializeDQ_interior_pins _ _ false (wellFormed_replicate _ _ (by decide)) (by decide)⟩

/-- C9 as stated fails: on 64 masks `0b000111` the run does not end at the final-borrow
check; it returns at block 1 through the borrow-unavailable branch. -/
theorem all_000111_not_unresolved_at_boundary :
    ¬ ∃ out, InitializeDQ (List.replicate 64 ⟨0b000111, false⟩) (List.replicate 256 ⟨0⟩)
      false = some (.UnresolvedAtBoundary, out) := by
  rintro ⟨out, h⟩
  rw [(InitializeDQ_all_000111 (List.replicate 64 ⟨0b000111, false⟩) (List.replicate 256 ⟨0⟩)
    false (List.length_replicate _ _)
    (fun blk hblk => by rw [List.eq_of_mem_replicate hblk])
    (List.length_replicate _ _)).2] at h
  simp only [Option.some.injEq, Prod.mk.injEq] at h
  exact ReturnSite.noConfusion h.1

/-- C9, amended: on every input whose 64 masks all equal `0b000111`, block 0 resolves with
`mustBorrow` set and `InitializeDQ` returns false at block 1 through the borrow-unavailable
branch, because bit 0x20 of block 1 is clear; the final-borrow check is not reached. -/
theorem InitializeDQ_all_000111_fails_at_block_1 (tsvBlocks : List tsv)
    (totaldqPins : List dq_pin) (printOutput : Bool) (hblocks : tsvBlocks.length = 64)
    (hmask : ∀ blk ∈ tsvBlocks, blk.tsvOperational = 0b000111)
    (hlen : totaldqPins.length = 256) :
    blockLoop tsvBlocks 1 0 false totaldqPins =
        some (.next true (writeRow totaldqPins 0 [⟨3⟩, ⟨3⟩, ⟨3⟩, ⟨3⟩])) ∧
      InitializeDQ tsvBlocks totaldqPins printOutput =
        some (.BorrowUnavailable 1, writeRow totaldqPins 0 [⟨3⟩, ⟨3⟩, ⟨3⟩, ⟨3⟩]) ∧
      (ReturnSite.BorrowUnavailable 1).value = false ∧ 0b000111 &&& 0x20 = 0 :=
  ⟨(InitializeDQ_all_000111 tsvBlocks totaldqPins printOutput hblocks hmask hlen).1,
    (InitializeDQ_all_000111 tsvBlocks totaldqPins printOutput hblocks hmask hlen).2,
    rfl, by decide⟩

/-- Witness of the amended C9: 64 blocks `0b000111`. -/
theorem InitializeDQ_all_000111_fails_at_block_1_witness :
    (List.replicate 64 (⟨0b000111, false⟩ : tsv)).length = 64 ∧
    (∀ blk ∈ List.replicate 64 (⟨0b000111, false⟩ : tsv), blk.tsvOperational = 0b000111) ∧
    (List.replicate 256 (⟨0⟩ : dq_pin)).length = 256 ∧
    (blockLoop (List.replicate 64 ⟨0b000111, false⟩) 1 0 false (List.replicate 256 ⟨0⟩) =
        some (.next true (writeRow (List.replicate 256 ⟨0⟩) 0 [⟨3⟩, ⟨3⟩, ⟨3⟩, ⟨3⟩])) ∧
      InitializeDQ (List.replicate 64 ⟨0b000111, false⟩) (List.replicate 256 ⟨0⟩) true =
        some (.BorrowUnavailable 1,
          writeRow (List.replicate 256 ⟨0⟩) 0 [⟨3⟩, ⟨3⟩, ⟨3⟩, ⟨3⟩]) ∧
      (ReturnSite.BorrowUnavailable 1).value = false ∧ 0b000111 &&& 0x20 = 0) :=
  ⟨List.length_replicate _ _, fun blk hblk => by rw [List.eq_of_mem_replicate hblk],
    List.length_replicate _ _,
    InitializeDQ_all_000111_fails_at_block_1 _ _ true (List.length_replicate _ _)
      (fun blk hblk => by rw [List.eq_of_mem_replicate hblk]) (List.length_replicate _ _)⟩

/-- C10 as stated fails: the table entry of mask `0b101111` has `canLend` = true. -/
theorem entry_101111_canLend :
    ¬ ∃ e, tsvLookupTable[0b101111]? = some e ∧ e.canLend = false ∧ e.mustBorrow = false := by
  rintro ⟨e, he, hlend, _⟩
  have h : tsvLookupTable[0b101111]? = some (row 2 2 2 2 false false true) := by decide
  rw [h] at he
  cases he
  exact absurd hlend (by decide)

/-- C10, amended: a block with mask `0b101111` and no inbound borrow resolves; the table
entry of that mask has `canLend` = true and `mustBorrow` = false, the outbound borrow is
false and the four settings written are the entry's. -/
theorem loopBody_101111 (tsvBlocks : List tsv) (i : Nat) (totaldqPins : List dq_pin)
    (blk : tsv) (hblk : tsvBlocks[i]? = some blk) (hm : blk.tsvOperational = 0b101111)
    (hb : i * 4 + 4 ≤ totaldqPins.length) :
    ∃ e, tsvLookupTable[0b101111]? = some e ∧ e.failed = false ∧ e.canLend = true ∧
      e.mustBorrow = false ∧
      loopBody tsvBlocks i false totaldqPins =
        some (.next false (writeRow totaldqPins i e.dqPins)) ∧
      ((writeRow totaldqPins i e.dqPins).drop (i * 4)).take 4 = e.dqPins := by
  have he : tsvLookupTable[0b101111]? = some (row 2 2 2 2 false false true) := by decide
  refine ⟨_, he, rfl, rfl, rfl, ?_, writeRow_drop_take totaldqPins i _ rfl hb⟩
  exact loopBody_commit tsvBlocks i false totaldqPins blk _ hblk (by rw [hm]; exact he) rfl
    (Or.inl rfl) hb

/-- Witness of the amended C10: block 5 of 64 blocks `0b101111`. -/
theorem loopBody_101111_witness :
    (List.replicate 64 (⟨0b101111, false⟩ : tsv))[5]? = some ⟨0b101111, false⟩ ∧
    (⟨0b101111, false⟩ : tsv).tsvOperational = 0b101111 ∧
    5 * 4 + 4 ≤ (List.replicate 256 (⟨0⟩ : dq_pin)).length ∧
    ∃ e, tsvLookupTable[0b101111]? = some e ∧ e.failed = false ∧ e.canLend = true ∧
      e.mustBorrow = false ∧
      loopBody (List.replicate 64 ⟨0b101111, false⟩) 5 false (List.replicate 256 ⟨0⟩) =
        some (.next false (writeRow (List.replicate 256 ⟨0⟩) 5 e.dqPins)) ∧
      ((writeRow (List.replicate 256 ⟨0⟩) 5 e.dqPins).drop (5 * 4)).take 4 = e.dqPins :=
  ⟨by decide, rfl, by rw [List.length_replicate]; omega,
    loopBody_101111 _ 5 _ ⟨0b101111, false⟩ (by decide) rfl
      (by rw [List.length_replicate]; omega)⟩

/-- C11: for masks `A`, `B` in [0, 63] such that the set bits of `B` are a strict subset of
those of `A`, if the entry of `B` is not failed then the entry of `A` is not failed. -/
theorem tsvLookupTable_failed_monotone (A B : Nat) (eA eB : tsvLookup) (hA : A < 64)
    (hB : B < 64) (hsub : B &&& A = B) (hne : B ≠ A)
    (hentryA : tsvLookupTable[A]? = some eA) (hentryB : tsvLookupTable[B]? = some eB)
    (hnf : eB.failed = false) : eA.failed = false := by
  have h1 := failed_iff_bits A hA
  have h2 := failed_iff_bits B hB
  rw [hentryA] at h1
  rw [hentryB] at h2
  simp only [Option.map_some', Option.some.injEq] at h1 h2
  have hmono := bitsSet_mono A B hsub
  rw [hnf] at h2
  have hb : ¬ bitsSet B < 3 := by
    intro hlt
    rw [decide_eq_true hlt] at h2
    exact absurd h2 (by decide)
  rw [h1]
  exact decide_eq_false (by omega)

/-- Witness of C11: `B = 0b000111` inside `A = 0b100111`. -/
theorem tsvLookupTable_failed_monotone_witness :
    0b100111 < 64 ∧ 0b000111 < 64 ∧ 0b000111 &&& 0b100111 = 0b000111 ∧
      0b000111 ≠ 0b100111 ∧
      tsvLookupTable[0b100111]? = some (row 1 2 2 2 false false false) ∧
      tsvLookupTable[0b000111]? = some (row 3 3 3 3 false true false) ∧
      (row 3 3 3 3 false true false).failed = false ∧
      (row 1 2 2 2 false false false).failed = false :=
  ⟨by decide, by decide, by decide, by decide, by decide, by decide, by decide,
    tsvLookupTable_failed_monotone 0b100111 0b000111 (row 1 2 2 2 false false false)
      (row 3 3 3 3 false true false) (by decide) (by decide) (by decide)
      (by decide) (by decide) (by decide) (by decide)⟩

/-- C12: for 64 six-bit masks and 256 shift codes whose indices
`6 * (i div 4) + 1 + (i mod 4) + shift(i)` all lie in [0, 383], `sanityTestTable` returns, and
it returns true exactly when the 256 indices are pairwise distinct and each names a
functional pin (bit `5 - index mod 6` of block `index div 6` is set). -/
theorem sanityTestTable_sound_complete (tsvBlocks : List tsv) (totaldqPins : List dq_pin)
    (hwf : WellFormed tsvBlocks totaldqPins)
    (hrange : ∀ i, i < 256 → 0 ≤ dqIndex totaldqPins i ∧ dqIndex totaldqPins i ≤ 383) :
    ∃ b, sanityTestTable tsvBlocks totaldqPins = some b ∧
      (b = true ↔
        ((∀ i j, i < 256 → j < 256 → i ≠ j → dqIndex totaldqPins i ≠ dqIndex totaldqPins j) ∧
          ∀ i, i < 256 → functionalPin tsvBlocks (dqIndex totaldqPins i).toNat = true)) := by
  obtain ⟨hblocks, hlen, hmask⟩ := hwf
  have hlt : ∀ j, j < 256 → codeIndex totaldqPins j < 384 := by
    intro j hj
    have h1 := codeIndex_eq_dqIndex totaldqPins j hj
    have h2 := (hrange j hj).2
    omega
  have hsome : ∃ b, sanityTestTable tsvBlocks totaldqPins = some b :=
    sanityLoop_isSome tsvBlocks totaldqPins hblocks 256 0 (List.replicate (64 * 6) (-1))
      (by omega) (List.length_replicate _ _) (fun j _ hj => hlt j (by omega))
  obtain ⟨b, hb⟩ := hsome
  refine ⟨b, hb, ?_⟩
  have hiff := sanityTestTable_true_iff tsvBlocks totaldqPins (by omega)
  rw [hb] at hiff
  have hb' : b = true ↔ some b = some true := by
    constructor
    · intro e
      rw [e]
    · intro e
      exact Option.some.inj e
  rw [hb', hiff]
  constructor
  · rintro ⟨h1, h2⟩
    constructor
    · intro i j hi hj hij
      rw [← codeIndex_eq_dqIndex totaldqPins i hi, ← codeIndex_eq_dqIndex totaldqPins j hj]
      intro e
      have e2 : codeIndex totaldqPins i = codeIndex totaldqPins j := by exact_mod_cast e
      rcases Nat.lt_or_gt_of_ne hij with hl | hg
      · exact h2 i j hl hj e2
      · exact h2 j i hg hi e2.symm
    · intro i hi
      rw [← codeIndex_eq_dqIndex totaldqPins i hi, Int.toNat_ofNat]
      exact (maskTest_iff_functionalPin tsvBlocks hmask _).mp (h1 i hi).2
  · rintro ⟨h1, h2⟩
    constructor
    · intro j hj
      refine ⟨hlt j hj, (maskTest_iff_functionalPin tsvBlocks hmask _).mpr ?_⟩
      have := h2 j hj
      rw [← codeIndex_eq_dqIndex totaldqPins j hj, Int.toNat_ofNat] at this
      exact this
    · intro j j' hjj hj' e
      apply h1 j j' (by omega) hj' (by omega)
      rw [← codeIndex_eq_dqIndex totaldqPins j (by omega),
        ← codeIndex_eq_dqIndex totaldqPins j' hj', e]

/-- Witness of C12: 64 blocks `0b011110` and the all-zero assignment. -/
theorem sanityTestTable_sound_complete_witness :
    WellFormed (List.replicate 64 ⟨0b011110, false⟩) (List.replicate 256 ⟨0⟩) ∧
    (∀ i, i < 256 → 0 ≤ dqIndex (List.replicate 256 ⟨0⟩) i ∧
      dqIndex (List.replicate 256 ⟨0⟩) i ≤ 383) ∧
    sanityTestTable (List.replicate 64 ⟨0b011110, false⟩) (List.replicate 256 ⟨0⟩) =
      some true ∧
    ∃ b, sanityTestTable (List.replicate 64 ⟨0b011110, false⟩) (List.replicate 256 ⟨0⟩) =
        some b ∧
      (b = true ↔
        ((∀ i j, i < 256 → j < 256 → i ≠ j →
            dqIndex (List.replicate 256 ⟨0⟩) i ≠ dqIndex (List.replicate 256 ⟨0⟩) j) ∧
          ∀ i, i < 256 → functionalPin (List.replicate 64 ⟨0b011110, false⟩)
            (dqIndex (List.replicate 256 ⟨0⟩) i).toNat = true)) :=
  ⟨wellFormed_replicate _ _ (by decide), dqIndex_replicate_zero_range,
    sanityTestTable_interior _ (List.length_replicate _ _)
      (fun blk hblk => by rw [List.eq_of_mem_replicate hblk]; exact ⟨by decide, by decide⟩),
    sanityTestTable_sound_complete _ _ (wellFormed_replicate _ _ (by decide))
      dqIndex_replicate_zero_range⟩

/-- C13 as stated fails: for DQ 4 with shift code 0 the verifier computes index 7, while
`nominalOffset + (i mod 4) + shiftValue` with `nominalOffset = 1 + 2 * (i div 4)` is 3. -/
theorem verifier_index_not_local :
    pinOffsetAt 4 = 1 + 2 * (4 / 4) ∧ tsvIndex 4 (pinOffsetAt 4) (dqShift 0) = 7 ∧
      ((tsvIndex 4 (pinOffsetAt 4) (dqShift 0) : Nat) : Int) ≠
        ((1 + 2 * (4 / 4) : Nat) : Int) + ((4 % 4 : Nat) : Int) + shiftValue 0 := by
  decide

/-- C13, amended: for every DQ index `i` in [0, 255] the running `pinOffset` is
`nominalOffset = 1 + 2 * (i div 4)` when the loop reaches `i`, and the index the verifier
computes is `nominalOffset + i + shiftValue` with the global DQ index `i`, which is
`6 * (i div 4) + 1 + (i mod 4) + shiftValue`; it is the index the loop looks up in
`totalPins` (double assignment), tests in the block masks (bad pin) and claims for DQ `i`. -/
theorem verifier_index_global (tsvBlocks : List tsv) (totaldqPins : List dq_pin) (n i : Nat)
    (totalPins : List Int) (pin : dq_pin) (hi : i < 256)
    (hpin : totaldqPins[i]? = some pin) :
    pinOffsetAt i = 1 + 2 * (i / 4) ∧
      ((tsvIndex i (pinOffsetAt i) (dqShift pin.setting) : Nat) : Int) =
        ((1 + 2 * (i / 4) : Nat) : Int) + (i : Int) + shiftValue pin.setting ∧
      ((tsvIndex i (pinOffsetAt i) (dqShift pin.setting) : Nat) : Int) =
        physIndex i pin.setting ∧
      (∀ claimed, totalPins[tsvIndex i (pinOffsetAt i) (dqShift pin.setting)]? = some claimed →
        claimed ≠ -1 →
        sanityLoop tsvBlocks totaldqPins (n + 1) i (pinOffsetAt i) totalPins = some false) ∧
      (∀ blk, totalPins[tsvIndex i (pinOffsetAt i) (dqShift pin.setting)]? = some (-1) →
        tsvBlocks[tsvIndex i (pinOffsetAt i) (dqShift pin.setting) / 6]? = some blk →
        blk.tsvOperational &&&
          (1 <<< (5 - tsvIndex i (pinOffsetAt i) (dqShift pin.setting) % 6)) = 0 →
        sanityLoop tsvBlocks totaldqPins (n + 1) i (pinOffsetAt i) totalPins = some false) ∧
      (∀ blk, totalPins[tsvIndex i (pinOffsetAt i) (dqShift pin.setting)]? = some (-1) →
        tsvBlocks[tsvIndex i (pinOffsetAt i) (dqShift pin.setting) / 6]? = some blk →
        blk.tsvOperational &&&
          (1 <<< (5 - tsvIndex i (pinOffsetAt i) (dqShift pin.setting) % 6)) ≠ 0 →
        sanityLoop tsvBlocks totaldqPins (n + 1) i (pinOffsetAt i) totalPins =
          sanityLoop tsvBlocks totaldqPins n (i + 1) (pinOffsetAt (i + 1))
            (totalPins.set (tsvIndex i (pinOffsetAt i) (dqShift pin.setting)) (i : Int))) := by
  have hs := settingAt_of_getElem? totaldqPins i pin hpin
  have hidx := codeIndex_eq_dqIndex totaldqPins i hi
  unfold codeIndex dqIndex at hidx
  rw [hs] at hidx
  have hb := dqShift_bounds pin.setting
  have hlen : i < totaldqPins.length := (List.getElem?_eq_some_iff.mp hpin).1
  have h := sanityLoop_unfold tsvBlocks totaldqPins n i totalPins hlen
  unfold codeIndex at h
  rw [hs] at h
  rw [pinOffsetAt_eq, pinOffsetAt_eq]
  refine ⟨rfl, ?_, hidx, ?_, ?_, ?_⟩
  · rw [hidx]
    unfold physIndex
    omega
  · intro claimed hc hne
    rw [h, hc]
    simp only [hne, ne_eq, not_false_eq_true, if_true]
  · intro blk hc hblk hbad
    rw [h, hc]
    simp only [hblk, hbad, ne_eq, not_true_eq_false, if_false, if_true]
  · intro blk hc hblk hgood
    rw [h, hc]
    simp only [hblk, hgood, ne_eq, not_true_eq_false, if_false]

/-- Witness of the amended C13: DQ 4 of the all-zero assignment. -/
theorem verifier_index_global_witness :
    4 < 256 ∧ (List.replicate 256 (⟨0⟩ : dq_pin))[4]? = some ⟨0⟩ ∧
    pinOffsetAt 4 = 1 + 2 * (4 / 4) ∧
    ((tsvIndex 4 (pinOffsetAt 4) (dqShift (⟨0⟩ : dq_pin).setting) : Nat) : Int) =
      ((1 + 2 * (4 / 4) : Nat) : Int) + ((4 : Nat) : Int) + shiftValue (⟨0⟩ : dq_pin).setting ∧
    ((tsvIndex 4 (pinOffsetAt 4) (dqShift (⟨0⟩ : dq_pin).setting) : Nat) : Int) =
      physIndex 4 (⟨0⟩ : dq_pin).setting := by
  have hpin : (List.replicate 256 (⟨0⟩ : dq_pin))[4]? = some ⟨0⟩ := by
    rw [List.getElem?_replicate]
    rfl
  have h := verifier_index_global (List.replicate 64 ⟨0b111111, false⟩)
    (List.replicate 256 ⟨0⟩) 0 4 (List.replicate 384 (-1)) ⟨0⟩ (by decide) hpin
  exact ⟨by decide, hpin, h.1, h.2.1, h.2.2.1⟩

/-- C14: a block whose table entry is not failed and which receives no inbound borrow is
resolved: the loop body takes none of its three `return false` branches, writes the
entry's own four settings and goes on with the entry's `mustBorrow`. -/
theorem loopBody_resolves_without_borrow (tsvBlocks : List tsv) (i : Nat)
    (totaldqPins : List dq_pin) (blk : tsv) (entry : tsvLookup)
    (hblk : tsvBlocks[i]? = some blk)
    (hentry : tsvLookupTable[blk.tsvOperational]? = some entry)
    (hnf : entry.failed = false) (hb : i * 4 + 4 ≤ totaldqPins.length) :
    loopBody tsvBlocks i false totaldqPins =
        some (.next entry.mustBorrow (writeRow totaldqPins i entry.dqPins)) ∧
      ∀ site out, loopBody tsvBlocks i false totaldqPins ≠ some (.returned site out) := by
  have h := loopBody_commit tsvBlocks i false totaldqPins blk entry hblk hentry hnf
    (Or.inl rfl) hb
  refine ⟨h, fun site out e => ?_⟩
  rw [h] at e
  cases e

/-- Witness of C14: block 0 with mask `0b000111`. -/
theorem loopBody_resolves_without_borrow_witness :
    ([⟨0b000111, false⟩] : List tsv)[0]? = some ⟨0b000111, false⟩ ∧
    tsvLookupTable[0b000111]? = some (row 3 3 3 3 false true false) ∧
    (row 3 3 3 3 false true false).failed = false ∧
    0 * 4 + 4 ≤ ([⟨0⟩, ⟨0⟩, ⟨0⟩, ⟨0⟩] : List dq_pin).length ∧
    (loopBody [⟨0b000111, false⟩] 0 false [⟨0⟩, ⟨0⟩, ⟨0⟩, ⟨0⟩] =
        some (.next (row 3 3 3 3 false true false).mustBorrow
          (writeRow [⟨0⟩, ⟨0⟩, ⟨0⟩, ⟨0⟩] 0 (row 3 3 3 3 false true false).dqPins)) ∧
      ∀ site out, loopBody [⟨0b000111, false⟩] 0 false [⟨0⟩, ⟨0⟩, ⟨0⟩, ⟨0⟩] ≠
        some (.returned site out)) :=
  ⟨by decide, by decide, by decide, by decide,
    loopBody_resolves_without_borrow [⟨0b000111, false⟩] 0 [⟨0⟩, ⟨0⟩, ⟨0⟩, ⟨0⟩]
      ⟨0b000111, false⟩ (row 3 3 3 3 false true false) (by decide) (by decide) (by decide)
      (by decide)⟩

/-- C15: every table entry with `failed` = true has `mustBorrow` = false, `canLend` = false
and all four shifts equal to `DQ_SHIFT_0`. -/
theorem tsvLookupTable_failed_entry (m : Nat) (e : tsvLookup)
    (hentry : tsvLookupTable[m]? = some e) (hfailed : e.failed = true) :
    e.mustBorrow = false ∧ e.canLend = false ∧
      e.dqPins = [⟨DQ_SHIFT_0⟩, ⟨DQ_SHIFT_0⟩, ⟨DQ_SHIFT_0⟩, ⟨DQ_SHIFT_0⟩] :=
  failed_rows e (tsvLookupTable_mem_of_get m e hentry).1 hfailed

/-- Witness of C15: mask `0b000011`. -/
theorem tsvLookupTable_failed_entry_witness :
    tsvLookupTable[0b000011]? = some (row 0 0 0 0 true false false) ∧
    (row 0 0 0 0 true false false).failed = true ∧
    ((row 0 0 0 0 true false false).mustBorrow = false ∧
      (row 0 0 0 0 true false false).canLend = false ∧
      (row 0 0 0 0 true false false).dqPins =
        [⟨DQ_SHIFT_0⟩, ⟨DQ_SHIFT_0⟩, ⟨DQ_SHIFT_0⟩, ⟨DQ_SHIFT_0⟩]) :=
  ⟨by decide, by decide,
    tsvLookupTable_failed_entry 0b000011 (row 0 0 0 0 true false false) (by decide)
      (by decide)⟩

/-- C16: `InitializeDQ` is a function of the 64 masks only: two calls whose masks agree
block by block return at the same `return` statement (so the booleans are equal) and, when
the result is true, emit the same 256 shift codes, whatever the `borrowedPin` fields, the
prior contents of the 256-entry assignment arrays and the `printOutput` flags are. -/
theorem InitializeDQ_function_of_masks (blocks₁ blocks₂ : List tsv)
    (pins₁ pins₂ : List dq_pin) (printOutput₁ printOutput₂ : Bool)
    (hmask : blocks₁.map (fun blk => blk.tsvOperational) =
      blocks₂.map (fun blk => blk.tsvOperational))
    (h1 : pins₁.length = 256) (h2 : pins₂.length = 256) :
    (InitializeDQ blocks₁ pins₁ printOutput₁).map (fun r => r.1) =
        (InitializeDQ blocks₂ pins₂ printOutput₂).map (fun r => r.1) ∧
      (InitializeDQ blocks₁ pins₁ printOutput₁).map (fun r => r.1.value) =
        (InitializeDQ blocks₂ pins₂ printOutput₂).map (fun r => r.1.value) ∧
      ∀ site₁ out₁ site₂ out₂,
        InitializeDQ blocks₁ pins₁ printOutput₁ = some (site₁, out₁) →
        InitializeDQ blocks₂ pins₂ printOutput₂ = some (site₂, out₂) →
        site₁.value = true → out₁ = out₂ := by
  rw [InitializeDQ_congr blocks₁ blocks₂ pins₁ printOutput₁ printOutput₂ hmask]
  obtain ⟨hsite, hout⟩ :=
    InitializeDQ_pins_agree blocks₂ pins₁ pins₂ printOutput₂ printOutput₂ h1 h2
  refine ⟨hsite, ?_, hout⟩
  have := congrArg (fun o => o.map ReturnSite.value) hsite
  simpa only [Option.map_map] using this

/-- Witness of C16: two runs on 64 masks `0b111111` that differ in `borrowedPin`, in the
prior assignment and in `printOutput`. -/
theorem InitializeDQ_function_of_masks_witness :
    (List.replicate 64 (⟨0b111111, false⟩ : tsv)).map (fun blk => blk.tsvOperational) =
      (List.replicate 64 (⟨0b111111, true⟩ : tsv)).map (fun blk => blk.tsvOperational) ∧
    (List.replicate 256 (⟨0⟩ : dq_pin)).length = 256 ∧
    (List.replicate 256 (⟨3⟩ : dq_pin)).length = 256 ∧
    ((InitializeDQ (List.replicate 64 ⟨0b111111, false⟩) (List.replicate 256 ⟨0⟩) false).map
        (fun r => r.1) =
      (InitializeDQ (List.replicate 64 ⟨0b111111, true⟩) (List.replicate 256 ⟨3⟩) true).map
        (fun r => r.1) ∧
      (InitializeDQ (List.replicate 64 ⟨0b111111, false⟩) (List.replicate 256 ⟨0⟩) false).map
        (fun r => r.1.value) =
      (InitializeDQ (List.replicate 64 ⟨0b111111, true⟩) (List.replicate 256 ⟨3⟩) true).map
        (fun r => r.1.value) ∧
      ∀ site₁ out₁ site₂ out₂,
        InitializeDQ (List.replicate 64 ⟨0b111111, false⟩) (List.replicate 256 ⟨0⟩) false =
          some (site₁, out₁) →
        InitializeDQ (List.replicate 64 ⟨0b111111, true⟩) (List.replicate 256 ⟨3⟩) true =
          some (site₂, out₂) →
        site₁.value = true → out₁ = out₂) := by
  have hmask : (List.replicate 64 (⟨0b111111, false⟩ : tsv)).map
      (fun blk => blk.tsvOperational) =
      (List.replicate 64 (⟨0b111111, true⟩ : tsv)).map (fun blk => blk.tsvOperational) := by
    rw [List.map_replicate, List.map_replicate]
  exact ⟨hmask, List.length_replicate _ _, List.length_replicate _ _,
    InitializeDQ_function_of_masks _ _ _ _ false true hmask (List.length_replicate _ _)
      (List.length_replicate _ _)⟩

/-- C17: when `InitializeDQ` returns inside the loop at block `i` (intrinsic,
borrow-unavailable or chain-borrow branch), no block from `i` on is resolved: the entries
`4*i .. 255` keep the values they had before the call, and the array is the one left by
resolving blocks 0..i-1, whose entries `4*j .. 4*j+3` hold the row chosen for block `j`. -/
theorem InitializeDQ_failure_frame (tsvBlocks : List tsv) (totaldqPins out : List dq_pin)
    (printOutput : Bool) (i : Nat) (site : ReturnSite)
    (h : InitializeDQ tsvBlocks totaldqPins printOutput = some (site, out))
    (hsite : site = .IntrinsicBlockFailure i ∨ site = .BorrowUnavailable i ∨
      site = .ChainBorrowFailure i) :
    (∀ k, i * 4 ≤ k → out[k]? = totaldqPins[k]?) ∧
      (∃ mb, blockLoop tsvBlocks i 0 false totaldqPins = some (.next mb out)) ∧
      ∀ j, j < i → ∃ r mb mid, r ∈ tsvLookupTable ∧ r.failed = false ∧
        blockLoop tsvBlocks j 0 false totaldqPins = some (.next mb mid) ∧
        loopBody tsvBlocks j mb mid = some (.next r.mustBorrow (writeRow mid j r.dqPins)) ∧
        (out.drop (j * 4)).take 4 = r.dqPins := by
  obtain ⟨_, mb, hpre, _⟩ :=
    InitializeDQ_loop_failure tsvBlocks totaldqPins out printOutput i site h hsite
  refine ⟨fun k hk => blockLoop_frame tsvBlocks i 0 false mb totaldqPins out hpre k
    (Or.inr (by omega)), ⟨mb, hpre⟩, ?_⟩
  intro j hj
  have e : i = (j + 1) + (i - (j + 1)) := by omega
  have hsplit := blockLoop_add tsvBlocks (j + 1) (i - (j + 1)) 0 false totaldqPins
  rw [← e, hpre] at hsplit
  cases hfirst : blockLoop tsvBlocks (j + 1) 0 false totaldqPins with
  | none => simp [hfirst] at hsplit
  | some s =>
    cases s with
    | returned site2 out2 => simp [hfirst] at hsplit
    | next mb1 mid1 =>
      simp only [hfirst] at hsplit
      obtain ⟨mbj, midj, hj0, hbody⟩ := blockLoop_last tsvBlocks j 0 _ _ _ _ hfirst
      rw [Nat.zero_add] at hbody
      obtain ⟨r, hmem, hnf, hmb, hb, hout⟩ := loopBody_next tsvBlocks _ _ _ _ _ hbody
      refine ⟨r, mbj, midj, hmem, hnf, hj0, ?_, ?_⟩
      · rw [hbody, hmb, hout]
      · have hrest := blockLoop_frame tsvBlocks (i - (j + 1)) (0 + (j + 1)) mb1 mb mid1 out
          hsplit.symm
        rw [drop_take_congr out mid1 (j * 4) (fun k hk => hrest k (Or.inl (by omega))), hout,
          writeRow_drop_take midj j r.dqPins (tsvLookupTable_row_length r hmem) hb]

/-- Witness of C17: 64 masks `0b000111`, where the run returns at block 1. -/
theorem InitializeDQ_failure_frame_witness :
    InitializeDQ (List.replicate 64 ⟨0b000111, false⟩) (List.replicate 256 ⟨0⟩) false =
      some (.BorrowUnavailable 1, writeRow (List.replicate 256 ⟨0⟩) 0 [⟨3⟩, ⟨3⟩, ⟨3⟩, ⟨3⟩]) ∧
    ((∀ k, 1 * 4 ≤ k →
        (writeRow (List.replicate 256 ⟨0⟩) 0 [⟨3⟩, ⟨3⟩, ⟨3⟩, ⟨3⟩])[k]? =
          (List.replicate 256 (⟨0⟩ : dq_pin))[k]?) ∧
      (∃ mb, blockLoop (List.replicate 64 ⟨0b000111, false⟩) 1 0 false
          (List.replicate 256 ⟨0⟩) =
        some (.next mb (writeRow (List.replicate 256 ⟨0⟩) 0 [⟨3⟩, ⟨3⟩, ⟨3⟩, ⟨3⟩]))) ∧
      ∀ j, j < 1 → ∃ r mb mid, r ∈ tsvLookupTable ∧ r.failed = false ∧
        blockLoop (List.replicate 64 ⟨0b000111, false⟩) j 0 false (List.replicate 256 ⟨0⟩) =
          some (.next mb mid) ∧
        loopBody (List.replicate 64 ⟨0b000111, false⟩) j mb mid =
          some (.next r.mustBorrow (writeRow mid j r.dqPins)) ∧
        ((writeRow (List.replicate 256 ⟨0⟩) 0 [⟨3⟩, ⟨3⟩, ⟨3⟩, ⟨3⟩]).drop (j * 4)).take 4 =
          r.dqPins) := by
  have hrun := (InitializeDQ_all_000111 (List.replicate 64 ⟨0b000111, false⟩)
    (List.replicate 256 ⟨0⟩) false (List.length_replicate _ _)
    (fun blk hblk => by rw [List.eq_of_mem_replicate hblk]) (List.length_replicate _ _)).2
  exact ⟨hrun, InitializeDQ_failure_frame _ _ _ false 1 _ hrun (Or.inr (Or.inl rfl))⟩

/-- C18: a call of `InitializeDQ` or of `sanityTestTable` leaves the 64 blocks as they
were (masks and `borrowedPin` fields), at every return: the three failure returns inside the
block loop, the return at the boundary, the verification failure and the final return;
`sanityTestTable` leaves the assignment array unchanged too; the blocks are also unchanged
after any number of iterations of the block loop; and on 64 six-bit masks with 256 DQ pins
`InitializeDQ` always returns, with no access outside an array. -/
theorem InitializeDQ_mem_leaves_tsvBlocks (mem : Memory) (printOutput : Bool) :
    (∀ site mem', InitializeDQ_mem mem printOutput = some (site, mem') →
        mem'.tsvBlocks = mem.tsvBlocks) ∧
      (∀ result mem', sanityTestTable_mem mem = some (result, mem') →
        mem'.tsvBlocks = mem.tsvBlocks ∧ mem'.totaldqPins = mem.totaldqPins) ∧
      (∀ n i mustBorrow,
        (∀ site mem', blockLoop_mem n i mustBorrow mem = some (.returned site mem') →
          mem'.tsvBlocks = mem.tsvBlocks) ∧
        (∀ mustBorrow' mem', blockLoop_mem n i mustBorrow mem = some (.next mustBorrow' mem') →
          mem'.tsvBlocks = mem.tsvBlocks)) ∧
      (WellFormed mem.tsvBlocks mem.totaldqPins →
        ∃ site mem', InitializeDQ_mem mem printOutput = some (site, mem')) := by
  refine ⟨?_, ?_, ?_, ?_⟩
  · intro site mem' h
    exact (InitializeDQ_mem_frame mem mem' printOutput site h).1
  · intro result mem' h
    rw [sanityTestTable_mem_eq] at h
    cases hv : sanityTestTable mem.tsvBlocks mem.totaldqPins with
    | none => simp [hv] at h
    | some r =>
      simp only [hv, Option.map_some', Option.some.injEq, Prod.mk.injEq] at h
      rw [← h.2]
      exact ⟨rfl, rfl⟩
  · intro n i mustBorrow
    constructor
    · intro site mem' h
      obtain ⟨t, _, ht⟩ := blockLoop_mem_frame n i mustBorrow mem _ h
      cases t with
      | returned site2 out =>
        simp only [Step.onMemory, MemStep.returned.injEq] at ht
        rw [ht.2]
      | next mb out => simp [Step.onMemory] at ht
    · intro mustBorrow' mem' h
      obtain ⟨t, _, ht⟩ := blockLoop_mem_frame n i mustBorrow mem _ h
      cases t with
      | returned site2 out => simp [Step.onMemory] at ht
      | next mb out =>
        simp only [Step.onMemory, MemStep.next.injEq] at ht
        rw [ht.2]
  · intro hwf
    obtain ⟨⟨site, out⟩, hrun⟩ :=
      InitializeDQ_isSome mem.tsvBlocks mem.totaldqPins printOutput hwf
    exact ⟨site, _, InitializeDQ_mem_of_InitializeDQ mem printOutput site out hrun⟩

/-- Witness of C18: the failing call on 64 masks `0b000111`, which stores four settings
before it returns at block 1, and the passing call on 64 masks `0b011110`. -/
theorem InitializeDQ_mem_leaves_tsvBlocks_witness :
    InitializeDQ_mem ⟨List.replicate 64 ⟨0b000111, true⟩, List.replicate 256 ⟨0⟩⟩ false =
      some (.BorrowUnavailable 1, ⟨List.replicate 64 ⟨0b000111, true⟩,
        writeRow (List.replicate 256 ⟨0⟩) 0 [⟨3⟩, ⟨3⟩, ⟨3⟩, ⟨3⟩]⟩) ∧
    (⟨List.replicate 64 ⟨0b000111, true⟩,
        writeRow (List.replicate 256 ⟨0⟩) 0 [⟨3⟩, ⟨3⟩, ⟨3⟩, ⟨3⟩]⟩ : Memory).tsvBlocks =
      (⟨List.replicate 64 ⟨0b000111, true⟩, List.replicate 256 ⟨0⟩⟩ : Memory).tsvBlocks ∧
    InitializeDQ_mem ⟨List.replicate 64 ⟨0b011110, true⟩, List.replicate 256 ⟨2⟩⟩ false =
      some (.Done true, ⟨List.replicate 64 ⟨0b011110, true⟩, List.replicate 256 ⟨0⟩⟩) ∧
    (⟨List.replicate 64 ⟨0b011110, true⟩, List.replicate 256 ⟨0⟩⟩ : Memory).tsvBlocks =
      (⟨List.replicate 64 ⟨0b011110, true⟩, List.replicate 256 ⟨2⟩⟩ : Memory).tsvBlocks := by
  have hfail := InitializeDQ_mem_of_InitializeDQ
    ⟨List.replicate 64 ⟨0b000111, true⟩, List.replicate 256 ⟨0⟩⟩ false _ _
    (InitializeDQ_all_000111 (List.replicate 64 ⟨0b000111, true⟩)
      (List.replicate 256 ⟨0⟩) false (List.length_replicate _ _)
      (fun blk hblk => by rw [List.eq_of_mem_replicate hblk]) (List.length_replicate _ _)).2
  have hpass := InitializeDQ_mem_of_InitializeDQ
    ⟨List.replicate 64 ⟨0b011110, true⟩, List.replicate 256 ⟨2⟩⟩ false _ _
    (InitializeDQ_interior (List.replicate 64 ⟨0b011110, true⟩) (List.replicate 256 ⟨2⟩)
      false (wellFormed_replicate _ _ (by decide))
      (fun blk hblk => by rw [List.eq_of_mem_replicate hblk]; rfl))
  exact ⟨hfail, (InitializeDQ_mem_leaves_tsvBlocks _ false).1 _ _ hfail, hpass,
    (InitializeDQ_mem_leaves_tsvBlocks _ false).1 _ _ hpass⟩

/-- C19: for every mask `m` whose table entry is not failed, the local positions
`p_d = 1 + d + shift_d` (`d` = 0..3) are strictly increasing in `d`, lie in [0, 6], every
position `p_d ≤ 5` is a functional pin of `m` (bit `5 - p_d` of `m` is set), and position 6
occurs only for `d = 3`. -/
theorem tsvLookupTable_positions (m : Nat) (e : tsvLookup)
    (hentry : tsvLookupTable[m]? = some e) (hnf : e.failed = false) :
    (∀ d, d < 4 →
      0 ≤ localPosition d (settingAt e.dqPins d) ∧ localPosition d (settingAt e.dqPins d) ≤ 6 ∧
      (localPosition d (settingAt e.dqPins d) ≤ 5 →
        m.testBit (5 - (localPosition d (settingAt e.dqPins d)).toNat) = true) ∧
      (localPosition d (settingAt e.dqPins d) = 6 → d = 3)) ∧
    (∀ d, d < 3 → localPosition d (settingAt e.dqPins d) <
      localPosition (d + 1) (settingAt e.dqPins (d + 1))) :=
  rows_place_pins m (tsvLookupTable_mem_of_get m e hentry).2 e hentry hnf

/-- Witness of C19: mask `0b100011`, positions 0, 4, 5, 6. -/
theorem tsvLookupTable_positions_witness :
    tsvLookupTable[0b100011]? = some (row 1 3 3 3 false true false) ∧
    (row 1 3 3 3 false true false).failed = false ∧
    ((∀ d, d < 4 →
      0 ≤ localPosition d (settingAt (row 1 3 3 3 false true false).dqPins d) ∧
      localPosition d (settingAt (row 1 3 3 3 false true false).dqPins d) ≤ 6 ∧
      (localPosition d (settingAt (row 1 3 3 3 false true false).dqPins d) ≤ 5 →
        (0b100011).testBit
          (5 - (localPosition d (settingAt (row 1 3 3 3 false true false).dqPins d)).toNat) =
            true) ∧
      (localPosition d (settingAt (row 1 3 3 3 false true false).dqPins d) = 6 → d = 3)) ∧
    (∀ d, d < 3 → localPosition d (settingAt (row 1 3 3 3 false true false).dqPins d) <
      localPosition (d + 1) (settingAt (row 1 3 3 3 false true false).dqPins (d + 1)))) :=
  ⟨by decide, by decide,
    tsvLookupTable_positions 0b100011 (row 1 3 3 3 false true false) (by decide) (by decide)⟩

/-- C20: for every mask whose table entry is not failed, `mustBorrow` is true exactly when
the entry's last DQ (DQ 3) has the setting `DQ_SHIFT_2_RIGHT`, that is, when it takes the
next block's leftmost position. -/
theorem tsvLookupTable_mustBorrow_iff (m : Nat) (e : tsvLookup)
    (hentry : tsvLookupTable[m]? = some e) (hnf : e.failed = false) :
    (e.mustBorrow = true ↔ settingAt e.dqPins 3 = DQ_SHIFT_2_RIGHT) ∧
      (settingAt e.dqPins 3 = DQ_SHIFT_2_RIGHT ↔
        localPosition 3 (settingAt e.dqPins 3) = 6) := by
  refine ⟨mustBorrow_rows e (tsvLookupTable_mem_of_get m e hentry).1 hnf, ?_⟩
  have hb := dqShift_bounds (settingAt e.dqPins 3)
  have h2 := dqShift_eq_two (settingAt e.dqPins 3)
  unfold localPosition
  rw [← dqShift_eq_shiftValue]
  constructor
  · intro h
    have := h2.mpr h
    omega
  · intro h
    exact h2.mp (by omega)

/-- Witness of C20: mask `0b011100`. -/
theorem tsvLookupTable_mustBorrow_iff_witness :
    tsvLookupTable[0b011100]? = some (row 0 0 0 3 false true false) ∧
    (row 0 0 0 3 false true false).failed = false ∧
    (((row 0 0 0 3 false true false).mustBorrow = true ↔
        settingAt (row 0 0 0 3 false true false).dqPins 3 = DQ_SHIFT_2_RIGHT) ∧
      (settingAt (row 0 0 0 3 false true false).dqPins 3 = DQ_SHIFT_2_RIGHT ↔
        localPosition 3 (settingAt (row 0 0 0 3 false true false).dqPins 3) = 6)) :=
  ⟨by decide, by decide,
    tsvLookupTable_mustBorrow_iff 0b011100 (row 0 0 0 3 false true false) (by decide)
      (by decide)⟩

/-- C21 as stated fails: the entry of mask `0b101111` has `canLend` = true and its first DQ
has shift +1 (`DQ_SHIFT_1_RIGHT`), not shift 0. -/
theorem canLend_first_shift_101111 :
    ¬ ∀ e, tsvLookupTable[0b101111]? = some e → e.canLend = true →
      settingAt e.dqPins 0 = DQ_SHIFT_0 := by
  intro h
  have := h (row 2 2 2 2 false false true) (by decide) (by decide)
  exact absurd this (by decide)

/-- C21, amended: for every mask `m` whose entry has `canLend` = true, the block's leftmost
spare (local position 0, bit 0x20) is functional and is not the resolved position of any of
the entry's four DQs; the entry's first DQ has shift 0, except for mask `0b101111`, whose
first DQ has shift +1. -/
theorem tsvLookupTable_canLend_spare (m : Nat) (e : tsvLookup)
    (hentry : tsvLookupTable[m]? = some e) (hlend : e.canLend = true) :
    m.testBit 5 = true ∧ m &&& 0x20 ≠ 0 ∧
      (∀ d, d < 4 → localPosition d (settingAt e.dqPins d) ≠ 0) ∧
      (m ≠ 0b101111 → settingAt e.dqPins 0 = DQ_SHIFT_0) ∧
      (m = 0b101111 → settingAt e.dqPins 0 = DQ_SHIFT_1_RIGHT) :=
  canLend_rows m (tsvLookupTable_mem_of_get m e hentry).2 e hentry hlend

/-- Witness of the amended C21: mask `0b110111`. -/
theorem tsvLookupTable_canLend_spare_witness :
    tsvLookupTable[0b110111]? = some (row 0 2 2 2 false false true) ∧
    (row 0 2 2 2 false false true).canLend = true ∧
    ((0b110111).testBit 5 = true ∧ 0b110111 &&& 0x20 ≠ 0 ∧
      (∀ d, d < 4 → localPosition d (settingAt (row 0 2 2 2 false false true).dqPins d) ≠ 0) ∧
      (0b110111 ≠ 0b101111 →
        settingAt (row 0 2 2 2 false false true).dqPins 0 = DQ_SHIFT_0) ∧
      (0b110111 = 0b101111 →
        settingAt (row 0 2 2 2 false false true).dqPins 0 = DQ_SHIFT_1_RIGHT)) :=
  ⟨by decide, by decide,
    tsvLookupTable_canLend_spare 0b110111 (row 0 2 2 2 false false true) (by decide)
      (by decide)⟩

/-- C22: for every mask `m` in [0, 63] the entry's `failed` flag is true exactly when no
assignment of shifts in {-1, 0, +1, +2} sends the four DQs to pairwise distinct positions
`1 + d + shift_d`, each a functional pin of `m` or position 6. -/
theorem tsvLookupTable_failed_iff_no_placement (m : Nat) (e : tsvLookup)
    (hentry : tsvLookupTable[m]? = some e) :
    e.failed = true ↔ ¬ ∃ c0 c1 c2 c3, Placement m c0 c1 c2 c3 := by
  have hm := (tsvLookupTable_mem_of_get m e hentry).2
  have hbits := failed_iff_bits m hm
  rw [hentry] at hbits
  simp only [Option.map_some', Option.some.injEq] at hbits
  constructor
  · rintro hf ⟨c0, c1, c2, c3, hp⟩
    have h3 := placement_bits m c0 c1 c2 c3 hp
    rw [hf] at hbits
    have := of_decide_eq_true hbits.symm
    omega
  · intro hno
    by_contra hf
    have hnf : e.failed = false := by
      cases h : e.failed
      · rfl
      · exact absurd h hf
    exact hno ⟨_, _, _, _, row_placement m e hentry hnf⟩

/-- Witness of C22: mask `0b000011`, whose entry is failed. -/
theorem tsvLookupTable_failed_iff_no_placement_witness :
    tsvLookupTable[0b000011]? = some (row 0 0 0 0 true false false) ∧
    ((row 0 0 0 0 true false false).failed = true ↔
      ¬ ∃ c0 c1 c2 c3, Placement 0b000011 c0 c1 c2 c3) :=
  ⟨by decide,
    tsvLookupTable_failed_iff_no_placement 0b000011 (row 0 0 0 0 true false false)
      (by decide)⟩

/-- C23: for every mask with exactly 4 bits set the entry is an assignment of shifts in
{-1, 0, +1, +2} that sends the four DQs to pairwise distinct functional pins inside the
block, and its total shift magnitude is minimal among such assignments; for every mask with
exactly 3 bits set the entry sends them to pairwise distinct positions, each a functional
pin of the block or the next block's leftmost position, and its total shift magnitude is
minimal among such assignments. -/
theorem tsvLookupTable_minimal_shift (m : Nat) (e : tsvLookup) (c0 c1 c2 c3 : Nat)
    (hentry : tsvLookupTable[m]? = some e) :
    (bitsSet m = 4 →
        PlacementInBlock m (settingAt e.dqPins 0) (settingAt e.dqPins 1)
          (settingAt e.dqPins 2) (settingAt e.dqPins 3) ∧
        (PlacementInBlock m c0 c1 c2 c3 → entryMagnitude e ≤ shiftMagnitude c0 c1 c2 c3)) ∧
      (bitsSet m = 3 →
        Placement m (settingAt e.dqPins 0) (settingAt e.dqPins 1)
          (settingAt e.dqPins 2) (settingAt e.dqPins 3) ∧
        (Placement m c0 c1 c2 c3 → entryMagnitude e ≤ shiftMagnitude c0 c1 c2 c3)) := by
  have hm := (tsvLookupTable_mem_of_get m e hentry).2
  constructor
  · intro hb
    refine ⟨row_placement_in_block m hm hb e hentry, fun hp => ?_⟩
    exact minimal_four_bits m hm hb e hentry c0 hp.1 c1 hp.2.1 c2 hp.2.2.1 c3 hp.2.2.2.1 hp
  · intro hb
    refine ⟨row_placement m e hentry (three_bits_not_failed m hm hb e hentry), fun hp => ?_⟩
    exact minimal_three_bits m hm hb e hentry c0 hp.1 c1 hp.2.1 c2 hp.2.2.1 c3 hp.2.2.2.1 hp

/-- Witness of C23: mask `0b100111` against the assignment (-1, +1, +2, 0), which has the
same magnitude 4 as the entry (-1, +1, +1, +1). -/
theorem tsvLookupTable_minimal_shift_witness :
    tsvLookupTable[0b100111]? = some (row 1 2 2 2 false false false) ∧
    bitsSet 0b100111 = 4 ∧ PlacementInBlock 0b100111 1 2 3 0 ∧
    PlacementInBlock 0b100111 (settingAt (row 1 2 2 2 false false false).dqPins 0)
      (settingAt (row 1 2 2 2 false false false).dqPins 1)
      (settingAt (row 1 2 2 2 false false false).dqPins 2)
      (settingAt (row 1 2 2 2 false false false).dqPins 3) ∧
    entryMagnitude (row 1 2 2 2 false false false) ≤ shiftMagnitude 1 2 3 0 :=
  ⟨by decide, by decide, by decide,
    ((tsvLookupTable_minimal_shift 0b100111 (row 1 2 2 2 false false false) 1 2 3 0
      (by decide)).1 (by decide)).1,
    ((tsvLookupTable_minimal_shift 0b100111 (row 1 2 2 2 false false false) 1 2 3 0
      (by decide)).1 (by decide)).2 (by decide)⟩

/-- C24: the greedy chain is complete.  For 64 six-bit masks, whenever some assignment of
shift codes (shifts in {-1, 0, +1, +2}) to the 256 DQs has physical indices
`6 * (i div 4) + 1 + (i mod 4) + shift(i)` that all lie in [0, 383], are pairwise distinct and
all name functional pins, `InitializeDQ` returns true. -/
theorem InitializeDQ_greedy_complete (tsvBlocks : List tsv) (totaldqPins : List dq_pin)
    (printOutput : Bool) (code : Nat → Nat) (hwf : WellFormed tsvBlocks totaldqPins)
    (hcode : ∀ i, i < 256 → code i < 4)
    (hrange : ∀ i, i < 256 → 0 ≤ physIndex i (code i) ∧ physIndex i (code i) ≤ 383)
    (hdist : ∀ i j, i < j → j < 256 → physIndex i (code i) ≠ physIndex j (code j))
    (hfun : ∀ i, i < 256 → functionalPin tsvBlocks (physIndex i (code i)).toNat = true) :
    ∃ out, InitializeDQ tsvBlocks totaldqPins printOutput = some (.Done true, out) ∧
      (ReturnSite.Done true).value = true := by
  obtain ⟨b, out, hloop, hb⟩ := blockLoop_complete tsvBlocks totaldqPins code hwf hcode
    hdist hfun 64 (by omega)
  cases b with
  | true =>
    exfalso
    obtain ⟨_, h6⟩ := hb rfl
    have hp := physIndex_block 63 3 (code (4 * 63 + 3)) (by omega)
    have e : 4 * (64 - 1) + 3 = 4 * 63 + 3 := by omega
    rw [e] at h6
    rw [h6] at hp
    have := (hrange (4 * 63 + 3) (by omega)).2
    rw [hp] at this
    omega
  | false =>
    exact ⟨out, InitializeDQ_of_blockLoop tsvBlocks totaldqPins out printOutput hwf hloop,
      rfl⟩

/-- Witness of C24: 64 blocks with mask `0b011110` and the assignment that shifts no DQ. -/
theorem InitializeDQ_greedy_complete_witness :
    WellFormed (List.replicate 64 ⟨0b011110, false⟩) (List.replicate 256 ⟨1⟩) ∧
    (∀ i, i < 256 → (fun _ => 0) i < 4) ∧
    (∀ i, i < 256 → 0 ≤ physIndex i 0 ∧ physIndex i 0 ≤ 383) ∧
    (∀ i j, i < j → j < 256 → physIndex i 0 ≠ physIndex j 0) ∧
    (∀ i, i < 256 →
      functionalPin (List.replicate 64 ⟨0b011110, false⟩) (physIndex i 0).toNat = true) ∧
    ∃ out, InitializeDQ (List.replicate 64 ⟨0b011110, false⟩) (List.replicate 256 ⟨1⟩) true =
        some (.Done true, out) ∧
      (ReturnSite.Done true).value = true := by
  have hwf : WellFormed (List.replicate 64 ⟨0b011110, false⟩) (List.replicate 256 ⟨1⟩) :=
    wellFormed_replicate _ _ (by decide)
  have hz : shiftValue 0 = 0 := rfl
  have hcode : ∀ i, i < 256 → (fun _ => 0) i < 4 := fun _ _ => Nat.zero_lt_succ 3
  have hrange : ∀ i, i < 256 → 0 ≤ physIndex i 0 ∧ physIndex i 0 ≤ 383 := by
    intro i hi
    unfold physIndex
    rw [hz]
    omega
  have hdist : ∀ i j, i < j → j < 256 → physIndex i 0 ≠ physIndex j 0 := by
    intro i j hij hj
    unfold physIndex
    rw [hz]
    omega
  have hfun : ∀ i, i < 256 →
      functionalPin (List.replicate 64 ⟨0b011110, false⟩) (physIndex i 0).toNat = true := by
    intro i hi
    have e : (physIndex i 0).toNat = 6 * (i / 4) + (1 + i % 4) := by
      unfold physIndex
      rw [hz]
      omega
    rw [e, functionalPin_own _ (i / 4) ⟨0b011110, false⟩
      (by rw [List.getElem?_replicate, if_pos (by omega)]) _ (by omega)]
    have h4 : i % 4 < 4 := Nat.mod_lt _ (by omega)
    interval_cases (i % 4) <;> decide
  exact ⟨hwf, hcode, hrange, hdist, hfun,
    InitializeDQ_greedy_complete _ _ true (fun _ => 0) hwf hcode hrange hdist hfun⟩

/-- C25: for 64 six-bit masks, whenever the block loop of `InitializeDQ` resolves all 64
blocks and ends with no outstanding borrow, `sanityTestTable` accepts the emitted assignment;
so `InitializeDQ` never leaves through the verification-failure return, and it returns true
with an assignment exactly when the block loop alone ends that way with that assignment. -/
theorem InitializeDQ_chain_pass_decides (tsvBlocks : List tsv) (totaldqPins : List dq_pin)
    (printOutput : Bool) (hwf : WellFormed tsvBlocks totaldqPins) :
    (∀ out, blockLoop tsvBlocks 64 0 false totaldqPins = some (.next false out) →
      sanityTestTable tsvBlocks out = some true) ∧
    (∀ out, InitializeDQ tsvBlocks totaldqPins printOutput ≠
      some (.VerificationFailure, out)) ∧
    (∀ site out, InitializeDQ tsvBlocks totaldqPins printOutput = some (site, out) →
      (site.value = true ↔
        blockLoop tsvBlocks 64 0 false totaldqPins = some (.next false out))) ∧
    ((∃ site out, InitializeDQ tsvBlocks totaldqPins printOutput = some (site, out) ∧
        site.value = true) ↔
      ∃ out, blockLoop tsvBlocks 64 0 false totaldqPins = some (.next false out)) := by
  refine ⟨fun out h => sanityTestTable_of_blockLoop tsvBlocks totaldqPins out hwf h,
    fun out => InitializeDQ_not_verification tsvBlocks totaldqPins out printOutput hwf,
    ?_, ?_⟩
  · intro site out h
    constructor
    · intro hv
      exact (InitializeDQ_true tsvBlocks totaldqPins out printOutput site h hv).1
    · intro hloop
      rw [InitializeDQ_of_blockLoop tsvBlocks totaldqPins out printOutput hwf hloop] at h
      simp only [Option.some.injEq, Prod.mk.injEq] at h
      rw [← h.1]
      rfl
  · constructor
    · rintro ⟨site, out, h, hv⟩
      exact ⟨out, (InitializeDQ_true tsvBlocks totaldqPins out printOutput site h hv).1⟩
    · rintro ⟨out, hloop⟩
      exact ⟨.Done true, out,
        InitializeDQ_of_blockLoop tsvBlocks totaldqPins out printOutput hwf hloop, rfl⟩

/-- Witness of C25: 64 blocks with mask `0b011110`. -/
theorem InitializeDQ_chain_pass_decides_witness :
    WellFormed (List.replicate 64 ⟨0b011110, false⟩) (List.replicate 256 ⟨3⟩) ∧
    ((∀ out, blockLoop (List.replicate 64 ⟨0b011110, false⟩) 64 0 false
        (List.replicate 256 ⟨3⟩) = some (.next false out) →
      sanityTestTable (List.replicate 64 ⟨0b011110, false⟩) out = some true) ∧
    (∀ out, InitializeDQ (List.replicate 64 ⟨0b011110, false⟩) (List.replicate 256 ⟨3⟩)
      false ≠ some (.VerificationFailure, out)) ∧
    (∀ site out, InitializeDQ (List.replicate 64 ⟨0b011110, false⟩)
        (List.replicate 256 ⟨3⟩) false = some (site, out) →
      (site.value = true ↔
        blockLoop (List.replicate 64 ⟨0b011110, false⟩) 64 0 false
          (List.replicate 256 ⟨3⟩) = some (.next false out))) ∧
    ((∃ site out, InitializeDQ (List.replicate 64 ⟨0b011110, false⟩)
        (List.replicate 256 ⟨3⟩) false = some (site, out) ∧ site.value = true) ↔
      ∃ out, blockLoop (List.replicate 64 ⟨0b011110, false⟩) 64 0 false
        (List.replicate 256 ⟨3⟩) = some (.next false out))) :=
  ⟨wellFormed_replicate _ _ (by decide),
    InitializeDQ_chain_pass_decides _ _ false (wellFormed_replicate _ _ (by decide))⟩

/-- C26: a block with six-bit mask `m` that receives an inbound borrow resolves exactly when
bit 0x20 of `m` is set and `m` has at least 4 bits set, and then its outbound borrow is true
exactly when `m` has exactly 4 bits set; a block whose own entry has `mustBorrow` (exactly
3 bits) does not resolve under an inbound borrow: it leaves through the borrow-unavailable
return when bit 0x20 is clear and through the chain-borrow-failure return when it is set. -/
theorem loopBody_inbound_borrow (tsvBlocks : List tsv) (i : Nat) (totaldqPins : List dq_pin)
    (blk : tsv) (hblk : tsvBlocks[i]? = some blk) (hm : blk.tsvOperational < 64)
    (hb : i * 4 + 4 ≤ totaldqPins.length) :
    ((∃ mustBorrow out, loopBody tsvBlocks i true totaldqPins = some (.next mustBorrow out)) ↔
      (blk.tsvOperational &&& 0x20 ≠ 0 ∧ 4 ≤ bitsSet blk.tsvOperational)) ∧
    (∀ mustBorrow out, loopBody tsvBlocks i true totaldqPins = some (.next mustBorrow out) →
      (mustBorrow = true ↔ bitsSet blk.tsvOperational = 4)) ∧
    (∀ entry, tsvLookupTable[blk.tsvOperational]? = some entry → entry.mustBorrow = true →
      bitsSet blk.tsvOperational = 3 ∧
      (blk.tsvOperational &&& 0x20 = 0 →
        loopBody tsvBlocks i true totaldqPins =
          some (.returned (.BorrowUnavailable i) totaldqPins)) ∧
      (blk.tsvOperational &&& 0x20 ≠ 0 →
        loopBody tsvBlocks i true totaldqPins =
          some (.returned (.ChainBorrowFailure i) totaldqPins))) := by
  obtain ⟨h1, h2, h3, h4⟩ := resolve_inbound blk.tsvOperational hm
  have hlink := loopBody_resolve tsvBlocks i true totaldqPins blk hblk
  have hnext : ∀ mustBorrow out,
      loopBody tsvBlocks i true totaldqPins = some (.next mustBorrow out) →
        ∃ r, resolvedRow blk.tsvOperational true = some r ∧ mustBorrow = r.mustBorrow := by
    intro mustBorrow out h
    obtain ⟨blk2, r, hblk2, hres, hmb, _, _⟩ :=
      loopBody_next_resolved tsvBlocks i true mustBorrow totaldqPins out h
    rw [hblk] at hblk2
    cases hblk2
    exact ⟨r, (resolvedRow_eq _ _ r).mpr hres, hmb⟩
  refine ⟨⟨?_, ?_⟩, ?_, ?_⟩
  · rintro ⟨mustBorrow, out, h⟩
    obtain ⟨r, hr, _⟩ := hnext mustBorrow out h
    exact h1.mp (by rw [hr]; rfl)
  · intro hcond
    obtain ⟨r, hr⟩ := Option.isSome_iff_exists.mp (h1.mpr hcond)
    exact ⟨r.mustBorrow, _, loopBody_of_resolved tsvBlocks i true totaldqPins blk r hblk
      ((resolvedRow_eq _ _ r).mp hr) hb⟩
  · intro mustBorrow out h
    obtain ⟨r, hr, hmb⟩ := hnext mustBorrow out h
    rw [hmb]
    exact h2 r (Option.mem_def.mpr hr)
  · intro entry hentry hmust
    have hbits := mustBorrow_iff_bits blk.tsvOperational hm
    rw [hentry] at hbits
    simp only [Option.map_some', Option.some.injEq] at hbits
    rw [hmust] at hbits
    have h3bits : bitsSet blk.tsvOperational = 3 := of_decide_eq_true hbits.symm
    exact ⟨h3bits, fun h20 => hlink.2.2.1 (h3 h3bits h20),
      fun h20 => hlink.2.2.2.1 (h4 h3bits h20)⟩

/-- Witness of C26: one block with mask `0b100111` (bit 0x20 and three more bits). -/
theorem loopBody_inbound_borrow_witness :
    ([⟨0b100111, false⟩] : List tsv)[0]? = some ⟨0b100111, false⟩ ∧
    (⟨0b100111, false⟩ : tsv).tsvOperational < 64 ∧
    0 * 4 + 4 ≤ (List.replicate 4 (⟨0⟩ : dq_pin)).length ∧
    (((∃ mustBorrow out, loopBody [⟨0b100111, false⟩] 0 true (List.replicate 4 ⟨0⟩) =
        some (.next mustBorrow out)) ↔
      ((⟨0b100111, false⟩ : tsv).tsvOperational &&& 0x20 ≠ 0 ∧
        4 ≤ bitsSet (⟨0b100111, false⟩ : tsv).tsvOperational)) ∧
    (∀ mustBorrow out, loopBody [⟨0b100111, false⟩] 0 true (List.replicate 4 ⟨0⟩) =
        some (.next mustBorrow out) →
      (mustBorrow = true ↔ bitsSet (⟨0b100111, false⟩ : tsv).tsvOperational = 4)) ∧
    (∀ entry, tsvLookupTable[(⟨0b100111, false⟩ : tsv).tsvOperational]? = some entry →
      entry.mustBorrow = true →
      bitsSet (⟨0b100111, false⟩ : tsv).tsvOperational = 3 ∧
      ((⟨0b100111, false⟩ : tsv).tsvOperational &&& 0x20 = 0 →
        loopBody [⟨0b100111, false⟩] 0 true (List.replicate 4 ⟨0⟩) =
          some (.returned (.BorrowUnavailable 0) (List.replicate 4 ⟨0⟩))) ∧
      ((⟨0b100111, false⟩ : tsv).tsvOperational &&& 0x20 ≠ 0 →
        loopBody [⟨0b100111, false⟩] 0 true (List.replicate 4 ⟨0⟩) =
          some (.returned (.ChainBorrowFailure 0) (List.replicate 4 ⟨0⟩))))) :=
  ⟨rfl, by decide, by decide,
    loopBody_inbound_borrow [⟨0b100111, false⟩] 0 (List.replicate 4 ⟨0⟩) ⟨0b100111, false⟩
      rfl (by decide) (by decide)⟩

/-- C27: for every mask `m` in [0, 63] the entry's `mustBorrow` is true exactly when `m` has
exactly 3 bits set. -/
theorem tsvLookupTable_mustBorrow_three_bits (m : Nat) (e : tsvLookup)
    (hentry : tsvLookupTable[m]? = some e) : e.mustBorrow = true ↔ bitsSet m = 3 := by
  have h := mustBorrow_iff_bits m (tsvLookupTable_mem_of_get m e hentry).2
  rw [hentry] at h
  simp only [Option.map_some', Option.some.injEq] at h
  rw [h]
  exact decide_eq_true_iff

/-- Witness of C27: mask `0b010101`. -/
theorem tsvLookupTable_mustBorrow_three_bits_witness :
    tsvLookupTable[0b010101]? = some (row 0 2 3 3 false true false) ∧
    ((row 0 2 3 3 false true false).mustBorrow = true ↔ bitsSet 0b010101 = 3) :=
  ⟨by decide,
    tsvLookupTable_mustBorrow_three_bits 0b010101 (row 0 2 3 3 false true false)
      (by decide)⟩

/-- C28: for every mask `m` in [0, 63] the entry's `canLend` is true exactly when bit 0x20 of
`m` is set and `m` has at least 5 bits set; so `0b011111` cannot lend, and no reduced mask
`m & 0x1F` can lend. -/
theorem tsvLookupTable_canLend_iff (m : Nat) (e : tsvLookup)
    (hentry : tsvLookupTable[m]? = some e) :
    (e.canLend = true ↔ (m &&& 0x20 ≠ 0 ∧ 5 ≤ bitsSet m)) ∧
      (∀ r, tsvLookupTable[0b011111]? = some r → r.canLend = false) ∧
      (∀ r, tsvLookupTable[m &&& 0x1F]? = some r → r.canLend = false) := by
  have h := canLend_iff_bits m (tsvLookupTable_mem_of_get m e hentry).2
  rw [hentry] at h
  simp only [Option.map_some', Option.some.injEq] at h
  refine ⟨?_, ?_, ?_⟩
  · rw [h]
    exact decide_eq_true_iff
  · intro r hr
    have h2 := canLend_needs_spare 0b011111 (by decide) (by decide)
    rw [hr] at h2
    simpa using h2
  · intro r hr
    have h0 : (0x1F &&& 0x20 : Nat) = 0 := by decide
    have h2 := canLend_needs_spare (m &&& 0x1F) (land_1F_lt m) (by
      rw [Nat.and_assoc, h0, Nat.and_zero])
    rw [hr] at h2
    simpa using h2

/-- Witness of C28: mask `0b111101`. -/
theorem tsvLookupTable_canLend_iff_witness :
    tsvLookupTable[0b111101]? = some (row 0 0 0 2 false false true) ∧
    (((row 0 0 0 2 false false true).canLend = true ↔
        (0b111101 &&& 0x20 ≠ 0 ∧ 5 ≤ bitsSet 0b111101)) ∧
      (∀ r, tsvLookupTable[0b011111]? = some r → r.canLend = false) ∧
      (∀ r, tsvLookupTable[0b111101 &&& 0x1F]? = some r → r.canLend = false)) :=
  ⟨by decide,
    tsvLookupTable_canLend_iff 0b111101 (row 0 0 0 2 false false true) (by decide)⟩

/-- C29: the code departs from the claim, and from the header comment of `checkTSV` (more
than 2 pins set to 0 is an issue), on a group where byte group 0 of sub group 0 has exactly one default
bit (bit 1) at 0: `checkTSV` prints an issue line for it, with count 1, because it tests
`failed_tsv_count > 0`. -/
theorem checkTSV_reports_single_zero :
    GroupWellFormed singleFaultGroup ∧
    byteGroupAt singleFaultGroup 0 0 = some ⟨0b1111111101, 0⟩ ∧
    zeroDefaultBits 0b1111111101 = 1 ∧
    checkTSV singleFaultGroup = some [⟨0, 0, 1⟩] ∧
    ¬ ((∃ printed, checkTSV singleFaultGroup = some printed ∧ ∃ c, ⟨0, 0, c⟩ ∈ printed) ↔
      2 < zeroDefaultBits 0b1111111101) := by
  have hrun : checkTSV singleFaultGroup = some [⟨0, 0, 1⟩] := by decide
  refine ⟨by decide, by decide, by decide, hrun, ?_⟩
  intro h
  have := h.mp ⟨_, hrun, 1, List.mem_singleton.mpr rfl⟩
  exact absurd this (by decide)

/-- What `checkTSV` prints as the code stands: an issue line for a byte group exactly when
at least one of its default TSV bits (bits 1..8 of the 10-bit `tsv` field) is 0, with the
number of zero bits among bits 1..8 as the count; the spare bits 0 and 9 are not counted. -/
theorem checkTSV_reports (tsvGroup : tsv_group_t) (hwf : GroupWellFormed tsvGroup) :
    ∃ printed, checkTSV tsvGroup = some printed ∧
      (∀ i j bg, byteGroupAt tsvGroup i j = some bg →
        ((∃ c, (⟨i, j, c⟩ : Issue) ∈ printed) ↔ 0 < zeroDefaultBits bg.tsv) ∧
        (∀ c, (⟨i, j, c⟩ : Issue) ∈ printed → c = zeroDefaultBits bg.tsv)) ∧
      (∀ x y, (∀ k, 1 ≤ k → k ≤ 8 → x.testBit k = y.testBit k) →
        bitLoop x 8 1 0 = bitLoop y 8 1 0) := by
  obtain ⟨printed, hrun, hmem⟩ := checkTSV_mem tsvGroup hwf
  refine ⟨printed, hrun, ?_, ?_⟩
  · intro i j bg hat
    constructor
    · constructor
      · rintro ⟨c, hc⟩
        obtain ⟨bg2, hat2, hpos, _⟩ := (hmem _).mp hc
        rw [hat] at hat2
        cases hat2
        exact hpos
      · intro hpos
        exact ⟨zeroDefaultBits bg.tsv, (hmem _).mpr ⟨bg, hat, hpos, rfl⟩⟩
    · intro c hc
      obtain ⟨bg2, hat2, _, hcount⟩ := (hmem _).mp hc
      rw [hat] at hat2
      cases hat2
      exact hcount
  · intro x y hxy
    rw [bitLoop_eq, bitLoop_eq]
    congr 2
    apply List.filter_congr
    intro k hk
    obtain ⟨h1, h2⟩ := List.mem_range'_1.mp hk
    rw [hxy k h1 (by omega)]

/-- The printed lines of `checkTSV` on the group with a single zero default bit. -/
theorem checkTSV_reports_witness :
    GroupWellFormed singleFaultGroup ∧
    ∃ printed, checkTSV singleFaultGroup = some printed ∧
      (∀ i j bg, byteGroupAt singleFaultGroup i j = some bg →
        ((∃ c, (⟨i, j, c⟩ : Issue) ∈ printed) ↔ 0 < zeroDefaultBits bg.tsv) ∧
        (∀ c, (⟨i, j, c⟩ : Issue) ∈ printed → c = zeroDefaultBits bg.tsv)) ∧
      (∀ x y, (∀ k, 1 ≤ k → k ≤ 8 → x.testBit k = y.testBit k) →
        bitLoop x 8 1 0 = bitLoop y 8 1 0) :=
  ⟨by decide, checkTSV_reports singleFaultGroup (by decide)⟩

end TSVRepair
